import Mathlib

/-!
Shallow embedding of the room and dispatch core of tcp-room-server.

The Go program keeps clients and rooms behind pointers.  The embedding makes the
heap explicit: a pointer is an index into a list of objects, and every function
that dereferences a pointer returns `Option`, where `none` stands for a Go panic
(nil or dangling dereference, slice out of range).

* Go strings are lists of characters (`Str`).
* Go maps are association lists; iteration order is not observable here because
  every send made while ranging over a map goes to the queue of the member it is
  sent to.
* The field `outgoing` of a client holds a channel that is made with the client
  and never reassigned, so the channel of the client at pointer `c` is kept in
  the separate store `Server.outgoing c`: the history of the messages sent on
  it.  A send `c.outgoing <- m` appends `m` to that history; the write loop that
  drains the channel, the blocking of unbuffered sends, and logging are outside
  the model.
* Random draws of `rand.Intn` are an explicit argument `rnd`.
-/

namespace TcpRoom

/-! ## Strings and maps -/

/-- Go `string`. -/
abbrev Str := List Char

/-- Unique client id (`type ClientID string`). -/
abbrev ClientID := Str

/-- Unique room id (`type RoomID string`). -/
abbrev RoomID := Str

/-- Key of the handler table (`type HandlerPrefix string`). -/
abbrev HandlerPrefix := Str

/-- A `*client`: index into `Server.clientObjs`. -/
abbrev ClientRef := Nat

/-- A `*room`: index into `Server.roomObjs`. -/
abbrev RoomRef := Nat

/-- Map lookup `m[k]`. -/
def mapGet {V : Type} : List (Str × V) → Str → Option V
  | [], _ => none
  | (k1, v) :: t, k => if k1 = k then some v else mapGet t k

/-- Builtin `delete(m, k)`. -/
def mapDelete {V : Type} : List (Str × V) → Str → List (Str × V)
  | [], _ => []
  | (k1, v) :: t, k => if k1 = k then mapDelete t k else (k1, v) :: mapDelete t k

/-- Assignment `m[k] = v`. -/
def mapSet {V : Type} (m : List (Str × V)) (k : Str) (v : V) : List (Str × V) :=
  mapDelete m k ++ [(k, v)]

/-! ## Constants -/

def ROOM_ID_ALPHABET : Str := "ABCDEFGHIJKLMNOPQRSTUVWXYZ0123456789".toList
def ROOM_ID_LENGHT : Nat := 6
def CLIENT_JOINED_ROOM_NOTICE : Str := "JOINED".toList
def CLIENT_LEFT_ROOM_NOTICE : Str := "LEFT".toList

def CLIENT_ID_ALPHABET : Str :=
  "AaBbCcDdEeFfGgHhIiJjKkLlMmNnOoPpQqRrSsTtUuVvWwXxYyZz0123456789".toList
def CLIENT_ID_LENGHT : Nat := 16

def ERROR_NOTICE_PREFIX : Str := "ERR: ".toList
def SERVER_FULL_NOTICE : Str := ERROR_NOTICE_PREFIX ++ "The server is full".toList
def CREATING_ROOM_FAILED_NOTICE : Str := ERROR_NOTICE_PREFIX ++ "Creating room failed".toList
def CLIENT_ALREADY_IN_ROOM_NOTICE : Str := ERROR_NOTICE_PREFIX ++ "Client already in room".toList
def ROOM_NOT_EXISTS_NOTICE : Str := ERROR_NOTICE_PREFIX ++ "Room not exists".toList
def NOT_A_COMMAND_NOTICE : Str := ERROR_NOTICE_PREFIX ++ "Command not exists".toList

/-- The constant `math.MaxInt64`. -/
def MaxInt64 : Int := 9223372036854775807

/-! ## Data model -/

/-- The struct `Message`; `sender = none` is the nil pointer. -/
structure Message where
  text : Str
  sender : Option ClientRef
deriving DecidableEq, Repr

def NewMessage (sender : Option ClientRef) (text : Str) : Message :=
  { text := text, sender := sender }

/-- The struct `client`.  `connWritten` and `connClosed` stand for the connection
(`conn`): the raw writes made on it and whether `Close` was called.  `served`
records that `serve()` started the read and write loops.  The channel behind
the field `outgoing` is kept in `Server.outgoing`. -/
structure client where
  id : ClientID
  room : Option RoomRef
  connWritten : List Str
  connClosed : Bool
  served : Bool
deriving DecidableEq, Repr

/-- The struct `room`. -/
structure room where
  id : RoomID
  capacity : Int
  members : List (ClientID × ClientRef)
deriving DecidableEq, Repr

/-- The three implementations of the interface `Handler`. -/
inductive Handler where
  | createRoomHandler
  | joinRoomHandler
  | leaveRoomHandler
deriving DecidableEq, Repr

structure ServerConfig where
  MaxClients : Int
  Port : Str
  CommandPrefix : Str
deriving DecidableEq, Repr

def DefaultServerConfig : ServerConfig :=
  { MaxClients := 100, Port := "5558".toList, CommandPrefix := ":".toList }

/-- The struct `Server` together with the heap its pointers refer to: the
client and room objects (`clientObjs`, `roomObjs`) and, for every client
pointer, the messages sent so far on the outbound channel of that client
(`outgoing`). -/
structure Server where
  config : ServerConfig
  rooms : List (RoomID × RoomRef)
  clients : List (ClientID × ClientRef)
  handlers : List (HandlerPrefix × Handler)
  clientObjs : List client
  roomObjs : List room
  outgoing : ClientRef → List Message

def NewServer (config : ServerConfig) : Server :=
  { config := config
    rooms := []
    clients := []
    handlers :=
      mapSet (mapSet (mapSet [] "ROOM".toList Handler.createRoomHandler)
        "JOIN".toList Handler.joinRoomHandler) "LEAV".toList Handler.leaveRoomHandler
    clientObjs := []
    roomObjs := []
    outgoing := fun _ => [] }

/-! ## room.go -/

/-- Generates a room id from the draws `rnd i` of `rand.Intn`. -/
def genRoomID (rnd : Nat → Nat) : RoomID :=
  (List.range ROOM_ID_LENGHT).map
    (fun i => ROOM_ID_ALPHABET.getD (rnd i % ROOM_ID_ALPHABET.length) 'A')

/-- Creates a new empty room (a value; it enters the heap when it is registered). -/
def NewRoom (capacity : Int) (rnd : Nat → Nat) : room :=
  let capacity := if capacity < 1 then MaxInt64 else capacity
  { id := genRoomID rnd, members := [], capacity := capacity }

/-- The channel send `c.outgoing <- m`. -/
def Server.enqueue (s : Server) (c : ClientRef) (m : Message) : Option Server :=
  match s.clientObjs[c]? with
  | none => none
  | some _ => some { s with outgoing := Function.update s.outgoing c (s.outgoing c ++ [m]) }

/-- The loop of `broadcast`: sends `m` to every member that is not `sender`. -/
def sendAll (s : Server) (sender : ClientRef) (m : Message) :
    List (ClientID × ClientRef) → Option Server
  | [] => some s
  | (_, member) :: t =>
    if member ≠ sender then
      match s.enqueue member m with
      | none => none
      | some s1 => sendAll s1 sender m t
    else sendAll s sender m t

/-- Sends messages to all participants in the room except the sender.  Returns
the new state and the message as rewritten in place. -/
def room.broadcast (s : Server) (r : RoomRef) (m : Message) : Option (Server × Message) :=
  match m.sender with
  | none => none
  | some sender =>
    match s.clientObjs[sender]? with
    | none => none
    | some sc =>
      let m1 : Message := { m with text := sc.id ++ ": ".toList ++ m.text }
      match s.roomObjs[r]? with
      | none => none
      | some rm =>
        match sendAll s sender m1 rm.members with
        | none => none
        | some s1 => some (s1, m1)

/-- Adds new member to the room.  The second component is the returned error. -/
def room.join (s : Server) (r : RoomRef) (c : ClientRef) : Option (Server × Option Str) :=
  match s.roomObjs[r]? with
  | none => none
  | some rm =>
    if (rm.members.length : Int) ≥ rm.capacity then
      some (s, some "ERR: Room is full".toList)
    else
      match s.clientObjs[c]? with
      | none => none
      | some cl =>
        let s1 : Server := { s with clientObjs := s.clientObjs.set c { cl with room := some r } }
        let s2 : Server :=
          { s1 with roomObjs := s1.roomObjs.set r { rm with members := mapSet rm.members cl.id c } }
        match room.broadcast s2 r (NewMessage (some c) CLIENT_JOINED_ROOM_NOTICE) with
        | none => none
        | some (s3, _) => some (s3, none)

/-- Removes member from room. -/
def room.leave (s : Server) (r : RoomRef) (c : ClientRef) : Option Server :=
  match room.broadcast s r (NewMessage (some c) CLIENT_LEFT_ROOM_NOTICE) with
  | none => none
  | some (s1, _) =>
    match s1.roomObjs[r]?, s1.clientObjs[c]? with
    | some rm, some cl =>
      let s2 : Server :=
        { s1 with roomObjs := s1.roomObjs.set r { rm with members := mapDelete rm.members cl.id } }
      some { s2 with clientObjs := s2.clientObjs.set c { cl with room := none } }
    | _, _ => none

/-! ## Library functions used by the server (`strings`, `strconv`) -/

/-- The function `strings.HasPrefix`. -/
def HasPrefix (s pre : Str) : Bool := pre.isPrefixOf s

/-- The slice expression `s[n:]`; `none` is the out-of-range panic. -/
def sliceFrom {α : Type} (s : List α) (n : Nat) : Option (List α) :=
  if n ≤ s.length then some (s.drop n) else none

/-- First result of `strings.Cut(s, " ")`: the text before the first space. -/
def CutSpace (s : Str) : Str := s.takeWhile (fun ch => decide (ch ≠ ' '))

/-- The function `strings.TrimSuffix(s, "\n")`. -/
def TrimSuffixNewline (s : Str) : Str :=
  if s.getLast? = some '\n' then s.dropLast else s

/-- The function `strings.Split(s, " ")`. -/
def SplitSpace : Str → List Str
  | [] => [[]]
  | ch :: t =>
    if ch = ' ' then [] :: SplitSpace t
    else
      match SplitSpace t with
      | [] => [[ch]]
      | h :: rest => (ch :: h) :: rest

/-- Value of a decimal digit. -/
def digitVal (ch : Char) : Option Nat :=
  if '0' ≤ ch ∧ ch ≤ '9' then some (ch.toNat - 48) else none

/-- Reads a non-empty run of decimal digits. -/
def parseDigits : Str → Nat → Option Nat
  | [], _ => none
  | [ch], acc => (digitVal ch).map (fun d => acc * 10 + d)
  | ch :: t, acc =>
    match digitVal ch with
    | none => none
    | some d => parseDigits t (acc * 10 + d)

/-- The function `strconv.Atoi` on a 64-bit platform; `none` is a returned error. -/
def Atoi (s : Str) : Option Int :=
  match s with
  | [] => none
  | '-' :: t =>
    match parseDigits t 0 with
    | none => none
    | some n => if n ≤ 9223372036854775808 then some (-(n : Int)) else none
  | '+' :: t =>
    match parseDigits t 0 with
    | none => none
    | some n => if n ≤ 9223372036854775807 then some (n : Int) else none
  | _ =>
    match parseDigits s 0 with
    | none => none
    | some n => if n ≤ 9223372036854775807 then some (n : Int) else none

/-! ## client.go -/

/-- Generates a client id from the draws `rnd i` of `rand.Intn`. -/
def genClientID (rnd : Nat → Nat) : ClientID :=
  (List.range CLIENT_ID_LENGHT).map
    (fun i => CLIENT_ID_ALPHABET.getD (rnd i % CLIENT_ID_ALPHABET.length) 'A')

/-- Creates new client: allocates it and returns the pointer. -/
def NewClient (s : Server) (rnd : Nat → Nat) : Server × ClientRef :=
  ({ s with
      clientObjs := s.clientObjs ++
        [{ id := genClientID rnd, room := none, connWritten := [], connClosed := false,
           served := false }] },
   s.clientObjs.length)

/-- Starts read and write data from client connection. -/
def client.serve (s : Server) (c : ClientRef) : Option Server :=
  match s.clientObjs[c]? with
  | none => none
  | some cl => some { s with clientObjs := s.clientObjs.set c { cl with served := true } }

/-- Closes the connection of the client. -/
def client.quit (s : Server) (c : ClientRef) : Option Server :=
  match s.clientObjs[c]? with
  | none => none
  | some cl => some { s with clientObjs := s.clientObjs.set c { cl with connClosed := true } }

/-- The call `c.conn.Write(b)`. -/
def client.connWrite (s : Server) (c : ClientRef) (b : Str) : Option Server :=
  match s.clientObjs[c]? with
  | none => none
  | some cl =>
    some { s with clientObjs := s.clientObjs.set c { cl with connWritten := cl.connWritten ++ [b] } }

/-! ## server.go -/

/-- Adds new client to the server. -/
def Server.Join (s : Server) (c : ClientRef) : Option Server :=
  if (s.clients.length : Int) ≥ s.config.MaxClients then
    match client.connWrite s c SERVER_FULL_NOTICE with
    | none => none
    | some s1 => client.quit s1 c
  else
    match s.clientObjs[c]? with
    | none => none
    | some cl =>
      let s1 : Server := { s with clients := mapSet s.clients cl.id c }
      match client.serve s1 c with
      | none => none
      | some s2 => s2.enqueue c (NewMessage (some c) cl.id)

def Server.DeleteRoom (s : Server) (r : RoomRef) : Option Server :=
  match s.roomObjs[r]? with
  | none => none
  | some rm => some { s with rooms := mapDelete s.rooms rm.id }

def Server.removeFromRoom (s : Server) (c : ClientRef) : Option Server :=
  match s.clientObjs[c]? with
  | none => none
  | some cl =>
    match cl.room with
    | none => some s
    | some r =>
      match room.leave s r c with
      | none => none
      | some s1 =>
        match s1.roomObjs[r]? with
        | none => none
        | some rm => if rm.members.length = 0 then s1.DeleteRoom r else some s1

/-- Disconnects client from server. -/
def Server.Disconnect (s : Server) (c : ClientRef) : Option Server :=
  match s.removeFromRoom c with
  | none => none
  | some s1 =>
    match client.quit s1 c with
    | none => none
    | some s2 =>
      match s2.clientObjs[c]? with
      | none => none
      | some cl => some { s2 with clients := mapDelete s2.clients cl.id }

/-- Sends the message to clients from the same room. -/
def Server.Send (s : Server) (m : Message) : Option (Server × Message) :=
  match m.sender with
  | none => some (s, m)
  | some sender =>
    match s.clientObjs[sender]? with
    | none => none
    | some sc =>
      match sc.room with
      | none => some (s, m)
      | some r => room.broadcast s r m

def Server.CreateRoom (s : Server) (c : ClientRef) (roomCapacity : Int) (rnd : Nat → Nat) :
    Option Server :=
  match s.clientObjs[c]? with
  | none => none
  | some cl =>
    if cl.room ≠ none then
      s.enqueue c (NewMessage (some c) CLIENT_ALREADY_IN_ROOM_NOTICE)
    else
      let fresh := NewRoom roomCapacity rnd
      if mapGet s.rooms fresh.id ≠ none then
        s.enqueue c (NewMessage (some c) CREATING_ROOM_FAILED_NOTICE)
      else
        let r : RoomRef := s.roomObjs.length
        let s1 : Server :=
          { s with roomObjs := s.roomObjs ++ [fresh], rooms := mapSet s.rooms fresh.id r }
        match room.join s1 r c with
        | none => none
        | some (s2, _) =>
          match s2.clientObjs[c]? with
          | none => none
          | some cl2 =>
            match cl2.room with
            | none => none
            | some cr =>
              match s2.roomObjs[cr]? with
              | none => none
              | some crm => s2.enqueue c (NewMessage (some c) crm.id)

def Server.JoinRoom (s : Server) (c : ClientRef) (roomID : RoomID) : Option Server :=
  match s.clientObjs[c]? with
  | none => none
  | some cl =>
    if cl.room ≠ none then
      s.enqueue c (NewMessage (some c) CLIENT_ALREADY_IN_ROOM_NOTICE)
    else
      match mapGet s.rooms roomID with
      | none => s.enqueue c (NewMessage (some c) ROOM_NOT_EXISTS_NOTICE)
      | some r =>
        match room.join s r c with
        | none => none
        | some (s1, some err) => s1.enqueue c (NewMessage (some c) err)
        | some (s1, none) => s1.enqueue c (NewMessage (some c) "JOINED".toList)

def Server.LeaveRoom (s : Server) (c : ClientRef) : Option Server :=
  match s.removeFromRoom c with
  | none => none
  | some s1 => s1.enqueue c (NewMessage (some c) CLIENT_LEFT_ROOM_NOTICE)

/-! ## handler.go -/

def createRoomHandler.handle (s : Server) (m : Message) (rnd : Nat → Nat) :
    Option (Server × Option Str) :=
  let mess_parts := SplitSpace m.text
  if mess_parts.length > 2 then some (s, some "Invalid command format".toList)
  else
    let parsed : Option Int :=
      if mess_parts.length > 1 then
        match mess_parts[1]? with
        | none => none
        | some capacity_str =>
          match Atoi capacity_str with
          | none => none
          | some capacity_param => some (if capacity_param > 0 then capacity_param else MaxInt64)
      else some MaxInt64
    match parsed with
    | none => some (s, some "Invalid command format".toList)
    | some room_capacity =>
      match m.sender with
      | none => none
      | some creator =>
        match s.CreateRoom creator room_capacity rnd with
        | none => none
        | some s1 => some (s1, none)

def joinRoomHandler.handle (s : Server) (m : Message) : Option (Server × Option Str) :=
  match sliceFrom (SplitSpace m.text) 1 with
  | none => none
  | some args =>
    if args.length < 1 then some (s, some "Invalid command format".toList)
    else
      match args[0]? with
      | none => none
      | some arg0 =>
        match m.sender with
        | none => none
        | some cl =>
          match s.JoinRoom cl (TrimSuffixNewline arg0) with
          | none => none
          | some s1 => some (s1, none)

def leaveRoomHandler.handle (s : Server) (m : Message) : Option (Server × Option Str) :=
  match m.sender with
  | none => none
  | some cl =>
    match s.LeaveRoom cl with
    | none => none
    | some s1 => some (s1, none)

/-- Dynamic dispatch of `handler.handle(m)`. -/
def Handler.handle (h : Handler) (s : Server) (m : Message) (rnd : Nat → Nat) :
    Option (Server × Option Str) :=
  match h with
  | Handler.createRoomHandler => createRoomHandler.handle s m rnd
  | Handler.joinRoomHandler => joinRoomHandler.handle s m
  | Handler.leaveRoomHandler => leaveRoomHandler.handle s m

/-- Parses the message for processing.  Returns the new state and the message
(whose text `broadcast` may have rewritten). -/
def Server.parse (s : Server) (m : Message) (rnd : Nat → Nat) : Option (Server × Message) :=
  if !HasPrefix m.text s.config.CommandPrefix then s.Send m
  else
    match sliceFrom m.text s.config.CommandPrefix.length with
    | none => none
    | some rest =>
      let handlerPrefix := TrimSuffixNewline (CutSpace rest)
      match mapGet s.handlers handlerPrefix with
      | none =>
        match m.sender with
        | none => none
        | some sender =>
          match s.enqueue sender (NewMessage (some sender) NOT_A_COMMAND_NOTICE) with
          | none => none
          | some s1 => some (s1, m)
      | some handler =>
        match handler.handle s m rnd with
        | none => none
        | some (s1, none) => some (s1, m)
        | some (s1, some err) =>
          match m.sender with
          | none => none
          | some sender =>
            match s1.enqueue sender (NewMessage (some sender) (ERROR_NOTICE_PREFIX ++ err)) with
            | none => none
            | some s2 => some (s2, m)

/-! ## Runs of the server -/

/-- One step of the server as seen by its tables: a connection is accepted
(`NewClient` followed by `Server.Join`), or one of the room operations or
`Disconnect` is carried out for a client. -/
inductive Op where
  | accept (rnd : Nat → Nat)
  | createRoom (c : ClientRef) (roomCapacity : Int) (rnd : Nat → Nat)
  | joinRoom (c : ClientRef) (roomID : RoomID)
  | leaveRoom (c : ClientRef)
  | disconnect (c : ClientRef)

/-- The client behind `c` has had `serve()` called. -/
def isServed (s : Server) (c : ClientRef) : Bool :=
  match s.clientObjs[c]? with
  | none => false
  | some cl => cl.served

/-- Messages and disconnections only come from clients whose loops were started
by `Server.Join`: the forwarding goroutine is created there. -/
def Op.enabled (s : Server) : Op → Bool
  | Op.accept _ => true
  | Op.createRoom c _ _ => isServed s c
  | Op.joinRoom c _ => isServed s c
  | Op.leaveRoom c => isServed s c
  | Op.disconnect c => isServed s c

def Server.exec (s : Server) : Op → Option Server
  | Op.accept rnd => (NewClient s rnd).1.Join (NewClient s rnd).2
  | Op.createRoom c roomCapacity rnd => s.CreateRoom c roomCapacity rnd
  | Op.joinRoom c roomID => s.JoinRoom c roomID
  | Op.leaveRoom c => s.LeaveRoom c
  | Op.disconnect c => s.Disconnect c

/-- States the server can be in: `NewServer`, then any steps, for any clients. -/
inductive Reachable : Server → Prop where
  | init (config : ServerConfig) : Reachable (NewServer config)
  | step {s s1 : Server} (op : Op) :
      Reachable s → s.exec op = some s1 → Reachable s1

/-- States the server can be in when the room operations and `Disconnect` are
only carried out for clients admitted by `Server.Join` (the enabled steps). -/
inductive ReachableAdmitted : Server → Prop where
  | init (config : ServerConfig) : ReachableAdmitted (NewServer config)
  | step {s s1 : Server} (op : Op) :
      ReachableAdmitted s → op.enabled s = true → s.exec op = some s1 → ReachableAdmitted s1

/-- The state after sending `m` on the outbound channel of `c`. -/
def Server.withSent (s : Server) (c : ClientRef) (m : Message) : Server :=
  { s with outgoing := Function.update s.outgoing c (s.outgoing c ++ [m]) }

/-- Clients that were served have pairwise distinct ids. -/
def DistinctServedIds (s : Server) : Prop :=
  ∀ (p q : ClientRef) (cp cq : client), s.clientObjs[p]? = some cp → s.clientObjs[q]? = some cq →
    cp.served = true → cq.served = true → cp.id = cq.id → p = q

/-- Properties of the tables that hold in every reachable state. -/
structure Inv (s : Server) : Prop where
  registered : ∀ (id : RoomID) (r : RoomRef), mapGet s.rooms id = some r →
    ∃ rm : room, s.roomObjs[r]? = some rm ∧ rm.id = id ∧ rm.members ≠ []
  bounded : ∀ (r : RoomRef) (rm : room), s.roomObjs[r]? = some rm →
    (rm.members.length : Int) ≤ rm.capacity
  keys : ∀ (r : RoomRef) (rm : room), s.roomObjs[r]? = some rm →
    (rm.members.map Prod.fst).Nodup
  member : ∀ (r : RoomRef) (rm : room) (k : ClientID) (p : ClientRef),
    s.roomObjs[r]? = some rm → (k, p) ∈ rm.members →
    ∃ cl : client, s.clientObjs[p]? = some cl ∧ cl.id = k ∧ cl.room = some r
  roomValid : ∀ (c : ClientRef) (cl : client) (r : RoomRef),
    s.clientObjs[c]? = some cl → cl.room = some r → r < s.roomObjs.length
  table : ∀ (id : ClientID) (c : ClientRef), mapGet s.clients id = some c →
    ∃ cl : client, s.clientObjs[c]? = some cl ∧ cl.id = id
  handlersFixed : s.handlers = (NewServer s.config).handlers

/-- Every member of a room is a served client. -/
def ServedMembers (s : Server) : Prop :=
  ∀ (r : RoomRef) (rm : room) (k : ClientID) (p : ClientRef),
    s.roomObjs[r]? = some rm → (k, p) ∈ rm.members →
    ∃ cl : client, s.clientObjs[p]? = some cl ∧ cl.served = true

/-- Every client with a current room is recorded in that room under its id. -/
def CurrentRoomRecorded (s : Server) : Prop :=
  ∀ (c : ClientRef) (cl : client) (r : RoomRef), s.clientObjs[c]? = some cl → cl.room = some r →
    ∃ rm : room, s.roomObjs[r]? = some rm ∧ (cl.id, c) ∈ rm.members

/-- The state after `broadcast` sent `m` to the members other than `sender`. -/
def Server.withBroadcast (s : Server) (sender : ClientRef)
    (members : List (ClientID × ClientRef)) (m : Message) : Server :=
  { s with outgoing := fun p =>
      if (p ≠ sender ∧ p ∈ members.map Prod.snd) then s.outgoing p ++ [m] else s.outgoing p }

/-- The fields written by a successful `room.join`. -/
def Server.entered (s : Server) (r : RoomRef) (rm : room) (c : ClientRef) (cl : client) :
    Server :=
  { s with
    clientObjs := s.clientObjs.set c { cl with room := some r }
    roomObjs := s.roomObjs.set r { rm with members := mapSet rm.members cl.id c } }

/-- The fields written by `Server.CreateRoom` when the room is created. -/
def Server.created (s : Server) (c : ClientRef) (cl : client) (capacity : Int)
    (rnd : Nat → Nat) : Server :=
  { s with
    rooms := mapSet s.rooms (genRoomID rnd) s.roomObjs.length
    roomObjs := s.roomObjs ++
      [{ id := genRoomID rnd
         capacity := if capacity < 1 then MaxInt64 else capacity
         members := [(cl.id, c)] }]
    clientObjs := s.clientObjs.set c { cl with room := some s.roomObjs.length } }

/-- The fields written by `Server.removeFromRoom` for a client in room `r`. -/
def Server.removed (s : Server) (r : RoomRef) (rm : room) (c : ClientRef) (cl : client) :
    Server :=
  { s with
    rooms := if (mapDelete rm.members cl.id).length = 0 then mapDelete s.rooms rm.id else s.rooms
    roomObjs := s.roomObjs.set r { rm with members := mapDelete rm.members cl.id }
    clientObjs := s.clientObjs.set c { cl with room := none } }

/-- The member map `l` is keyed by the ids of live clients. -/
def KeyedByIds (s : Server) (l : List (ClientID × ClientRef)) : Prop :=
  ∀ (k : ClientID) (p : ClientRef), (k, p) ∈ l →
    ∃ cl : client, s.clientObjs[p]? = some cl ∧ cl.id = k

/-- The fields written by `Server.Disconnect` after the client left its room:
the connection is closed and the client is taken out of the clients table. -/
def Server.closed (s : Server) (c : ClientRef) (cl : client) : Server :=
  { s with
    clientObjs := s.clientObjs.set c { cl with connClosed := true }
    clients := mapDelete s.clients cl.id }

/-- Runs a list of steps; `none` when a step is not enabled or panics. -/
def Server.run (s : Server) : List Op → Option Server
  | [] => some s
  | op :: ops =>
    if op.enabled s then
      match s.exec op with
      | none => none
      | some s1 => s1.run ops
    else none

/-! ## Example runs -/

/-- Three clients are accepted. -/
def lobbyOps : List Op :=
  [Op.accept (fun _ => 0), Op.accept (fun _ => 1), Op.accept (fun _ => 2)]

/-- Then the first client creates a room of capacity 2. -/
def soloOps : List Op := lobbyOps ++ [Op.createRoom 0 2 (fun _ => 0)]

/-- Then the second client joins that room, which is now full. -/
def demoOps : List Op := soloOps ++ [Op.joinRoom 1 "AAAAAA".toList]

def lobbyState : Server :=
  ((NewServer DefaultServerConfig).run lobbyOps).getD (NewServer DefaultServerConfig)

def soloState : Server :=
  ((NewServer DefaultServerConfig).run soloOps).getD (NewServer DefaultServerConfig)

def demoState : Server :=
  ((NewServer DefaultServerConfig).run demoOps).getD (NewServer DefaultServerConfig)

/-- Every client of `l` is still at its place in `l1`, with the same id and
still served if it was. -/
def KeptClients (l l1 : List client) : Prop :=
  ∀ (p : ClientRef) (cp : client), l[p]? = some cp →
    ∃ cp1 : client, l1[p]? = some cp1 ∧ cp1.id = cp.id ∧ (cp.served = true → cp1.served = true)

/-- Four clients are accepted and the fourth creates an unbounded room, whose
generated id is "AAAAAA". -/
def crowdOps : List Op :=
  lobbyOps ++ [Op.accept (fun _ => 3), Op.createRoom 3 0 (fun _ => 0)]

def crowdState : Server :=
  ((NewServer DefaultServerConfig).run crowdOps).getD (NewServer DefaultServerConfig)

/-- A server for at most two clients. -/
def packedConfig : ServerConfig :=
  { MaxClients := 2, Port := "5558".toList, CommandPrefix := ":".toList }

/-- Two clients were admitted: the server for two clients is full. -/
def packedState : Server :=
  ((NewServer packedConfig).run [Op.accept (fun _ => 0), Op.accept (fun _ => 1)]).getD
    (NewServer packedConfig)

/-- A configuration with `MaxClients` below 1. -/
def zeroConfig : ServerConfig :=
  { MaxClients := 0, Port := "5558".toList, CommandPrefix := ":".toList }

/-! ## client.go: the read loop -/

/-- The function `strings.Trim(s, cutset)`: removes the leading and the trailing
characters that are in `cutset`. -/
def Trim (s cutset : Str) : Str :=
  ((s.dropWhile (fun ch => decide (ch ∈ cutset))).reverse.dropWhile
    (fun ch => decide (ch ∈ cutset))).reverse

/-- Error results of `c.reader.ReadString`. -/
inductive ReadError where
  | eof
  | other
deriving DecidableEq, Repr

/-- Reads data from tcp client connection.  `reads` lists the successive results
`(str, err)` of `c.reader.ReadString('\n')`; the value is the list of messages
put on `c.incoming` before the loop ends. -/
def client.readLoop (c : ClientRef) : List (Str × Option ReadError) → List Message
  | [] => []
  | (str, none) :: rest =>
    NewMessage (some c) (Trim str " \t\n".toList) :: client.readLoop c rest
  | (_, some _) :: _ => []

/-! ## The running server -/

/-- States of the running server: `NewServer`, then accepted connections, room
operations and disconnections for any clients, and messages dispatched by
`Server.parse`. -/
inductive Running : Server → Prop where
  | init (config : ServerConfig) : Running (NewServer config)
  | step {s s1 : Server} (op : Op) : Running s → s.exec op = some s1 → Running s1
  | dispatch {s s1 : Server} (m m1 : Message) (rnd : Nat → Nat) :
      Running s → s.parse m rnd = some (s1, m1) → Running s1

/-! ## Theorems -/

theorem enqueue_eq (s : Server) (c : ClientRef) (m : Message) (cl : client)
    (hc : s.clientObjs[c]? = some cl) : s.enqueue c m = some (s.withSent c m) := by
  simp [Server.enqueue, Server.withSent, hc]

/-! ### Maps -/

theorem mem_mapDelete {V : Type} (m : List (Str × V)) (k : Str) (e : Str × V) :
    e ∈ mapDelete m k ↔ e ∈ m ∧ e.1 ≠ k := by
  induction m with
  | nil => simp [mapDelete]
  | cons x t ih =>
    obtain ⟨k1, v⟩ := x
    by_cases h : k1 = k
    · simp only [mapDelete, h, if_true, ih, List.mem_cons]
      constructor
      · rintro ⟨h1, h2⟩
        exact ⟨Or.inr h1, h2⟩
      · rintro ⟨h1 | h1, h2⟩
        · exact absurd (by rw [h1]) h2
        · exact ⟨h1, h2⟩
    · simp only [mapDelete, h, if_false, ih, List.mem_cons]
      constructor
      · rintro (h1 | ⟨h1, h2⟩)
        · exact ⟨Or.inl h1, by rw [h1]; exact h⟩
        · exact ⟨Or.inr h1, h2⟩
      · rintro ⟨h1 | h1, h2⟩
        · exact Or.inl h1
        · exact Or.inr ⟨h1, h2⟩

theorem mem_mapSet {V : Type} (m : List (Str × V)) (k : Str) (v : V) (e : Str × V) :
    e ∈ mapSet m k v ↔ (e ∈ m ∧ e.1 ≠ k) ∨ e = (k, v) := by
  simp only [mapSet, List.mem_append, mem_mapDelete, List.mem_singleton]

theorem length_mapDelete_le {V : Type} (m : List (Str × V)) (k : Str) :
    (mapDelete m k).length ≤ m.length := by
  induction m with
  | nil => simp [mapDelete]
  | cons x t ih =>
    obtain ⟨k1, v⟩ := x
    by_cases h : k1 = k
    · simp only [mapDelete, h, if_true, List.length_cons]; omega
    · simp only [mapDelete, h, if_false, List.length_cons]; omega

theorem length_mapSet_le {V : Type} (m : List (Str × V)) (k : Str) (v : V) :
    (mapSet m k v).length ≤ m.length + 1 := by
  have := length_mapDelete_le m k
  simp only [mapSet, List.length_append, List.length_singleton]
  omega

theorem mapSet_ne_nil {V : Type} (m : List (Str × V)) (k : Str) (v : V) :
    mapSet m k v ≠ [] := by
  simp [mapSet]

theorem nodup_keys_mapDelete {V : Type} (m : List (Str × V)) (k : Str)
    (h : (m.map Prod.fst).Nodup) : ((mapDelete m k).map Prod.fst).Nodup := by
  induction m with
  | nil => simp [mapDelete]
  | cons x t ih =>
    obtain ⟨k1, v⟩ := x
    rw [List.map_cons, List.nodup_cons] at h
    by_cases hk : k1 = k
    · simp only [mapDelete, hk, if_true]
      exact ih h.2
    · simp only [mapDelete, hk, if_false, List.map_cons, List.nodup_cons]
      refine ⟨?_, ih h.2⟩
      intro hmem
      apply h.1
      obtain ⟨e, he, he1⟩ := List.mem_map.1 hmem
      exact List.mem_map.2 ⟨e, ((mem_mapDelete t k e).1 he).1, he1⟩

theorem nodup_keys_mapSet {V : Type} (m : List (Str × V)) (k : Str) (v : V)
    (h : (m.map Prod.fst).Nodup) : ((mapSet m k v).map Prod.fst).Nodup := by
  unfold mapSet
  rw [List.map_append, List.nodup_append]
  refine ⟨nodup_keys_mapDelete m k h, by simp, ?_⟩
  intro x hx hx2
  obtain ⟨e, he, he1⟩ := List.mem_map.1 hx
  simp only [List.map_cons, List.map_nil, List.mem_singleton] at hx2
  exact ((mem_mapDelete m k e).1 he).2 (he1.trans hx2)

theorem mapGet_eq_none {V : Type} (m : List (Str × V)) (k : Str) :
    mapGet m k = none ↔ ∀ e ∈ m, e.1 ≠ k := by
  induction m with
  | nil => exact ⟨fun _ e he => absurd he (List.not_mem_nil e), fun _ => rfl⟩
  | cons x t ih =>
    obtain ⟨k1, v⟩ := x
    by_cases h : k1 = k
    · simp only [mapGet, h, if_true]
      constructor
      · intro h1; cases h1
      · intro h1; exact absurd rfl (h1 (k, v) (List.mem_cons_self _ _))
    · simp only [mapGet, h, if_false, ih]
      constructor
      · intro h1 e he
        rcases List.mem_cons.1 he with rfl | he
        · exact h
        · exact h1 e he
      · intro h1 e he
        exact h1 e (List.mem_cons_of_mem _ he)

theorem mapGet_mem {V : Type} (m : List (Str × V)) (k : Str) (v : V)
    (h : mapGet m k = some v) : (k, v) ∈ m := by
  induction m with
  | nil => simp [mapGet] at h
  | cons x t ih =>
    obtain ⟨k1, v1⟩ := x
    by_cases hk : k1 = k
    · simp only [mapGet, hk, if_true, Option.some.injEq] at h
      rw [hk, h]; exact List.mem_cons_self _ _
    · simp only [mapGet, hk, if_false] at h
      exact List.mem_cons_of_mem _ (ih h)

theorem mapGet_append {V : Type} (m1 m2 : List (Str × V)) (k : Str) :
    mapGet (m1 ++ m2) k = match mapGet m1 k with
      | some v => some v
      | none => mapGet m2 k := by
  induction m1 with
  | nil => simp [mapGet]
  | cons x t ih =>
    obtain ⟨k1, v1⟩ := x
    by_cases hk : k1 = k
    · simp only [List.cons_append, mapGet, hk, if_true]
    · have h1 : mapGet ((k1, v1) :: (t ++ m2)) k = mapGet (t ++ m2) k := by
        simp only [mapGet, hk, if_false]
      have h2 : mapGet ((k1, v1) :: t) k = mapGet t k := by
        simp only [mapGet, hk, if_false]
      rw [List.cons_append, h1, h2, ih]

theorem mapGet_mapDelete_self {V : Type} (m : List (Str × V)) (k : Str) :
    mapGet (mapDelete m k) k = none := by
  rw [mapGet_eq_none]
  intro e he
  exact ((mem_mapDelete m k e).1 he).2

theorem mapGet_mapDelete_ne {V : Type} (m : List (Str × V)) (k k1 : Str) (h1 : k1 ≠ k) :
    mapGet (mapDelete m k) k1 = mapGet m k1 := by
  induction m with
  | nil => simp [mapGet, mapDelete]
  | cons x t ih =>
    obtain ⟨k2, v2⟩ := x
    by_cases h2 : k2 = k
    · have : ¬ k = k1 := fun h => h1 h.symm
      simp only [mapDelete, h2, if_true, ih, mapGet, this, if_false]
    · by_cases h3 : k2 = k1
      · subst h3
        simp only [mapDelete, h2, if_false, mapGet, if_true]
      · simp only [mapDelete, h2, if_false, mapGet, h3, ih]

theorem mapGet_mapDelete {V : Type} (m : List (Str × V)) (k k1 : Str) :
    mapGet (mapDelete m k) k1 = if k1 = k then none else mapGet m k1 := by
  by_cases h1 : k1 = k
  · rw [h1, mapGet_mapDelete_self]; simp
  · rw [mapGet_mapDelete_ne m k k1 h1]; simp [h1]

theorem mapGet_mapSet {V : Type} (m : List (Str × V)) (k k1 : Str) (v : V) :
    mapGet (mapSet m k v) k1 = if k1 = k then some v else mapGet m k1 := by
  unfold mapSet
  rw [mapGet_append, mapGet_mapDelete]
  by_cases h1 : k1 = k
  · simp only [h1, if_true, mapGet]
  · have : ¬ k = k1 := fun h => h1 h.symm
    cases hm : mapGet m k1 <;> simp only [h1, if_false, mapGet, this, hm]

/-! ### Sending -/

theorem enqueue_some_iff (s : Server) (c : ClientRef) (m : Message) :
    c < s.clientObjs.length → s.enqueue c m = some (s.withSent c m) := by
  intro h
  obtain ⟨cl, hcl⟩ : ∃ cl, s.clientObjs[c]? = some cl :=
    ⟨s.clientObjs[c], List.getElem?_eq_getElem h⟩
  exact enqueue_eq s c m cl hcl

theorem enqueue_frame (s s1 : Server) (c : ClientRef) (m : Message)
    (h : s.enqueue c m = some s1) : s1 = s.withSent c m := by
  unfold Server.enqueue at h
  cases hc : s.clientObjs[c]? with
  | none => rw [hc] at h; cases h
  | some cl => rw [hc] at h; cases h; rfl

theorem sendAll_frame (sender : ClientRef) (m : Message) :
    ∀ (l : List (ClientID × ClientRef)) (s s1 : Server),
      sendAll s sender m l = some s1 → ∃ q, s1 = { s with outgoing := q } := by
  intro l
  induction l with
  | nil =>
    intro s s1 h
    simp only [sendAll, Option.some.injEq] at h
    exact ⟨s.outgoing, h.symm⟩
  | cons e t ih =>
    intro s s1 h
    obtain ⟨k, p⟩ := e
    by_cases hp : p = sender
    · simp only [sendAll, hp, ne_eq, not_true_eq_false, if_false] at h
      exact ih s s1 h
    · simp only [sendAll, ne_eq, hp, not_false_eq_true, if_true] at h
      cases he : s.enqueue p m with
      | none => rw [he] at h; cases h
      | some s2 =>
        rw [he] at h
        obtain ⟨q, hq⟩ := ih s2 s1 h
        rw [enqueue_frame s s2 p m he] at hq
        exact ⟨q, hq⟩

/-- Closed form of the loop of `broadcast` when no client occurs twice. -/
theorem sendAll_nodup (sender : ClientRef) (m : Message) :
    ∀ (l : List (ClientID × ClientRef)) (s : Server),
      (l.map Prod.snd).Nodup → (∀ e ∈ l, e.2 < s.clientObjs.length) →
      sendAll s sender m l = some { s with outgoing := fun p =>
        if (p ≠ sender ∧ p ∈ l.map Prod.snd) then s.outgoing p ++ [m] else s.outgoing p } := by
  intro l
  induction l with
  | nil =>
    intro s _ _
    simp [sendAll]
  | cons e t ih =>
    intro s hnd hv
    obtain ⟨k, q⟩ := e
    rw [List.map_cons, List.nodup_cons] at hnd
    have hvt : ∀ e ∈ t, e.2 < s.clientObjs.length := fun e he => hv e (List.mem_cons_of_mem _ he)
    by_cases hq : q = sender
    · simp only [sendAll, hq, ne_eq, not_true_eq_false, if_false]
      rw [ih s hnd.2 hvt]
      congr 1
      have : (fun p => if (p ≠ sender ∧ p ∈ t.map Prod.snd) then s.outgoing p ++ [m]
          else s.outgoing p)
          = (fun p => if (p ≠ sender ∧ p ∈ ((k, sender) :: t).map Prod.snd)
              then s.outgoing p ++ [m] else s.outgoing p) := by
        funext p
        by_cases hp : p = sender
        · simp [hp]
        · have h3 : p ∈ ((k, sender) :: t).map Prod.snd ↔ p ∈ t.map Prod.snd := by
            rw [List.map_cons, List.mem_cons]
            exact ⟨fun h => h.resolve_left hp, Or.inr⟩
          simp only [h3]
      rw [this]
    · have hqv : q < s.clientObjs.length := hv (k, q) (List.mem_cons_self _ _)
      simp only [sendAll, ne_eq, hq, not_false_eq_true, if_true, enqueue_some_iff s q m hqv]
      rw [ih (s.withSent q m) hnd.2 hvt]
      congr 1
      simp only [Server.withSent]
      congr 1
      funext p
      by_cases hp : p = q
      · subst hp
        have h1 : p ∉ t.map Prod.snd := hnd.1
        simp [h1, hq]
      · have h2 : Function.update s.outgoing q (s.outgoing q ++ [m]) p = s.outgoing p :=
          Function.update_noteq hp _ _
        have h3 : p ∈ ((k, q) :: t).map Prod.snd ↔ p ∈ t.map Prod.snd := by
          rw [List.map_cons, List.mem_cons]
          exact ⟨fun h => h.resolve_left hp, Or.inr⟩
        simp only [h3, h2, ne_eq]

theorem members_snd_nodup (s : Server) (l : List (ClientID × ClientRef))
    (hkeys : (l.map Prod.fst).Nodup)
    (hmem : ∀ (k : ClientID) (p : ClientRef), (k, p) ∈ l →
      ∃ cl : client, s.clientObjs[p]? = some cl ∧ cl.id = k) :
    (l.map Prod.snd).Nodup := by
  refine List.Nodup.map_on ?_ (List.Nodup.of_map _ hkeys)
  rintro ⟨k1, p1⟩ h1 ⟨k2, p2⟩ h2 h
  simp only at h
  subst h
  obtain ⟨c1, hc1, hk1⟩ := hmem k1 p1 h1
  obtain ⟨c2, hc2, hk2⟩ := hmem k2 p1 h2
  rw [hc1] at hc2
  cases hc2
  rw [← hk1, ← hk2]

theorem members_valid (s : Server) (l : List (ClientID × ClientRef))
    (hmem : ∀ (k : ClientID) (p : ClientRef), (k, p) ∈ l →
      ∃ cl : client, s.clientObjs[p]? = some cl ∧ cl.id = k) :
    ∀ e ∈ l, e.2 < s.clientObjs.length := by
  rintro ⟨k, p⟩ he
  obtain ⟨cl, hcl, _⟩ := hmem k p he
  exact (List.getElem?_eq_some.1 hcl).1

theorem broadcast_frame (s s1 : Server) (r : RoomRef) (m m1 : Message)
    (h : room.broadcast s r m = some (s1, m1)) : ∃ q, s1 = { s with outgoing := q } := by
  unfold room.broadcast at h
  split at h
  · cases h
  · split at h
    · cases h
    · split at h
      · cases h
      · dsimp only at h
        split at h
        · cases h
        · rename_i hsa
          simp only [Option.some.injEq, Prod.mk.injEq] at h
          obtain ⟨q, hq⟩ := sendAll_frame _ _ _ _ _ hsa
          exact ⟨q, h.1 ▸ hq⟩

theorem broadcast_eq (s : Server) (r : RoomRef) (rm : room) (m : Message)
    (sender : ClientRef) (sc : client)
    (hsender : m.sender = some sender) (hsc : s.clientObjs[sender]? = some sc)
    (hr : s.roomObjs[r]? = some rm)
    (hkeys : (rm.members.map Prod.fst).Nodup)
    (hmem : ∀ (k : ClientID) (p : ClientRef), (k, p) ∈ rm.members →
      ∃ cl : client, s.clientObjs[p]? = some cl ∧ cl.id = k) :
    room.broadcast s r m =
      some (s.withBroadcast sender rm.members
              { text := sc.id ++ ": ".toList ++ m.text, sender := some sender },
            { text := sc.id ++ ": ".toList ++ m.text, sender := some sender }) := by
  unfold room.broadcast
  simp only [hsender, hsc, hr]
  rw [sendAll_nodup sender _ rm.members s (members_snd_nodup s _ hkeys hmem)
    (members_valid s _ hmem)]
  rfl

/-! ### Heap cells -/

theorem get_set_self {α : Type} (l : List α) (i : Nat) (a b : α) (h : l[i]? = some a) :
    (l.set i b)[i]? = some b := by
  rw [List.getElem?_set]
  simp [(List.getElem?_eq_some.1 h).1]

theorem get_set_other {α : Type} (l : List α) (i j : Nat) (b : α) (h : i ≠ j) :
    (l.set i b)[j]? = l[j]? :=
  List.getElem?_set_ne h

theorem get_lt {α : Type} (l : List α) (i : Nat) (a : α) (h : l[i]? = some a) :
    i < l.length := (List.getElem?_eq_some.1 h).1

theorem get_append_old {α : Type} (l : List α) (i : Nat) (a b : α) (h : l[i]? = some a) :
    (l ++ [b])[i]? = some a := by
  rw [List.getElem?_append_left (get_lt l i a h), h]

theorem get_append_new {α : Type} (l : List α) (b : α) :
    (l ++ [b])[l.length]? = some b := by
  simp

/-! ### Closed forms of the room operations -/

theorem keyed_entered (s : Server) (r : RoomRef) (rm : room) (c : ClientRef) (cl : client)
    (hc : s.clientObjs[c]? = some cl) (hmem : KeyedByIds s rm.members) :
    KeyedByIds (s.entered r rm c cl) (mapSet rm.members cl.id c) := by
  intro k p hp
  rcases (mem_mapSet _ _ _ _).1 hp with ⟨hp1, hk⟩ | hp1
  · obtain ⟨cl1, hcl1, hid⟩ := hmem k p hp1
    have hpc : c ≠ p := by
      intro h
      subst h
      rw [hc] at hcl1
      cases hcl1
      exact hk hid.symm
    exact ⟨cl1, by simp only [Server.entered]; rw [get_set_other _ _ _ _ hpc]; exact hcl1, hid⟩
  · cases hp1
    exact ⟨{ cl with room := some r }, by
      simp only [Server.entered]; exact get_set_self _ _ _ _ hc, rfl⟩

theorem join_eq (s : Server) (r : RoomRef) (rm : room) (c : ClientRef) (cl : client)
    (hr : s.roomObjs[r]? = some rm) (hlt : ¬ ((rm.members.length : Int) ≥ rm.capacity))
    (hc : s.clientObjs[c]? = some cl)
    (hkeys : (rm.members.map Prod.fst).Nodup) (hmem : KeyedByIds s rm.members) :
    room.join s r c =
      some ((s.entered r rm c cl).withBroadcast c (mapSet rm.members cl.id c)
              { text := cl.id ++ ": ".toList ++ CLIENT_JOINED_ROOM_NOTICE, sender := some c },
            none) := by
  have hb := broadcast_eq (s.entered r rm c cl) r
    { rm with members := mapSet rm.members cl.id c }
    (NewMessage (some c) CLIENT_JOINED_ROOM_NOTICE) c { cl with room := some r } rfl
    (by simp only [Server.entered]; exact get_set_self _ _ _ _ hc)
    (by simp only [Server.entered]; exact get_set_self _ _ _ _ hr)
    (nodup_keys_mapSet _ _ _ hkeys) (keyed_entered s r rm c cl hc hmem)
  unfold room.join
  simp only [hr, hlt, if_false, hc]
  have : ({ s with clientObjs := s.clientObjs.set c { cl with room := some r },
                   roomObjs := s.roomObjs.set r { rm with members := mapSet rm.members cl.id c } }
      : Server) = s.entered r rm c cl := rfl
  rw [this, hb]
  rfl

theorem leave_eq (s : Server) (r : RoomRef) (rm : room) (c : ClientRef) (cl : client)
    (hr : s.roomObjs[r]? = some rm) (hc : s.clientObjs[c]? = some cl)
    (hkeys : (rm.members.map Prod.fst).Nodup) (hmem : KeyedByIds s rm.members) :
    room.leave s r c =
      some { s.withBroadcast c rm.members
               { text := cl.id ++ ": ".toList ++ CLIENT_LEFT_ROOM_NOTICE, sender := some c } with
             roomObjs := s.roomObjs.set r { rm with members := mapDelete rm.members cl.id }
             clientObjs := s.clientObjs.set c { cl with room := none } } := by
  have hb := broadcast_eq s r rm (NewMessage (some c) CLIENT_LEFT_ROOM_NOTICE) c cl rfl hc hr
    hkeys hmem
  unfold room.leave
  rw [hb]
  simp only [Server.withBroadcast, hr, hc]
  rfl

theorem removeFromRoom_none (s : Server) (c : ClientRef) (cl : client)
    (hc : s.clientObjs[c]? = some cl) (hroom : cl.room = none) :
    s.removeFromRoom c = some s := by
  unfold Server.removeFromRoom
  simp only [hc, hroom]

theorem removeFromRoom_eq (s : Server) (r : RoomRef) (rm : room) (c : ClientRef) (cl : client)
    (hr : s.roomObjs[r]? = some rm) (hc : s.clientObjs[c]? = some cl)
    (hroom : cl.room = some r)
    (hkeys : (rm.members.map Prod.fst).Nodup) (hmem : KeyedByIds s rm.members) :
    s.removeFromRoom c =
      some ((s.removed r rm c cl).withBroadcast c rm.members
        { text := cl.id ++ ": ".toList ++ CLIENT_LEFT_ROOM_NOTICE, sender := some c }) := by
  unfold Server.removeFromRoom
  simp only [hc, hroom, leave_eq s r rm c cl hr hc hkeys hmem, get_set_self _ _ _ _ hr]
  by_cases h0 : (mapDelete rm.members cl.id).length = 0
  · simp only [h0, if_true, Server.DeleteRoom, get_set_self _ _ _ _ hr, Server.removed,
      Server.withBroadcast]
  · simp only [h0, if_false, Server.removed, Server.withBroadcast]

theorem withBroadcast_self_only (s : Server) (c : ClientRef) (k : ClientID) (m : Message) :
    s.withBroadcast c [(k, c)] m = s := by
  unfold Server.withBroadcast
  have : (fun p => if (p ≠ c ∧ p ∈ ([(k, c)] : List (ClientID × ClientRef)).map Prod.snd)
      then s.outgoing p ++ [m] else s.outgoing p) = s.outgoing := by
    funext p
    by_cases hp : p = c <;> simp [hp]
  rw [this]

theorem set_append_last {α : Type} (l : List α) (a b : α) :
    (l ++ [a]).set l.length b = l ++ [b] := by
  simp [List.set_append]

theorem createRoom_fresh_eq (s : Server) (c : ClientRef) (cl : client) (n : Int)
    (rnd : Nat → Nat) (hc : s.clientObjs[c]? = some cl) (hroom : cl.room = none)
    (hfresh : mapGet s.rooms (genRoomID rnd) = none) :
    s.CreateRoom c n rnd
      = some ((s.created c cl n rnd).withSent c (NewMessage (some c) (genRoomID rnd))) := by
  have hcap : ¬ (((([] : List (ClientID × ClientRef)).length : Nat) : Int)
      ≥ (if n < 1 then MaxInt64 else n)) := by
    simp only [List.length_nil, Nat.cast_zero, ge_iff_le, not_le]
    split
    · decide
    · omega
  have hj := join_eq
    ({ s with roomObjs := s.roomObjs ++ [NewRoom n rnd],
              rooms := mapSet s.rooms (NewRoom n rnd).id s.roomObjs.length } : Server)
    s.roomObjs.length (NewRoom n rnd) c cl (get_append_new _ _) hcap hc
    (by simp [NewRoom]) (by intro k p hp; simp [NewRoom] at hp)
  unfold Server.CreateRoom
  simp only [hc, hroom, ne_eq, not_true_eq_false, if_false]
  have hf : mapGet s.rooms (NewRoom n rnd).id = none := hfresh
  simp only [hf, not_true_eq_false, if_false, hj]
  have hm : mapSet (NewRoom n rnd).members cl.id c = [(cl.id, c)] := rfl
  rw [hm, withBroadcast_self_only]
  simp only [Server.entered, get_set_self _ _ _ _ hc, set_append_last, get_append_new]
  rw [enqueue_eq _ c _ { cl with room := some s.roomObjs.length } (get_set_self _ _ _ _ hc)]
  rfl

theorem createRoom_already_eq (s : Server) (c : ClientRef) (cl : client) (r : RoomRef)
    (n : Int) (rnd : Nat → Nat)
    (hc : s.clientObjs[c]? = some cl) (hroom : cl.room = some r) :
    s.CreateRoom c n rnd
      = some (s.withSent c (NewMessage (some c) CLIENT_ALREADY_IN_ROOM_NOTICE)) := by
  have h : s.CreateRoom c n rnd
      = s.enqueue c (NewMessage (some c) CLIENT_ALREADY_IN_ROOM_NOTICE) := by
    simp [Server.CreateRoom, hc, hroom]
  rw [h, enqueue_eq s c _ cl hc]

theorem createRoom_collision_eq (s : Server) (c : ClientRef) (cl : client) (r : RoomRef)
    (n : Int) (rnd : Nat → Nat)
    (hc : s.clientObjs[c]? = some cl) (hroom : cl.room = none)
    (hcol : mapGet s.rooms (genRoomID rnd) = some r) :
    s.CreateRoom c n rnd
      = some (s.withSent c (NewMessage (some c) CREATING_ROOM_FAILED_NOTICE)) := by
  have hf : mapGet s.rooms (NewRoom n rnd).id = some r := hcol
  have h : s.CreateRoom c n rnd
      = s.enqueue c (NewMessage (some c) CREATING_ROOM_FAILED_NOTICE) := by
    simp [Server.CreateRoom, hc, hroom, hf]
  rw [h, enqueue_eq s c _ cl hc]

theorem joinRoom_already_eq (s : Server) (c : ClientRef) (cl : client) (r : RoomRef)
    (roomID : RoomID)
    (hc : s.clientObjs[c]? = some cl) (hroom : cl.room = some r) :
    s.JoinRoom c roomID
      = some (s.withSent c (NewMessage (some c) CLIENT_ALREADY_IN_ROOM_NOTICE)) := by
  have h : s.JoinRoom c roomID
      = s.enqueue c (NewMessage (some c) CLIENT_ALREADY_IN_ROOM_NOTICE) := by
    simp [Server.JoinRoom, hc, hroom]
  rw [h, enqueue_eq s c _ cl hc]

theorem joinRoom_missing_eq (s : Server) (c : ClientRef) (cl : client) (roomID : RoomID)
    (hc : s.clientObjs[c]? = some cl) (hroom : cl.room = none)
    (hno : mapGet s.rooms roomID = none) :
    s.JoinRoom c roomID
      = some (s.withSent c (NewMessage (some c) ROOM_NOT_EXISTS_NOTICE)) := by
  have h : s.JoinRoom c roomID
      = s.enqueue c (NewMessage (some c) ROOM_NOT_EXISTS_NOTICE) := by
    simp [Server.JoinRoom, hc, hroom, hno]
  rw [h, enqueue_eq s c _ cl hc]

theorem join_full_eq (s : Server) (r : RoomRef) (rm : room) (c : ClientRef)
    (hr : s.roomObjs[r]? = some rm) (hfull : (rm.members.length : Int) ≥ rm.capacity) :
    room.join s r c = some (s, some "ERR: Room is full".toList) := by
  unfold room.join
  rw [hr]
  simp only [hfull, if_true]

theorem joinRoom_full_eq (s : Server) (r : RoomRef) (rm : room) (c : ClientRef) (cl : client)
    (roomID : RoomID)
    (hc : s.clientObjs[c]? = some cl) (hroom : cl.room = none)
    (hreg : mapGet s.rooms roomID = some r)
    (hr : s.roomObjs[r]? = some rm) (hfull : (rm.members.length : Int) ≥ rm.capacity) :
    s.JoinRoom c roomID
      = some (s.withSent c (NewMessage (some c) "ERR: Room is full".toList)) := by
  unfold Server.JoinRoom
  rw [hc]
  simp only [hroom, ne_eq, not_true_eq_false, if_false, hreg, join_full_eq s r rm c hr hfull]
  exact enqueue_eq s c _ cl hc

theorem joinRoom_enter_eq (s : Server) (r : RoomRef) (rm : room) (c : ClientRef) (cl : client)
    (roomID : RoomID)
    (hc : s.clientObjs[c]? = some cl) (hroom : cl.room = none)
    (hreg : mapGet s.rooms roomID = some r)
    (hr : s.roomObjs[r]? = some rm) (hlt : ¬ ((rm.members.length : Int) ≥ rm.capacity))
    (hkeys : (rm.members.map Prod.fst).Nodup) (hmem : KeyedByIds s rm.members) :
    s.JoinRoom c roomID
      = some (((s.entered r rm c cl).withBroadcast c (mapSet rm.members cl.id c)
                { text := cl.id ++ ": ".toList ++ CLIENT_JOINED_ROOM_NOTICE, sender := some c }).withSent
              c (NewMessage (some c) "JOINED".toList)) := by
  unfold Server.JoinRoom
  rw [hc]
  simp only [hroom, ne_eq, not_true_eq_false, if_false, hreg,
    join_eq s r rm c cl hr hlt hc hkeys hmem]
  exact enqueue_eq _ c _ { cl with room := some r } (get_set_self _ _ _ _ hc)

theorem leaveRoom_none_eq (s : Server) (c : ClientRef) (cl : client)
    (hc : s.clientObjs[c]? = some cl) (hroom : cl.room = none) :
    s.LeaveRoom c = some (s.withSent c (NewMessage (some c) CLIENT_LEFT_ROOM_NOTICE)) := by
  unfold Server.LeaveRoom
  rw [removeFromRoom_none s c cl hc hroom]
  exact enqueue_eq s c _ cl hc

theorem leaveRoom_eq (s : Server) (r : RoomRef) (rm : room) (c : ClientRef) (cl : client)
    (hr : s.roomObjs[r]? = some rm) (hc : s.clientObjs[c]? = some cl)
    (hroom : cl.room = some r)
    (hkeys : (rm.members.map Prod.fst).Nodup) (hmem : KeyedByIds s rm.members) :
    s.LeaveRoom c =
      some (((s.removed r rm c cl).withBroadcast c rm.members
        { text := cl.id ++ ": ".toList ++ CLIENT_LEFT_ROOM_NOTICE, sender := some c }).withSent
          c (NewMessage (some c) CLIENT_LEFT_ROOM_NOTICE)) := by
  unfold Server.LeaveRoom
  rw [removeFromRoom_eq s r rm c cl hr hc hroom hkeys hmem]
  exact enqueue_eq _ c _ { cl with room := none } (get_set_self _ _ _ _ hc)

theorem disconnect_none_eq (s : Server) (c : ClientRef) (cl : client)
    (hc : s.clientObjs[c]? = some cl) (hroom : cl.room = none) :
    s.Disconnect c = some (s.closed c cl) := by
  unfold Server.Disconnect
  rw [removeFromRoom_none s c cl hc hroom]
  simp only [client.quit, hc, get_set_self _ _ _ _ hc, Server.closed]

theorem disconnect_eq (s : Server) (r : RoomRef) (rm : room) (c : ClientRef) (cl : client)
    (hr : s.roomObjs[r]? = some rm) (hc : s.clientObjs[c]? = some cl)
    (hroom : cl.room = some r)
    (hkeys : (rm.members.map Prod.fst).Nodup) (hmem : KeyedByIds s rm.members) :
    s.Disconnect c =
      some (((s.removed r rm c cl).withBroadcast c rm.members
              { text := cl.id ++ ": ".toList ++ CLIENT_LEFT_ROOM_NOTICE, sender := some c }).closed
            c { cl with room := none }) := by
  unfold Server.Disconnect
  rw [removeFromRoom_eq s r rm c cl hr hc hroom hkeys hmem]
  simp only [client.quit, Server.withBroadcast, Server.removed, get_set_self _ _ _ _ hc,
    Server.closed, get_set_self _ _ _ _ (get_set_self _ _ _ { cl with room := none } hc)]

theorem accept_full_eq (s : Server) (rnd : Nat → Nat)
    (hfull : (s.clients.length : Int) ≥ s.config.MaxClients) :
    (NewClient s rnd).1.Join (NewClient s rnd).2 =
      some { s with clientObjs := s.clientObjs ++
        [{ id := genClientID rnd, room := none, connWritten := [SERVER_FULL_NOTICE],
           connClosed := true, served := false }] } := by
  unfold Server.Join
  simp only [NewClient, hfull, if_true, client.connWrite, client.quit, get_append_new,
    set_append_last, List.nil_append]

theorem accept_eq (s : Server) (rnd : Nat → Nat)
    (hfree : ¬ ((s.clients.length : Int) ≥ s.config.MaxClients)) :
    (NewClient s rnd).1.Join (NewClient s rnd).2 =
      some (({ s with
        clientObjs := s.clientObjs ++
          [{ id := genClientID rnd, room := none, connWritten := [], connClosed := false,
             served := true }]
        clients := mapSet s.clients (genClientID rnd) s.clientObjs.length } : Server).withSent
          s.clientObjs.length (NewMessage (some s.clientObjs.length) (genClientID rnd))) := by
  unfold Server.Join
  simp only [NewClient, hfree, if_false, client.serve, get_append_new, set_append_last,
    Server.enqueue, Server.withSent]

/-! ### The invariant -/

theorem get_set_cases {α : Type} (l : List α) (i j : Nat) (b x : α)
    (h : (l.set i b)[j]? = some x) : (j = i ∧ x = b) ∨ (j ≠ i ∧ l[j]? = some x) := by
  by_cases hij : i = j
  · subst hij
    rw [List.getElem?_set] at h
    simp only [if_true] at h
    split at h
    · left; exact ⟨rfl, (Option.some.inj h).symm⟩
    · cases h
  · right
    rw [get_set_other _ _ _ _ hij] at h
    exact ⟨fun h1 => hij h1.symm, h⟩

theorem inv_init (config : ServerConfig) : Inv (NewServer config) where
  registered := by intro id r h; simp [NewServer, mapGet] at h
  bounded := by intro r rm h; simp [NewServer] at h
  keys := by intro r rm h; simp [NewServer] at h
  member := by intro r rm k p h; simp [NewServer] at h
  roomValid := by intro c cl r h; simp [NewServer] at h
  table := by intro id c h; simp [NewServer, mapGet] at h
  handlersFixed := rfl

theorem inv_outgoing (s : Server) (q : ClientRef → List Message) (h : Inv s) :
    Inv { s with outgoing := q } :=
  ⟨h.registered, h.bounded, h.keys, h.member, h.roomValid, h.table, h.handlersFixed⟩

theorem inv_withSent (s : Server) (c : ClientRef) (m : Message) (h : Inv s) :
    Inv (s.withSent c m) := inv_outgoing s _ h

theorem inv_withBroadcast (s : Server) (c : ClientRef) (l : List (ClientID × ClientRef))
    (m : Message) (h : Inv s) : Inv (s.withBroadcast c l m) := inv_outgoing s _ h

theorem inv_keyed (s : Server) (h : Inv s) (r : RoomRef) (rm : room)
    (hr : s.roomObjs[r]? = some rm) : KeyedByIds s rm.members := by
  intro k p hp
  obtain ⟨cl, hcl, hid, _⟩ := h.member r rm k p hr hp
  exact ⟨cl, hcl, hid⟩

theorem inv_entered (s : Server) (r : RoomRef) (rm : room) (c : ClientRef) (cl : client)
    (h : Inv s) (hr : s.roomObjs[r]? = some rm)
    (hlt : ¬ ((rm.members.length : Int) ≥ rm.capacity))
    (hc : s.clientObjs[c]? = some cl) (hroom : cl.room = none) :
    Inv (s.entered r rm c cl) where
  registered := by
    intro id r1 hreg
    obtain ⟨rm1, hrm1, hid, hne⟩ := h.registered id r1 hreg
    by_cases h1 : r = r1
    · subst h1
      rw [hr] at hrm1
      cases hrm1
      exact ⟨_, get_set_self _ _ _ _ hr, hid, mapSet_ne_nil _ _ _⟩
    · exact ⟨rm1, (get_set_other _ _ _ _ h1).trans hrm1, hid, hne⟩
  bounded := by
    intro r1 rm1 h1
    rcases get_set_cases _ _ _ _ _ h1 with ⟨_, rfl⟩ | ⟨_, h2⟩
    · have := length_mapSet_le rm.members cl.id c
      simp only [ge_iff_le, not_le] at hlt
      simp only
      omega
    · exact h.bounded r1 rm1 h2
  keys := by
    intro r1 rm1 h1
    rcases get_set_cases _ _ _ _ _ h1 with ⟨_, rfl⟩ | ⟨_, h2⟩
    · exact nodup_keys_mapSet _ _ _ (h.keys r rm hr)
    · exact h.keys r1 rm1 h2
  member := by
    intro r1 rm1 k p h1 hkp
    have old : ∀ (r2 : RoomRef) (rm2 : room), s.roomObjs[r2]? = some rm2 →
        (k, p) ∈ rm2.members →
        ∃ cl1 : client, (s.clientObjs.set c { cl with room := some r })[p]? = some cl1 ∧
          cl1.id = k ∧ cl1.room = some r2 := by
      intro r2 rm2 hr2 hm2
      obtain ⟨cl1, hcl1, hid1, hroom1⟩ := h.member r2 rm2 k p hr2 hm2
      have hpc : c ≠ p := by
        intro hcp
        subst hcp
        rw [hc] at hcl1
        cases hcl1
        rw [hroom] at hroom1
        cases hroom1
      exact ⟨cl1, (get_set_other _ _ _ _ hpc).trans hcl1, hid1, hroom1⟩
    rcases get_set_cases _ _ _ _ _ h1 with ⟨hr1, rfl⟩ | ⟨_, h2⟩
    · subst hr1
      rcases (mem_mapSet _ _ _ _).1 hkp with ⟨hp1, _⟩ | hp1
      · exact old r1 rm hr hp1
      · cases hp1
        exact ⟨_, get_set_self _ _ _ _ hc, rfl, rfl⟩
    · exact old r1 rm1 h2 hkp
  roomValid := by
    intro c1 cl1 r1 hc1 hroom1
    show r1 < (s.roomObjs.set r _).length
    rw [List.length_set]
    rcases get_set_cases _ _ _ _ _ hc1 with ⟨_, rfl⟩ | ⟨_, h2⟩
    · cases hroom1
      exact get_lt _ _ _ hr
    · exact h.roomValid c1 cl1 r1 h2 hroom1
  table := by
    intro id c1 ht
    obtain ⟨cl1, hcl1, hid⟩ := h.table id c1 ht
    by_cases h1 : c = c1
    · subst h1
      rw [hc] at hcl1
      cases hcl1
      exact ⟨_, get_set_self _ _ _ _ hc, hid⟩
    · exact ⟨cl1, (get_set_other _ _ _ _ h1).trans hcl1, hid⟩
  handlersFixed := h.handlersFixed

theorem get_append_cases {α : Type} (l : List α) (j : Nat) (b x : α)
    (h : (l ++ [b])[j]? = some x) : (j = l.length ∧ x = b) ∨ l[j]? = some x := by
  by_cases hj : j < l.length
  · right
    rw [List.getElem?_append_left hj] at h
    exact h
  · left
    have hlt := get_lt _ _ _ h
    simp only [List.length_append, List.length_singleton] at hlt
    have hj2 : j = l.length := by omega
    subst hj2
    rw [get_append_new] at h
    exact ⟨rfl, (Option.some.inj h).symm⟩

theorem inv_created (s : Server) (c : ClientRef) (cl : client) (n : Int) (rnd : Nat → Nat)
    (h : Inv s) (hc : s.clientObjs[c]? = some cl) (hroom : cl.room = none) :
    Inv (s.created c cl n rnd) where
  registered := by
    intro id r1 hreg
    simp only [Server.created] at hreg ⊢
    rw [mapGet_mapSet] at hreg
    by_cases hid : id = genRoomID rnd
    · simp only [hid, if_true, Option.some.injEq] at hreg
      subst hreg
      exact ⟨_, get_append_new _ _, hid.symm, by simp⟩
    · simp only [hid, if_false] at hreg
      obtain ⟨rm1, hrm1, hid1, hne⟩ := h.registered id r1 hreg
      exact ⟨rm1, get_append_old _ _ _ _ hrm1, hid1, hne⟩
  bounded := by
    intro r1 rm1 h1
    rcases get_append_cases _ _ _ _ h1 with ⟨_, rfl⟩ | h2
    · simp only [List.length_singleton, Nat.cast_one]
      split
      · decide
      · omega
    · exact h.bounded r1 rm1 h2
  keys := by
    intro r1 rm1 h1
    rcases get_append_cases _ _ _ _ h1 with ⟨_, rfl⟩ | h2
    · simp
    · exact h.keys r1 rm1 h2
  member := by
    intro r1 rm1 k p h1 hkp
    rcases get_append_cases _ _ _ _ h1 with ⟨hr1, rfl⟩ | h2
    · simp only [List.mem_singleton, Prod.mk.injEq] at hkp
      obtain ⟨rfl, rfl⟩ := hkp
      exact ⟨_, get_set_self _ _ _ _ hc, rfl, by rw [hr1]⟩
    · obtain ⟨cl1, hcl1, hid1, hroom1⟩ := h.member r1 rm1 k p h2 hkp
      have hpc : c ≠ p := by
        intro hcp
        subst hcp
        rw [hc] at hcl1
        cases hcl1
        rw [hroom] at hroom1
        cases hroom1
      exact ⟨cl1, (get_set_other _ _ _ _ hpc).trans hcl1, hid1, hroom1⟩
  roomValid := by
    intro c1 cl1 r1 hc1 hroom1
    show r1 < (s.roomObjs ++ [_]).length
    simp only [List.length_append, List.length_singleton]
    rcases get_set_cases _ _ _ _ _ hc1 with ⟨_, rfl⟩ | ⟨_, h2⟩
    · cases hroom1
      exact Nat.lt_succ_self _
    · exact Nat.lt_succ_of_lt (h.roomValid c1 cl1 r1 h2 hroom1)
  table := by
    intro id c1 ht
    obtain ⟨cl1, hcl1, hid⟩ := h.table id c1 ht
    by_cases h1 : c = c1
    · subst h1
      rw [hc] at hcl1
      cases hcl1
      exact ⟨_, get_set_self _ _ _ _ hc, hid⟩
    · exact ⟨cl1, (get_set_other _ _ _ _ h1).trans hcl1, hid⟩
  handlersFixed := h.handlersFixed

theorem inv_removed (s : Server) (r : RoomRef) (rm : room) (c : ClientRef) (cl : client)
    (h : Inv s) (hr : s.roomObjs[r]? = some rm) (hc : s.clientObjs[c]? = some cl)
    (hroom : cl.room = some r) :
    Inv (s.removed r rm c cl) where
  registered := by
    intro id r1 hreg
    simp only [Server.removed] at hreg ⊢
    by_cases h0 : (mapDelete rm.members cl.id).length = 0
    · simp only [h0, if_true] at hreg
      rw [mapGet_mapDelete] at hreg
      by_cases hid : id = rm.id
      · simp only [hid, if_true] at hreg
        cases hreg
      · simp only [hid, if_false] at hreg
        obtain ⟨rm1, hrm1, hid1, hne⟩ := h.registered id r1 hreg
        have hrr : r ≠ r1 := by
          intro hrr
          subst hrr
          rw [hr] at hrm1
          cases hrm1
          exact hid hid1.symm
        exact ⟨rm1, (get_set_other _ _ _ _ hrr).trans hrm1, hid1, hne⟩
    · simp only [h0, if_false] at hreg
      obtain ⟨rm1, hrm1, hid1, hne⟩ := h.registered id r1 hreg
      by_cases hrr : r = r1
      · subst hrr
        rw [hr] at hrm1
        cases hrm1
        refine ⟨_, get_set_self _ _ _ _ hr, hid1, ?_⟩
        intro hnil
        apply h0
        show (mapDelete rm.members cl.id).length = 0
        simp only at hnil
        rw [hnil]
        rfl
      · exact ⟨rm1, (get_set_other _ _ _ _ hrr).trans hrm1, hid1, hne⟩
  bounded := by
    intro r1 rm1 h1
    rcases get_set_cases _ _ _ _ _ h1 with ⟨_, rfl⟩ | ⟨_, h2⟩
    · have := length_mapDelete_le rm.members cl.id
      have := h.bounded r rm hr
      simp only
      omega
    · exact h.bounded r1 rm1 h2
  keys := by
    intro r1 rm1 h1
    rcases get_set_cases _ _ _ _ _ h1 with ⟨_, rfl⟩ | ⟨_, h2⟩
    · exact nodup_keys_mapDelete _ _ (h.keys r rm hr)
    · exact h.keys r1 rm1 h2
  member := by
    intro r1 rm1 k p h1 hkp
    rcases get_set_cases _ _ _ _ _ h1 with ⟨hr1, rfl⟩ | ⟨hr1, h2⟩
    · subst hr1
      obtain ⟨hp1, hk⟩ := (mem_mapDelete _ _ _).1 hkp
      obtain ⟨cl1, hcl1, hid1, hroom1⟩ := h.member r1 rm k p hr hp1
      have hpc : c ≠ p := by
        intro hcp
        subst hcp
        rw [hc] at hcl1
        cases hcl1
        exact hk hid1.symm
      exact ⟨cl1, (get_set_other _ _ _ _ hpc).trans hcl1, hid1, hroom1⟩
    · obtain ⟨cl1, hcl1, hid1, hroom1⟩ := h.member r1 rm1 k p h2 hkp
      have hpc : c ≠ p := by
        intro hcp
        subst hcp
        rw [hc] at hcl1
        cases hcl1
        rw [hroom] at hroom1
        exact hr1 (Option.some.inj hroom1).symm
      exact ⟨cl1, (get_set_other _ _ _ _ hpc).trans hcl1, hid1, hroom1⟩
  roomValid := by
    intro c1 cl1 r1 hc1 hroom1
    show r1 < (s.roomObjs.set r _).length
    rw [List.length_set]
    rcases get_set_cases _ _ _ _ _ hc1 with ⟨_, rfl⟩ | ⟨_, h2⟩
    · cases hroom1
    · exact h.roomValid c1 cl1 r1 h2 hroom1
  table := by
    intro id c1 ht
    obtain ⟨cl1, hcl1, hid⟩ := h.table id c1 ht
    by_cases h1 : c = c1
    · subst h1
      rw [hc] at hcl1
      cases hcl1
      exact ⟨_, get_set_self _ _ _ _ hc, hid⟩
    · exact ⟨cl1, (get_set_other _ _ _ _ h1).trans hcl1, hid⟩
  handlersFixed := h.handlersFixed

theorem inv_closed (s : Server) (c : ClientRef) (cl : client)
    (h : Inv s) (hc : s.clientObjs[c]? = some cl) : Inv (s.closed c cl) where
  registered := h.registered
  bounded := h.bounded
  keys := h.keys
  member := by
    intro r1 rm1 k p h1 hkp
    obtain ⟨cl1, hcl1, hid1, hroom1⟩ := h.member r1 rm1 k p h1 hkp
    by_cases hpc : c = p
    · subst hpc
      rw [hc] at hcl1
      cases hcl1
      exact ⟨_, get_set_self _ _ _ _ hc, hid1, hroom1⟩
    · exact ⟨cl1, (get_set_other _ _ _ _ hpc).trans hcl1, hid1, hroom1⟩
  roomValid := by
    intro c1 cl1 r1 hc1 hroom1
    rcases get_set_cases _ _ _ _ _ hc1 with ⟨_, rfl⟩ | ⟨_, h2⟩
    · exact h.roomValid c cl r1 hc hroom1
    · exact h.roomValid c1 cl1 r1 h2 hroom1
  table := by
    intro id c1 ht
    simp only [Server.closed] at ht ⊢
    rw [mapGet_mapDelete] at ht
    by_cases hid : id = cl.id
    · simp only [hid, if_true] at ht
      cases ht
    · simp only [hid, if_false] at ht
      obtain ⟨cl1, hcl1, hid1⟩ := h.table id c1 ht
      by_cases h1 : c = c1
      · subst h1
        rw [hc] at hcl1
        cases hcl1
        exact ⟨_, get_set_self _ _ _ _ hc, hid1⟩
      · exact ⟨cl1, (get_set_other _ _ _ _ h1).trans hcl1, hid1⟩
  handlersFixed := h.handlersFixed

theorem inv_newClient (s : Server) (cl0 : client) (h : Inv s) (h0 : cl0.room = none) :
    Inv { s with clientObjs := s.clientObjs ++ [cl0] } where
  registered := h.registered
  bounded := h.bounded
  keys := h.keys
  member := by
    intro r1 rm1 k p h1 hkp
    obtain ⟨cl1, hcl1, hid1, hroom1⟩ := h.member r1 rm1 k p h1 hkp
    exact ⟨cl1, get_append_old _ _ _ _ hcl1, hid1, hroom1⟩
  roomValid := by
    intro c1 cl1 r1 hc1 hroom1
    rcases get_append_cases _ _ _ _ hc1 with ⟨_, rfl⟩ | h2
    · rw [h0] at hroom1
      cases hroom1
    · exact h.roomValid c1 cl1 r1 h2 hroom1
  table := by
    intro id c1 ht
    obtain ⟨cl1, hcl1, hid⟩ := h.table id c1 ht
    exact ⟨cl1, get_append_old _ _ _ _ hcl1, hid⟩
  handlersFixed := h.handlersFixed

theorem inv_tableSet (s : Server) (c : ClientRef) (cl : client) (h : Inv s)
    (hc : s.clientObjs[c]? = some cl) :
    Inv { s with clients := mapSet s.clients cl.id c } where
  registered := h.registered
  bounded := h.bounded
  keys := h.keys
  member := h.member
  roomValid := h.roomValid
  table := by
    intro id c1 ht
    simp only at ht ⊢
    rw [mapGet_mapSet] at ht
    by_cases hid : id = cl.id
    · simp only [hid, if_true, Option.some.injEq] at ht
      subst ht
      exact ⟨cl, hc, hid.symm⟩
    · simp only [hid, if_false] at ht
      exact h.table id c1 ht
  handlersFixed := h.handlersFixed

theorem createRoom_client (s s1 : Server) (c : ClientRef) (n : Int) (rnd : Nat → Nat)
    (h : s.CreateRoom c n rnd = some s1) : ∃ cl : client, s.clientObjs[c]? = some cl := by
  unfold Server.CreateRoom at h
  split at h
  · cases h
  · rename_i cl hcl
    exact ⟨cl, hcl⟩

theorem joinRoom_client (s s1 : Server) (c : ClientRef) (roomID : RoomID)
    (h : s.JoinRoom c roomID = some s1) : ∃ cl : client, s.clientObjs[c]? = some cl := by
  unfold Server.JoinRoom at h
  split at h
  · cases h
  · rename_i cl hcl
    exact ⟨cl, hcl⟩

theorem removeFromRoom_client (s s1 : Server) (c : ClientRef)
    (h : s.removeFromRoom c = some s1) : ∃ cl : client, s.clientObjs[c]? = some cl := by
  unfold Server.removeFromRoom at h
  split at h
  · cases h
  · rename_i cl hcl
    exact ⟨cl, hcl⟩

theorem leaveRoom_client (s s1 : Server) (c : ClientRef)
    (h : s.LeaveRoom c = some s1) : ∃ cl : client, s.clientObjs[c]? = some cl := by
  unfold Server.LeaveRoom at h
  split at h
  · cases h
  · rename_i s2 hs2
    exact removeFromRoom_client s s2 c hs2

theorem disconnect_client (s s1 : Server) (c : ClientRef)
    (h : s.Disconnect c = some s1) : ∃ cl : client, s.clientObjs[c]? = some cl := by
  unfold Server.Disconnect at h
  split at h
  · cases h
  · rename_i s2 hs2
    exact removeFromRoom_client s s2 c hs2

theorem isServed_iff (s : Server) (c : ClientRef) (h : isServed s c = true) :
    ∃ cl : client, s.clientObjs[c]? = some cl ∧ cl.served = true := by
  unfold isServed at h
  split at h
  · cases h
  · rename_i cl hcl
    exact ⟨cl, hcl, h⟩

/-- One step keeps the invariant. -/
theorem inv_step (s s1 : Server) (op : Op) (h : Inv s)
    (hex : s.exec op = some s1) : Inv s1 := by
  cases op with
  | accept rnd =>
    simp only [Server.exec] at hex
    by_cases hfull : (s.clients.length : Int) ≥ s.config.MaxClients
    · rw [accept_full_eq s rnd hfull] at hex
      cases hex
      exact inv_newClient s _ h rfl
    · rw [accept_eq s rnd hfull] at hex
      cases hex
      apply inv_withSent
      exact inv_tableSet { s with clientObjs := s.clientObjs ++ [_] } s.clientObjs.length
        { id := genClientID rnd, room := none, connWritten := [], connClosed := false,
          served := true } (inv_newClient s _ h rfl) (get_append_new _ _)
  | createRoom c n rnd =>
    simp only [Server.exec] at hex
    obtain ⟨cl, hc⟩ := createRoom_client s s1 c n rnd hex
    cases hroom : cl.room with
    | some r =>
      rw [createRoom_already_eq s c cl r n rnd hc hroom] at hex
      cases hex
      exact inv_withSent _ _ _ h
    | none =>
      cases hcol : mapGet s.rooms (genRoomID rnd) with
      | some r =>
        rw [createRoom_collision_eq s c cl r n rnd hc hroom hcol] at hex
        cases hex
        exact inv_withSent _ _ _ h
      | none =>
        rw [createRoom_fresh_eq s c cl n rnd hc hroom hcol] at hex
        cases hex
        exact inv_withSent _ _ _ (inv_created s c cl n rnd h hc hroom)
  | joinRoom c roomID =>
    simp only [Server.exec] at hex
    obtain ⟨cl, hc⟩ := joinRoom_client s s1 c roomID hex
    cases hroom : cl.room with
    | some r =>
      rw [joinRoom_already_eq s c cl r roomID hc hroom] at hex
      cases hex
      exact inv_withSent _ _ _ h
    | none =>
      cases hreg : mapGet s.rooms roomID with
      | none =>
        rw [joinRoom_missing_eq s c cl roomID hc hroom hreg] at hex
        cases hex
        exact inv_withSent _ _ _ h
      | some r =>
        obtain ⟨rm, hr, _, _⟩ := h.registered roomID r hreg
        by_cases hfull : (rm.members.length : Int) ≥ rm.capacity
        · rw [joinRoom_full_eq s r rm c cl roomID hc hroom hreg hr hfull] at hex
          cases hex
          exact inv_withSent _ _ _ h
        · rw [joinRoom_enter_eq s r rm c cl roomID hc hroom hreg hr hfull (h.keys r rm hr)
            (inv_keyed s h r rm hr)] at hex
          cases hex
          exact inv_withSent _ _ _ (inv_withBroadcast _ _ _ _
            (inv_entered s r rm c cl h hr hfull hc hroom))
  | leaveRoom c =>
    simp only [Server.exec] at hex
    obtain ⟨cl, hc⟩ := leaveRoom_client s s1 c hex
    cases hroom : cl.room with
    | none =>
      rw [leaveRoom_none_eq s c cl hc hroom] at hex
      cases hex
      exact inv_withSent _ _ _ h
    | some r =>
      obtain ⟨rm, hr⟩ : ∃ rm, s.roomObjs[r]? = some rm :=
        ⟨_, List.getElem?_eq_getElem (h.roomValid c cl r hc hroom)⟩
      rw [leaveRoom_eq s r rm c cl hr hc hroom (h.keys r rm hr) (inv_keyed s h r rm hr)] at hex
      cases hex
      exact inv_withSent _ _ _ (inv_withBroadcast _ _ _ _ (inv_removed s r rm c cl h hr hc hroom))
  | disconnect c =>
    simp only [Server.exec] at hex
    obtain ⟨cl, hc⟩ := disconnect_client s s1 c hex
    cases hroom : cl.room with
    | none =>
      rw [disconnect_none_eq s c cl hc hroom] at hex
      cases hex
      exact inv_closed s c cl h hc
    | some r =>
      obtain ⟨rm, hr⟩ : ∃ rm, s.roomObjs[r]? = some rm :=
        ⟨_, List.getElem?_eq_getElem (h.roomValid c cl r hc hroom)⟩
      rw [disconnect_eq s r rm c cl hr hc hroom (h.keys r rm hr) (inv_keyed s h r rm hr)] at hex
      cases hex
      exact inv_closed _ c _ (inv_withBroadcast _ _ _ _ (inv_removed s r rm c cl h hr hc hroom))
        (get_set_self _ _ _ _ hc)

theorem reachable_inv (s : Server) (h : Reachable s) : Inv s := by
  induction h with
  | init config => exact inv_init config
  | step op _ hex ih => exact inv_step _ _ op ih hex

theorem admitted_reachable (s : Server) (h : ReachableAdmitted s) : Reachable s := by
  induction h with
  | init config => exact Reachable.init config
  | step op _ _ hex ih => exact Reachable.step op ih hex

theorem run_admitted (ops : List Op) : ∀ (s s1 : Server), ReachableAdmitted s →
    s.run ops = some s1 → ReachableAdmitted s1 := by
  induction ops with
  | nil =>
    intro s s1 h hrun
    simp only [Server.run, Option.some.injEq] at hrun
    exact hrun ▸ h
  | cons op ops ih =>
    intro s s1 h hrun
    simp only [Server.run] at hrun
    split at hrun
    · rename_i hen
      split at hrun
      · cases hrun
      · rename_i s2 hex
        exact ih s2 s1 (ReachableAdmitted.step op h hen hex) hrun
    · cases hrun

theorem run_reachable (ops : List Op) (s s1 : Server) (h : ReachableAdmitted s)
    (hrun : s.run ops = some s1) : Reachable s1 :=
  admitted_reachable s1 (run_admitted ops s s1 h hrun)

/-! ### Clients are never dropped or renamed -/

theorem kept_refl (l : List client) : KeptClients l l :=
  fun _ cp h => ⟨cp, h, rfl, id⟩

theorem kept_trans (l l1 l2 : List client) (h1 : KeptClients l l1) (h2 : KeptClients l1 l2) :
    KeptClients l l2 := by
  intro p cp hp
  obtain ⟨cp1, hp1, hid1, hs1⟩ := h1 p cp hp
  obtain ⟨cp2, hp2, hid2, hs2⟩ := h2 p cp1 hp1
  exact ⟨cp2, hp2, hid2.trans hid1, fun h => hs2 (hs1 h)⟩

theorem kept_set (l : List client) (c : ClientRef) (cl cl1 : client)
    (hc : l[c]? = some cl) (hid : cl1.id = cl.id) (hs : cl.served = true → cl1.served = true) :
    KeptClients l (l.set c cl1) := by
  intro p cp hp
  by_cases hpc : c = p
  · subst hpc
    rw [hc] at hp
    cases hp
    exact ⟨cl1, get_set_self _ _ _ _ hc, hid, hs⟩
  · exact ⟨cp, (get_set_other _ _ _ _ hpc).trans hp, rfl, id⟩

theorem kept_append (l : List client) (cl0 : client) : KeptClients l (l ++ [cl0]) :=
  fun _ cp h => ⟨cp, get_append_old _ _ _ _ h, rfl, id⟩

theorem distinct_back (s s1 : Server) (hk : KeptClients s.clientObjs s1.clientObjs)
    (hd : DistinctServedIds s1) : DistinctServedIds s := by
  intro p q cp cq hp hq hsp hsq hid
  obtain ⟨cp1, hp1, hid1, hs1⟩ := hk p cp hp
  obtain ⟨cq1, hq1, hid2, hs2⟩ := hk q cq hq
  exact hd p q cp1 cq1 hp1 hq1 (hs1 hsp) (hs2 hsq) (by rw [hid1, hid2, hid])

theorem step_kept (s s1 : Server) (op : Op) (h : Inv s)
    (hex : s.exec op = some s1) : KeptClients s.clientObjs s1.clientObjs := by
  cases op with
  | accept rnd =>
    simp only [Server.exec] at hex
    by_cases hfull : (s.clients.length : Int) ≥ s.config.MaxClients
    · rw [accept_full_eq s rnd hfull] at hex
      cases hex
      exact kept_append _ _
    · rw [accept_eq s rnd hfull] at hex
      cases hex
      exact kept_append _ _
  | createRoom c n rnd =>
    simp only [Server.exec] at hex
    obtain ⟨cl, hc⟩ := createRoom_client s s1 c n rnd hex
    cases hroom : cl.room with
    | some r =>
      rw [createRoom_already_eq s c cl r n rnd hc hroom] at hex
      cases hex
      exact kept_refl _
    | none =>
      cases hcol : mapGet s.rooms (genRoomID rnd) with
      | some r =>
        rw [createRoom_collision_eq s c cl r n rnd hc hroom hcol] at hex
        cases hex
        exact kept_refl _
      | none =>
        rw [createRoom_fresh_eq s c cl n rnd hc hroom hcol] at hex
        cases hex
        exact kept_set _ c cl _ hc rfl id
  | joinRoom c roomID =>
    simp only [Server.exec] at hex
    obtain ⟨cl, hc⟩ := joinRoom_client s s1 c roomID hex
    cases hroom : cl.room with
    | some r =>
      rw [joinRoom_already_eq s c cl r roomID hc hroom] at hex
      cases hex
      exact kept_refl _
    | none =>
      cases hreg : mapGet s.rooms roomID with
      | none =>
        rw [joinRoom_missing_eq s c cl roomID hc hroom hreg] at hex
        cases hex
        exact kept_refl _
      | some r =>
        obtain ⟨rm, hr, _, _⟩ := h.registered roomID r hreg
        by_cases hfull : (rm.members.length : Int) ≥ rm.capacity
        · rw [joinRoom_full_eq s r rm c cl roomID hc hroom hreg hr hfull] at hex
          cases hex
          exact kept_refl _
        · rw [joinRoom_enter_eq s r rm c cl roomID hc hroom hreg hr hfull (h.keys r rm hr)
            (inv_keyed s h r rm hr)] at hex
          cases hex
          exact kept_set _ c cl _ hc rfl id
  | leaveRoom c =>
    simp only [Server.exec] at hex
    obtain ⟨cl, hc⟩ := leaveRoom_client s s1 c hex
    cases hroom : cl.room with
    | none =>
      rw [leaveRoom_none_eq s c cl hc hroom] at hex
      cases hex
      exact kept_refl _
    | some r =>
      obtain ⟨rm, hr⟩ : ∃ rm, s.roomObjs[r]? = some rm :=
        ⟨_, List.getElem?_eq_getElem (h.roomValid c cl r hc hroom)⟩
      rw [leaveRoom_eq s r rm c cl hr hc hroom (h.keys r rm hr) (inv_keyed s h r rm hr)] at hex
      cases hex
      exact kept_set _ c cl _ hc rfl id
  | disconnect c =>
    simp only [Server.exec] at hex
    obtain ⟨cl, hc⟩ := disconnect_client s s1 c hex
    cases hroom : cl.room with
    | none =>
      rw [disconnect_none_eq s c cl hc hroom] at hex
      cases hex
      exact kept_set _ c cl _ hc rfl id
    | some r =>
      obtain ⟨rm, hr⟩ : ∃ rm, s.roomObjs[r]? = some rm :=
        ⟨_, List.getElem?_eq_getElem (h.roomValid c cl r hc hroom)⟩
      rw [disconnect_eq s r rm c cl hr hc hroom (h.keys r rm hr) (inv_keyed s h r rm hr)] at hex
      cases hex
      exact kept_trans _ _ _ (kept_set _ c cl { cl with room := none } hc rfl id)
        (kept_set _ c { cl with room := none } _ (get_set_self _ _ _ _ hc) rfl id)

/-! ### Members are served clients (admitted runs) -/

theorem sm_kept (s s1 : Server) (hk : KeptClients s.clientObjs s1.clientObjs)
    (hsub : ∀ (r1 : RoomRef) (rm1 : room) (k : ClientID) (p : ClientRef),
      s1.roomObjs[r1]? = some rm1 → (k, p) ∈ rm1.members →
      (∃ (r : RoomRef) (rm : room), s.roomObjs[r]? = some rm ∧ (k, p) ∈ rm.members) ∨
        ∃ cl : client, s1.clientObjs[p]? = some cl ∧ cl.served = true)
    (hsm : ServedMembers s) : ServedMembers s1 := by
  intro r1 rm1 k p h1 hkp
  rcases hsub r1 rm1 k p h1 hkp with ⟨r, rm, hr, hmem⟩ | hnew
  · obtain ⟨cl, hcl, hs⟩ := hsm r rm k p hr hmem
    obtain ⟨cl1, hcl1, _, hs1⟩ := hk p cl hcl
    exact ⟨cl1, hcl1, hs1 hs⟩
  · exact hnew

theorem sm_entered (s : Server) (r : RoomRef) (rm : room) (c : ClientRef) (cl : client)
    (hsm : ServedMembers s) (hr : s.roomObjs[r]? = some rm)
    (hc : s.clientObjs[c]? = some cl) (hserved : cl.served = true) :
    ServedMembers (s.entered r rm c cl) := by
  refine sm_kept s _ (kept_set _ c cl _ hc rfl id) ?_ hsm
  intro r1 rm1 k p h1 hkp
  rcases get_set_cases _ _ _ _ _ h1 with ⟨_, rfl⟩ | ⟨_, h2⟩
  · rcases (mem_mapSet _ _ _ _).1 hkp with ⟨hp1, _⟩ | hp1
    · exact Or.inl ⟨r, rm, hr, hp1⟩
    · cases hp1
      exact Or.inr ⟨_, get_set_self _ _ _ _ hc, hserved⟩
  · exact Or.inl ⟨r1, rm1, h2, hkp⟩

theorem sm_created (s : Server) (c : ClientRef) (cl : client) (n : Int) (rnd : Nat → Nat)
    (hsm : ServedMembers s) (hc : s.clientObjs[c]? = some cl) (hserved : cl.served = true) :
    ServedMembers (s.created c cl n rnd) := by
  refine sm_kept s _ (kept_set _ c cl _ hc rfl id) ?_ hsm
  intro r1 rm1 k p h1 hkp
  rcases get_append_cases _ _ _ _ h1 with ⟨_, rfl⟩ | h2
  · simp only [List.mem_singleton, Prod.mk.injEq] at hkp
    obtain ⟨rfl, rfl⟩ := hkp
    exact Or.inr ⟨_, get_set_self _ _ _ _ hc, hserved⟩
  · exact Or.inl ⟨r1, rm1, h2, hkp⟩

theorem sm_removed (s : Server) (r : RoomRef) (rm : room) (c : ClientRef) (cl : client)
    (hsm : ServedMembers s) (hr : s.roomObjs[r]? = some rm)
    (hc : s.clientObjs[c]? = some cl) :
    ServedMembers (s.removed r rm c cl) := by
  refine sm_kept s _ (kept_set _ c cl _ hc rfl id) ?_ hsm
  intro r1 rm1 k p h1 hkp
  rcases get_set_cases _ _ _ _ _ h1 with ⟨_, rfl⟩ | ⟨_, h2⟩
  · exact Or.inl ⟨r, rm, hr, ((mem_mapDelete _ _ _).1 hkp).1⟩
  · exact Or.inl ⟨r1, rm1, h2, hkp⟩

theorem sm_closed (s : Server) (c : ClientRef) (cl : client)
    (hsm : ServedMembers s) (hc : s.clientObjs[c]? = some cl) :
    ServedMembers (s.closed c cl) :=
  sm_kept s _ (kept_set _ c cl _ hc rfl id)
    (fun r1 rm1 _ _ h1 hkp => Or.inl ⟨r1, rm1, h1, hkp⟩) hsm

theorem sm_newClient (s : Server) (cl0 : client) (hsm : ServedMembers s) :
    ServedMembers { s with clientObjs := s.clientObjs ++ [cl0] } :=
  sm_kept s _ (kept_append _ _) (fun r1 rm1 _ _ h1 hkp => Or.inl ⟨r1, rm1, h1, hkp⟩) hsm

theorem sm_step (s s1 : Server) (op : Op) (h : Inv s) (hsm : ServedMembers s)
    (hen : op.enabled s = true) (hex : s.exec op = some s1) : ServedMembers s1 := by
  cases op with
  | accept rnd =>
    simp only [Server.exec] at hex
    by_cases hfull : (s.clients.length : Int) ≥ s.config.MaxClients
    · rw [accept_full_eq s rnd hfull] at hex
      cases hex
      exact sm_newClient s _ hsm
    · rw [accept_eq s rnd hfull] at hex
      cases hex
      exact sm_newClient s _ hsm
  | createRoom c n rnd =>
    obtain ⟨cl, hc, hserved⟩ := isServed_iff s c hen
    simp only [Server.exec] at hex
    cases hroom : cl.room with
    | some r =>
      rw [createRoom_already_eq s c cl r n rnd hc hroom] at hex
      cases hex
      exact hsm
    | none =>
      cases hcol : mapGet s.rooms (genRoomID rnd) with
      | some r =>
        rw [createRoom_collision_eq s c cl r n rnd hc hroom hcol] at hex
        cases hex
        exact hsm
      | none =>
        rw [createRoom_fresh_eq s c cl n rnd hc hroom hcol] at hex
        cases hex
        exact sm_created s c cl n rnd hsm hc hserved
  | joinRoom c roomID =>
    obtain ⟨cl, hc, hserved⟩ := isServed_iff s c hen
    simp only [Server.exec] at hex
    cases hroom : cl.room with
    | some r =>
      rw [joinRoom_already_eq s c cl r roomID hc hroom] at hex
      cases hex
      exact hsm
    | none =>
      cases hreg : mapGet s.rooms roomID with
      | none =>
        rw [joinRoom_missing_eq s c cl roomID hc hroom hreg] at hex
        cases hex
        exact hsm
      | some r =>
        obtain ⟨rm, hr, _, _⟩ := h.registered roomID r hreg
        by_cases hfull : (rm.members.length : Int) ≥ rm.capacity
        · rw [joinRoom_full_eq s r rm c cl roomID hc hroom hreg hr hfull] at hex
          cases hex
          exact hsm
        · rw [joinRoom_enter_eq s r rm c cl roomID hc hroom hreg hr hfull (h.keys r rm hr)
            (inv_keyed s h r rm hr)] at hex
          cases hex
          exact sm_entered s r rm c cl hsm hr hc hserved
  | leaveRoom c =>
    obtain ⟨cl, hc, hserved⟩ := isServed_iff s c hen
    simp only [Server.exec] at hex
    cases hroom : cl.room with
    | none =>
      rw [leaveRoom_none_eq s c cl hc hroom] at hex
      cases hex
      exact hsm
    | some r =>
      obtain ⟨rm, hr⟩ : ∃ rm, s.roomObjs[r]? = some rm :=
        ⟨_, List.getElem?_eq_getElem (h.roomValid c cl r hc hroom)⟩
      rw [leaveRoom_eq s r rm c cl hr hc hroom (h.keys r rm hr) (inv_keyed s h r rm hr)] at hex
      cases hex
      exact sm_removed s r rm c cl hsm hr hc
  | disconnect c =>
    obtain ⟨cl, hc, hserved⟩ := isServed_iff s c hen
    simp only [Server.exec] at hex
    cases hroom : cl.room with
    | none =>
      rw [disconnect_none_eq s c cl hc hroom] at hex
      cases hex
      exact sm_closed s c cl hsm hc
    | some r =>
      obtain ⟨rm, hr⟩ : ∃ rm, s.roomObjs[r]? = some rm :=
        ⟨_, List.getElem?_eq_getElem (h.roomValid c cl r hc hroom)⟩
      rw [disconnect_eq s r rm c cl hr hc hroom (h.keys r rm hr) (inv_keyed s h r rm hr)] at hex
      cases hex
      exact sm_closed _ c _ (sm_removed s r rm c cl hsm hr hc) (get_set_self _ _ _ _ hc)

theorem admitted_served (s : Server) (h : ReachableAdmitted s) : ServedMembers s := by
  induction h with
  | init config =>
    intro r rm k p hr _
    simp [NewServer] at hr
  | step op hreach hen hex ih =>
    exact sm_step _ _ op (reachable_inv _ (admitted_reachable _ hreach)) ih hen hex

/-! ### Current rooms are recorded in the member maps (distinct ids) -/

theorem rec_outgoing (s : Server) (q : ClientRef → List Message)
    (h : CurrentRoomRecorded s) : CurrentRoomRecorded { s with outgoing := q } := h

theorem rec_entered (s : Server) (r : RoomRef) (rm : room) (c : ClientRef) (cl : client)
    (hsm : ServedMembers s) (hrec : CurrentRoomRecorded s) (hd : DistinctServedIds s)
    (hr : s.roomObjs[r]? = some rm) (hc : s.clientObjs[c]? = some cl)
    (hserved : cl.served = true) :
    CurrentRoomRecorded (s.entered r rm c cl) := by
  intro c1 cl1 r1 hc1 hroom1
  rcases get_set_cases _ _ _ _ _ hc1 with ⟨h1, rfl⟩ | ⟨hne, h2⟩
  · subst h1
    cases hroom1
    exact ⟨_, get_set_self _ _ _ _ hr, (mem_mapSet _ _ _ _).2 (Or.inr rfl)⟩
  · obtain ⟨rm1, hrm1, hmem1⟩ := hrec c1 cl1 r1 h2 hroom1
    by_cases hrr : r = r1
    · subst hrr
      rw [hr] at hrm1
      cases hrm1
      refine ⟨_, get_set_self _ _ _ _ hr, (mem_mapSet _ _ _ _).2 (Or.inl ⟨hmem1, ?_⟩)⟩
      intro hid
      obtain ⟨cl2, hcl2, hs2⟩ := hsm r rm cl1.id c1 hr hmem1
      rw [h2] at hcl2
      cases hcl2
      exact hne (hd c1 c cl1 cl h2 hc hs2 hserved hid)
    · exact ⟨rm1, (get_set_other _ _ _ _ hrr).trans hrm1, hmem1⟩

theorem rec_created (s : Server) (c : ClientRef) (cl : client) (n : Int) (rnd : Nat → Nat)
    (hrec : CurrentRoomRecorded s) :
    CurrentRoomRecorded (s.created c cl n rnd) := by
  intro c1 cl1 r1 hc1 hroom1
  rcases get_set_cases _ _ _ _ _ hc1 with ⟨h1, rfl⟩ | ⟨_, h2⟩
  · subst h1
    cases hroom1
    exact ⟨_, get_append_new _ _, List.mem_singleton.2 rfl⟩
  · obtain ⟨rm1, hrm1, hmem1⟩ := hrec c1 cl1 r1 h2 hroom1
    exact ⟨rm1, get_append_old _ _ _ _ hrm1, hmem1⟩

theorem rec_removed (s : Server) (r : RoomRef) (rm : room) (c : ClientRef) (cl : client)
    (hsm : ServedMembers s) (hrec : CurrentRoomRecorded s) (hd : DistinctServedIds s)
    (hr : s.roomObjs[r]? = some rm) (hc : s.clientObjs[c]? = some cl)
    (hserved : cl.served = true) :
    CurrentRoomRecorded (s.removed r rm c cl) := by
  intro c1 cl1 r1 hc1 hroom1
  rcases get_set_cases _ _ _ _ _ hc1 with ⟨_, rfl⟩ | ⟨hne, h2⟩
  · cases hroom1
  · obtain ⟨rm1, hrm1, hmem1⟩ := hrec c1 cl1 r1 h2 hroom1
    by_cases hrr : r = r1
    · subst hrr
      rw [hr] at hrm1
      cases hrm1
      refine ⟨_, get_set_self _ _ _ _ hr, (mem_mapDelete _ _ _).2 ⟨hmem1, ?_⟩⟩
      intro hid
      obtain ⟨cl2, hcl2, hs2⟩ := hsm r rm cl1.id c1 hr hmem1
      rw [h2] at hcl2
      cases hcl2
      exact hne (hd c1 c cl1 cl h2 hc hs2 hserved hid)
    · exact ⟨rm1, (get_set_other _ _ _ _ hrr).trans hrm1, hmem1⟩

theorem rec_closed (s : Server) (c : ClientRef) (cl : client)
    (hrec : CurrentRoomRecorded s) (hc : s.clientObjs[c]? = some cl) :
    CurrentRoomRecorded (s.closed c cl) := by
  intro c1 cl1 r1 hc1 hroom1
  rcases get_set_cases _ _ _ _ _ hc1 with ⟨h1, rfl⟩ | ⟨_, h2⟩
  · subst h1
    exact hrec c1 cl r1 hc hroom1
  · exact hrec c1 cl1 r1 h2 hroom1

theorem rec_newClient (s : Server) (cl0 : client) (hrec : CurrentRoomRecorded s)
    (h0 : cl0.room = none) :
    CurrentRoomRecorded { s with clientObjs := s.clientObjs ++ [cl0] } := by
  intro c1 cl1 r1 hc1 hroom1
  rcases get_append_cases _ _ _ _ hc1 with ⟨_, rfl⟩ | h2
  · rw [h0] at hroom1
    cases hroom1
  · exact hrec c1 cl1 r1 h2 hroom1

theorem rec_step (s s1 : Server) (op : Op) (h : Inv s) (hsm : ServedMembers s)
    (hrec : CurrentRoomRecorded s)
    (hd : DistinctServedIds s) (hen : op.enabled s = true)
    (hex : s.exec op = some s1) : CurrentRoomRecorded s1 := by
  cases op with
  | accept rnd =>
    simp only [Server.exec] at hex
    by_cases hfull : (s.clients.length : Int) ≥ s.config.MaxClients
    · rw [accept_full_eq s rnd hfull] at hex
      cases hex
      exact rec_newClient s _ hrec rfl
    · rw [accept_eq s rnd hfull] at hex
      cases hex
      exact rec_newClient s _ hrec rfl
  | createRoom c n rnd =>
    obtain ⟨cl, hc, hserved⟩ := isServed_iff s c hen
    simp only [Server.exec] at hex
    cases hroom : cl.room with
    | some r =>
      rw [createRoom_already_eq s c cl r n rnd hc hroom] at hex
      cases hex
      exact hrec
    | none =>
      cases hcol : mapGet s.rooms (genRoomID rnd) with
      | some r =>
        rw [createRoom_collision_eq s c cl r n rnd hc hroom hcol] at hex
        cases hex
        exact hrec
      | none =>
        rw [createRoom_fresh_eq s c cl n rnd hc hroom hcol] at hex
        cases hex
        exact rec_created s c cl n rnd hrec
  | joinRoom c roomID =>
    obtain ⟨cl, hc, hserved⟩ := isServed_iff s c hen
    simp only [Server.exec] at hex
    cases hroom : cl.room with
    | some r =>
      rw [joinRoom_already_eq s c cl r roomID hc hroom] at hex
      cases hex
      exact hrec
    | none =>
      cases hreg : mapGet s.rooms roomID with
      | none =>
        rw [joinRoom_missing_eq s c cl roomID hc hroom hreg] at hex
        cases hex
        exact hrec
      | some r =>
        obtain ⟨rm, hr, _, _⟩ := h.registered roomID r hreg
        by_cases hfull : (rm.members.length : Int) ≥ rm.capacity
        · rw [joinRoom_full_eq s r rm c cl roomID hc hroom hreg hr hfull] at hex
          cases hex
          exact hrec
        · rw [joinRoom_enter_eq s r rm c cl roomID hc hroom hreg hr hfull (h.keys r rm hr)
            (inv_keyed s h r rm hr)] at hex
          cases hex
          exact rec_entered s r rm c cl hsm hrec hd hr hc hserved
  | leaveRoom c =>
    obtain ⟨cl, hc, hserved⟩ := isServed_iff s c hen
    simp only [Server.exec] at hex
    cases hroom : cl.room with
    | none =>
      rw [leaveRoom_none_eq s c cl hc hroom] at hex
      cases hex
      exact hrec
    | some r =>
      obtain ⟨rm, hr⟩ : ∃ rm, s.roomObjs[r]? = some rm :=
        ⟨_, List.getElem?_eq_getElem (h.roomValid c cl r hc hroom)⟩
      rw [leaveRoom_eq s r rm c cl hr hc hroom (h.keys r rm hr) (inv_keyed s h r rm hr)] at hex
      cases hex
      exact rec_removed s r rm c cl hsm hrec hd hr hc hserved
  | disconnect c =>
    obtain ⟨cl, hc, hserved⟩ := isServed_iff s c hen
    simp only [Server.exec] at hex
    cases hroom : cl.room with
    | none =>
      rw [disconnect_none_eq s c cl hc hroom] at hex
      cases hex
      exact rec_closed s c cl hrec hc
    | some r =>
      obtain ⟨rm, hr⟩ : ∃ rm, s.roomObjs[r]? = some rm :=
        ⟨_, List.getElem?_eq_getElem (h.roomValid c cl r hc hroom)⟩
      rw [disconnect_eq s r rm c cl hr hc hroom (h.keys r rm hr) (inv_keyed s h r rm hr)] at hex
      cases hex
      exact rec_closed _ c _ (rec_removed s r rm c cl hsm hrec hd hr hc hserved)
        (get_set_self _ _ _ _ hc)

theorem reachable_recorded (s : Server) (h : ReachableAdmitted s) :
    DistinctServedIds s → CurrentRoomRecorded s := by
  induction h with
  | init config =>
    intro _ c cl r hc _
    simp [NewServer] at hc
  | step op hreach hen hex ih =>
    intro hd
    have hinv := reachable_inv _ (admitted_reachable _ hreach)
    have hd0 := distinct_back _ _ (step_kept _ _ op hinv hex) hd
    exact rec_step _ _ op hinv (admitted_served _ hreach) (ih hd0) hd0 hen hex

theorem distinct_of_pairwise (s : Server)
    (h : s.clientObjs.Pairwise
      (fun a b => a.served = true → b.served = true → a.id ≠ b.id)) :
    DistinctServedIds s := by
  intro p q cp cq hp hq hsp hsq hid
  obtain ⟨hp1, hp2⟩ := List.getElem?_eq_some.1 hp
  obtain ⟨hq1, hq2⟩ := List.getElem?_eq_some.1 hq
  rcases Nat.lt_trichotomy p q with hlt | heq | hgt
  · have := List.pairwise_iff_getElem.1 h p q hp1 hq1 hlt
    rw [hp2, hq2] at this
    exact absurd hid (this hsp hsq)
  · exact heq
  · have := List.pairwise_iff_getElem.1 h q p hq1 hp1 hgt
    rw [hp2, hq2] at this
    exact absurd hid.symm (this hsq hsp)

/-! ### Command texts -/

theorem genRoomID_mem (rnd : Nat → Nat) : ∀ ch ∈ genRoomID rnd, ch ∈ ROOM_ID_ALPHABET := by
  intro ch hch
  unfold genRoomID at hch
  obtain ⟨i, _, hi⟩ := List.mem_map.1 hch
  have hlt : rnd i % ROOM_ID_ALPHABET.length < ROOM_ID_ALPHABET.length :=
    Nat.mod_lt _ (by decide)
  rw [← hi, List.getD_eq_getElem _ _ hlt]
  exact List.getElem_mem _

theorem alphabet_plain : ∀ ch ∈ ROOM_ID_ALPHABET, ch ≠ ' ' ∧ ch ≠ '\n' := by decide

theorem genRoomID_nospace (rnd : Nat → Nat) : ∀ ch ∈ genRoomID rnd, ch ≠ ' ' :=
  fun ch h => (alphabet_plain ch (genRoomID_mem rnd ch h)).1

theorem genRoomID_last (rnd : Nat → Nat) : (genRoomID rnd).getLast? ≠ some '\n' := by
  intro h
  have hmem : '\n' ∈ genRoomID rnd := List.mem_of_getLast?_eq_some h
  exact (alphabet_plain _ (genRoomID_mem rnd _ hmem)).2 rfl

theorem splitSpace_nospace (t : Str) (h : ∀ ch ∈ t, ch ≠ ' ') : SplitSpace t = [t] := by
  induction t with
  | nil => rfl
  | cons ch t ih =>
    have h1 : ch ≠ ' ' := h ch (List.mem_cons_self _ _)
    have h2 := ih (fun x hx => h x (List.mem_cons_of_mem _ hx))
    simp only [SplitSpace, h1, if_false, h2]

theorem trimSuffixNewline_id (t : Str) (h : t.getLast? ≠ some '\n') :
    TrimSuffixNewline t = t := by
  unfold TrimSuffixNewline
  simp only [h, if_false]

theorem handlers_eq (config : ServerConfig) :
    (NewServer config).handlers =
      [("ROOM".toList, Handler.createRoomHandler), ("JOIN".toList, Handler.joinRoomHandler),
       ("LEAV".toList, Handler.leaveRoomHandler)] := by
  rfl

theorem parse_room2 (s : Server) (a : ClientRef) (rnd : Nat → Nat)
    (hpre : s.config.CommandPrefix = ":".toList)
    (hh : s.handlers = (NewServer s.config).handlers) :
    s.parse (NewMessage (some a) ":ROOM 2".toList) rnd =
      match s.CreateRoom a 2 rnd with
      | none => none
      | some s1 => some (s1, NewMessage (some a) ":ROOM 2".toList) := by
  have h1 : HasPrefix ":ROOM 2".toList ":".toList = true := by decide
  have h2 : sliceFrom ":ROOM 2".toList (":".toList : Str).length = some "ROOM 2".toList := by
    decide
  have h3 : mapGet (NewServer s.config).handlers (TrimSuffixNewline (CutSpace "ROOM 2".toList))
      = some Handler.createRoomHandler := by
    rw [handlers_eq]
    decide
  have h4 : createRoomHandler.handle s (NewMessage (some a) ":ROOM 2".toList) rnd =
      match s.CreateRoom a 2 rnd with
      | none => none
      | some s1 => some (s1, none) := by
    have e1 : SplitSpace ":ROOM 2".toList = [":ROOM".toList, "2".toList] := by decide
    have e2 : Atoi ['2'] = some 2 := by decide
    unfold createRoomHandler.handle
    simp only [NewMessage, e1, List.length_cons, List.length_nil]
    simp [e2]
  unfold Server.parse
  simp only [NewMessage] at h1 h2 h3 h4 ⊢
  simp only [hpre, h1, Bool.not_true, Bool.false_eq_true, if_false, h2, hh, h3,
    Handler.handle, h4]
  cases s.CreateRoom a 2 rnd <;> rfl

theorem parse_join (s : Server) (b : ClientRef) (R : Str) (rnd : Nat → Nat)
    (hpre : s.config.CommandPrefix = ":".toList)
    (hh : s.handlers = (NewServer s.config).handlers)
    (hns : ∀ ch ∈ R, ch ≠ ' ') (hl : R.getLast? ≠ some '\n') :
    s.parse (NewMessage (some b) (":JOIN ".toList ++ R)) rnd =
      match s.JoinRoom b R with
      | none => none
      | some s1 => some (s1, NewMessage (some b) (":JOIN ".toList ++ R)) := by
  have e0 : (":JOIN ".toList ++ R : Str) = ':' :: 'J' :: 'O' :: 'I' :: 'N' :: ' ' :: R := rfl
  have h1 : HasPrefix (':' :: 'J' :: 'O' :: 'I' :: 'N' :: ' ' :: R) [':'] = true := by
    simp [HasPrefix, List.isPrefixOf]
  have h2 : sliceFrom (':' :: 'J' :: 'O' :: 'I' :: 'N' :: ' ' :: R) ([':'] : Str).length
      = some ('J' :: 'O' :: 'I' :: 'N' :: ' ' :: R) := by
    simp [sliceFrom]
  have h3 : CutSpace ('J' :: 'O' :: 'I' :: 'N' :: ' ' :: R) = "JOIN".toList := by
    simp [CutSpace, List.takeWhile]
  have h3b : mapGet (NewServer s.config).handlers (TrimSuffixNewline "JOIN".toList)
      = some Handler.joinRoomHandler := by
    rw [handlers_eq]
    decide
  have e1 : SplitSpace (':' :: 'J' :: 'O' :: 'I' :: 'N' :: ' ' :: R) = [":JOIN".toList, R] := by
    have := splitSpace_nospace R hns
    simp [SplitSpace, this]
  have h4 : joinRoomHandler.handle s
        { text := ':' :: 'J' :: 'O' :: 'I' :: 'N' :: ' ' :: R, sender := some b } =
      match s.JoinRoom b R with
      | none => none
      | some s1 => some (s1, none) := by
    unfold joinRoomHandler.handle
    simp only [e1, sliceFrom, List.length_cons, List.length_nil]
    simp [trimSuffixNewline_id R hl]
  have hp : (":".toList : Str) = [':'] := rfl
  unfold Server.parse
  rw [e0]
  simp only [NewMessage, hpre, hp, h1, Bool.not_true, Bool.false_eq_true, if_false, h2, hh,
    h3, h3b, Handler.handle, h4]
  cases s.JoinRoom b R <;> rfl

/-- In every reachable state every room has the shape `broadcast` relies on: the
keys of its member map are distinct and each entry is keyed by the id of the
live client it points to. -/
theorem reachable_rooms_keyed (s : Server) (h : Reachable s) (r : RoomRef) (rm : room)
    (hr : s.roomObjs[r]? = some rm) :
    (rm.members.map Prod.fst).Nodup ∧ KeyedByIds s rm.members :=
  ⟨(reachable_inv s h).keys r rm hr, inv_keyed s (reachable_inv s h) r rm hr⟩

/-! ### Dispatch keeps the invariant -/

theorem send_nil (s : Server) (m : Message) (h : m.sender = none) :
    s.Send m = some (s, m) := by
  unfold Server.Send
  simp only [h]

theorem send_idle (s : Server) (m : Message) (c : ClientRef) (cl : client)
    (hs : m.sender = some c) (hc : s.clientObjs[c]? = some cl) (hroom : cl.room = none) :
    s.Send m = some (s, m) := by
  unfold Server.Send
  simp only [hs, hc, hroom]

theorem send_frame (s s1 : Server) (m m1 : Message) (h : s.Send m = some (s1, m1)) :
    ∃ q, s1 = { s with outgoing := q } := by
  unfold Server.Send at h
  split at h
  · cases h
    exact ⟨s.outgoing, rfl⟩
  · split at h
    · cases h
    · split at h
      · cases h
        exact ⟨s.outgoing, rfl⟩
      · exact broadcast_frame _ _ _ _ _ h

theorem handle_step (hd : Handler) (s s1 : Server) (m : Message) (rnd : Nat → Nat)
    (e : Option Str) (h : hd.handle s m rnd = some (s1, e)) :
    s1 = s ∨ ∃ op : Op, s.exec op = some s1 := by
  cases hd with
  | createRoomHandler =>
    simp only [Handler.handle, createRoomHandler.handle] at h
    split at h
    · cases h
      exact Or.inl rfl
    · split at h
      · cases h
        exact Or.inl rfl
      · split at h
        · cases h
        · split at h
          · cases h
          · rename_i s2 hs2
            cases h
            exact Or.inr ⟨Op.createRoom _ _ rnd, hs2⟩
  | joinRoomHandler =>
    simp only [Handler.handle, joinRoomHandler.handle] at h
    split at h
    · cases h
    · split at h
      · cases h
        exact Or.inl rfl
      · split at h
        · cases h
        · split at h
          · cases h
          · split at h
            · cases h
            · rename_i s2 hs2
              cases h
              exact Or.inr ⟨Op.joinRoom _ _, hs2⟩
  | leaveRoomHandler =>
    simp only [Handler.handle, leaveRoomHandler.handle] at h
    split at h
    · cases h
    · split at h
      · cases h
      · rename_i s2 hs2
        cases h
        exact Or.inr ⟨Op.leaveRoom _, hs2⟩

theorem inv_parse (s s1 : Server) (m m1 : Message) (rnd : Nat → Nat) (h : Inv s)
    (hp : s.parse m rnd = some (s1, m1)) : Inv s1 := by
  unfold Server.parse at hp
  split at hp
  · obtain ⟨q, rfl⟩ := send_frame _ _ _ _ hp
    exact inv_outgoing s q h
  · split at hp
    · cases hp
    · dsimp only at hp
      split at hp
      · split at hp
        · cases hp
        · split at hp
          · cases hp
          · rename_i s2 hs2
            cases hp
            rw [enqueue_frame _ _ _ _ hs2]
            exact inv_withSent _ _ _ h
      · rename_i handler _
        split at hp
        · cases hp
        · rename_i s2 hs2
          cases hp
          rcases handle_step handler s _ m rnd none hs2 with rfl | ⟨op, hop⟩
          · exact h
          · exact inv_step _ _ op h hop
        · rename_i s2 err hs2
          have h2 : Inv s2 := by
            rcases handle_step handler s _ m rnd (some err) hs2 with rfl | ⟨op, hop⟩
            · exact h
            · exact inv_step _ _ op h hop
          split at hp
          · cases hp
          · split at hp
            · cases hp
            · rename_i s3 hs3
              cases hp
              rw [enqueue_frame _ _ _ _ hs3]
              exact inv_withSent _ _ _ h2

theorem running_inv (s : Server) (h : Running s) : Inv s := by
  induction h with
  | init config => exact inv_init config
  | step op _ hex ih => exact inv_step _ _ op ih hex
  | dispatch m m1 rnd _ hp ih => exact inv_parse _ _ m m1 rnd ih hp

theorem reachable_running (s : Server) (h : Reachable s) : Running s := by
  induction h with
  | init config => exact Running.init config
  | step op _ hex ih => exact Running.step op ih hex

/-! ### Leaving a room -/

theorem keys_unique {V : Type} (m : List (Str × V)) (h : (m.map Prod.fst).Nodup)
    (k : Str) (v1 v2 : V) (h1 : (k, v1) ∈ m) (h2 : (k, v2) ∈ m) : v1 = v2 := by
  have := List.inj_on_of_nodup_map h h1 h2 rfl
  exact (Prod.mk.inj this).2

theorem leaveRoom_inv_eq (s : Server) (h : Inv s) (c : ClientRef) (cl : client) (r : RoomRef)
    (hc : s.clientObjs[c]? = some cl) (hroom : cl.room = some r) :
    ∃ rm : room, s.roomObjs[r]? = some rm ∧
      s.LeaveRoom c =
        some (((s.removed r rm c cl).withBroadcast c rm.members
          { text := cl.id ++ ": ".toList ++ CLIENT_LEFT_ROOM_NOTICE, sender := some c }).withSent
            c (NewMessage (some c) CLIENT_LEFT_ROOM_NOTICE)) := by
  obtain ⟨rm, hr⟩ : ∃ rm, s.roomObjs[r]? = some rm :=
    ⟨_, List.getElem?_eq_getElem (h.roomValid c cl r hc hroom)⟩
  exact ⟨rm, hr, leaveRoom_eq s r rm c cl hr hc hroom (h.keys r rm hr) (inv_keyed s h r rm hr)⟩

theorem leaveRoom_total (s : Server) (h : Inv s) (c : ClientRef) (cl : client)
    (hc : s.clientObjs[c]? = some cl) :
    ∃ s1 : Server, s.LeaveRoom c = some s1 ∧
      ∃ cl1 : client, s1.clientObjs[c]? = some cl1 ∧ cl1.room = none := by
  cases hroom : cl.room with
  | none =>
    exact ⟨_, leaveRoom_none_eq s c cl hc hroom, cl, hc, hroom⟩
  | some r =>
    obtain ⟨rm, _, heq⟩ := leaveRoom_inv_eq s h c cl r hc hroom
    exact ⟨_, heq, { cl with room := none }, get_set_self _ _ _ _ hc, rfl⟩

/-! ### Dispatch of commands -/

theorem hasPrefix_length (t p : Str) (h : HasPrefix t p = true) : p.length ≤ t.length := by
  unfold HasPrefix at h
  exact (List.isPrefixOf_iff_prefix.1 h).length_le

theorem sliceFrom_prefix (t p : Str) (h : HasPrefix t p = true) :
    sliceFrom t p.length = some (t.drop p.length) := by
  unfold sliceFrom
  simp only [hasPrefix_length t p h, if_true]

theorem handlers_unknown (config : ServerConfig) (tok : Str)
    (h : tok ∉ ["ROOM".toList, "JOIN".toList, "LEAV".toList]) :
    mapGet (NewServer config).handlers tok = none := by
  rw [handlers_eq, mapGet_eq_none]
  intro e he hk
  apply h
  simp only [List.mem_cons, List.mem_singleton, List.not_mem_nil, or_false] at he ⊢
  rcases he with rfl | rfl | rfl
  · exact Or.inl hk.symm
  · exact Or.inr (Or.inl hk.symm)
  · exact Or.inr (Or.inr hk.symm)

theorem parse_unknown_eq (s : Server) (m : Message) (sender : ClientRef) (cl : client)
    (rnd : Nat → Nat)
    (hh : s.handlers = (NewServer s.config).handlers)
    (hs : m.sender = some sender) (hc : s.clientObjs[sender]? = some cl)
    (hpre : HasPrefix m.text s.config.CommandPrefix = true)
    (htok : TrimSuffixNewline (CutSpace (m.text.drop s.config.CommandPrefix.length))
      ∉ ["ROOM".toList, "JOIN".toList, "LEAV".toList]) :
    s.parse m rnd
      = some (s.withSent sender (NewMessage (some sender) NOT_A_COMMAND_NOTICE), m) := by
  unfold Server.parse
  simp only [hpre, Bool.not_true, Bool.false_eq_true, if_false,
    sliceFrom_prefix _ _ hpre, hh, handlers_unknown s.config _ htok, hs,
    enqueue_eq s sender _ cl hc]

theorem createRoomHandler_many (s : Server) (m : Message) (rnd : Nat → Nat)
    (h : (SplitSpace m.text).length > 2) :
    createRoomHandler.handle s m rnd = some (s, some "Invalid command format".toList) := by
  unfold createRoomHandler.handle
  simp only [h, if_true]

theorem createRoomHandler_bad (s : Server) (m : Message) (rnd : Nat → Nat) (tok arg : Str)
    (hsplit : SplitSpace m.text = [tok, arg]) (harg : Atoi arg = none) :
    createRoomHandler.handle s m rnd = some (s, some "Invalid command format".toList) := by
  unfold createRoomHandler.handle
  simp [hsplit, harg]

theorem createRoomHandler_bare (s : Server) (m : Message) (rnd : Nat → Nat) (sender : ClientRef)
    (hs : m.sender = some sender) (h : (SplitSpace m.text).length = 1) :
    createRoomHandler.handle s m rnd =
      match s.CreateRoom sender MaxInt64 rnd with
      | none => none
      | some s1 => some (s1, none) := by
  unfold createRoomHandler.handle
  simp [h, hs]

theorem createRoomHandler_arg (s : Server) (m : Message) (rnd : Nat → Nat) (sender : ClientRef)
    (tok arg : Str) (n : Int)
    (hs : m.sender = some sender)
    (hsplit : SplitSpace m.text = [tok, arg]) (harg : Atoi arg = some n) :
    createRoomHandler.handle s m rnd =
      match s.CreateRoom sender (if n > 0 then n else MaxInt64) rnd with
      | none => none
      | some s1 => some (s1, none) := by
  unfold createRoomHandler.handle
  simp [hsplit, harg, hs]

theorem parse_handler_error (s : Server) (m : Message) (sender : ClientRef) (cl : client)
    (rnd : Nat → Nat) (hd : Handler) (err : Str)
    (hs : m.sender = some sender) (hc : s.clientObjs[sender]? = some cl)
    (hpre : HasPrefix m.text s.config.CommandPrefix = true)
    (htok : mapGet s.handlers
      (TrimSuffixNewline (CutSpace (m.text.drop s.config.CommandPrefix.length))) = some hd)
    (herr : hd.handle s m rnd = some (s, some err)) :
    s.parse m rnd
      = some (s.withSent sender (NewMessage (some sender) (ERROR_NOTICE_PREFIX ++ err)), m) := by
  unfold Server.parse
  simp only [hpre, Bool.not_true, Bool.false_eq_true, if_false,
    sliceFrom_prefix _ _ hpre, htok, herr, hs, enqueue_eq s sender _ cl hc]

theorem parse_handler_ok (s s1 : Server) (m : Message) (rnd : Nat → Nat) (hd : Handler)
    (hpre : HasPrefix m.text s.config.CommandPrefix = true)
    (htok : mapGet s.handlers
      (TrimSuffixNewline (CutSpace (m.text.drop s.config.CommandPrefix.length))) = some hd)
    (hok : hd.handle s m rnd = some (s1, none)) :
    s.parse m rnd = some (s1, m) := by
  unfold Server.parse
  simp only [hpre, Bool.not_true, Bool.false_eq_true, if_false,
    sliceFrom_prefix _ _ hpre, htok, hok]

theorem handlers_room (config : ServerConfig) :
    mapGet (NewServer config).handlers "ROOM".toList = some Handler.createRoomHandler := by
  rw [handlers_eq]
  rfl

theorem handlers_join (config : ServerConfig) :
    mapGet (NewServer config).handlers "JOIN".toList = some Handler.joinRoomHandler := by
  rw [handlers_eq]
  rfl

theorem handlers_leav (config : ServerConfig) :
    mapGet (NewServer config).handlers "LEAV".toList = some Handler.leaveRoomHandler := by
  rw [handlers_eq]
  rfl

theorem joinRoomHandler_noarg (s : Server) (m : Message) (tok : Str)
    (hsplit : SplitSpace m.text = [tok]) :
    joinRoomHandler.handle s m = some (s, some "Invalid command format".toList) := by
  unfold joinRoomHandler.handle
  rw [hsplit]
  rfl

theorem joinRoomHandler_args (s : Server) (m : Message) (sender : ClientRef)
    (tok arg0 : Str) (rest : List Str)
    (hs : m.sender = some sender) (hsplit : SplitSpace m.text = tok :: arg0 :: rest) :
    joinRoomHandler.handle s m =
      match s.JoinRoom sender (TrimSuffixNewline arg0) with
      | none => none
      | some s1 => some (s1, none) := by
  unfold joinRoomHandler.handle
  rw [hsplit, hs]
  have e : sliceFrom (tok :: arg0 :: rest) 1 = some (arg0 :: rest) := by
    simp [sliceFrom]
  rw [e]
  simp

/-! ### Trimming -/

theorem dropWhile_snoc {α : Type} (p : α → Bool) (l : List α) (a : α) (ha : p a = false) :
    (l ++ [a]).dropWhile p = l.dropWhile p ++ [a] := by
  induction l with
  | nil => simp [List.dropWhile, ha]
  | cons x t ih =>
    by_cases hx : p x = true
    · simp [List.dropWhile, hx, ih]
    · simp [List.dropWhile, hx]

theorem dropWhile_head {α : Type} (p : α → Bool) (l : List α) (a : α)
    (h : (l.dropWhile p).head? = some a) : p a = false := by
  induction l with
  | nil => simp at h
  | cons x t ih =>
    by_cases hx : p x = true
    · rw [List.dropWhile_cons_of_pos hx] at h
      exact ih h
    · rw [List.dropWhile_cons_of_neg hx] at h
      simp only [List.head?_cons, Option.some.injEq] at h
      rw [← h]
      simpa using hx

theorem trim_head (s cutset : Str) (ch : Char) (h : (Trim s cutset).head? = some ch) :
    ch ∉ cutset := by
  unfold Trim at h
  cases hy : s.dropWhile (fun ch => decide (ch ∈ cutset)) with
  | nil =>
    rw [hy] at h
    simp at h
  | cons a t =>
    have ha : (fun ch => decide (ch ∈ cutset)) a = false := by
      apply dropWhile_head _ s a
      rw [hy]
      rfl
    rw [hy, List.reverse_cons,
      dropWhile_snoc (fun ch => decide (ch ∈ cutset)) t.reverse a ha] at h
    simp only [List.reverse_append, List.reverse_cons, List.reverse_nil, List.nil_append,
      List.singleton_append, List.head?_cons, Option.some.injEq] at h
    rw [← h]
    simpa using ha

theorem trim_last (s cutset : Str) (ch : Char) (h : (Trim s cutset).getLast? = some ch) :
    ch ∉ cutset := by
  unfold Trim at h
  rw [List.getLast?_reverse] at h
  simpa using dropWhile_head _ _ ch h

theorem trim_split (s cutset : Str) :
    ∃ front back : Str, s = front ++ Trim s cutset ++ back ∧
      (∀ ch ∈ front, ch ∈ cutset) ∧ (∀ ch ∈ back, ch ∈ cutset) := by
  refine ⟨s.takeWhile (fun ch => decide (ch ∈ cutset)),
    (((s.dropWhile (fun ch => decide (ch ∈ cutset))).reverse.takeWhile
      (fun ch => decide (ch ∈ cutset)))).reverse, ?_, ?_, ?_⟩
  · unfold Trim
    rw [List.append_assoc, ← List.reverse_append, List.takeWhile_append_dropWhile,
      List.reverse_reverse, List.takeWhile_append_dropWhile]
  · intro ch hch
    simpa using List.mem_takeWhile_imp hch
  · intro ch hch
    rw [List.mem_reverse] at hch
    simpa using List.mem_takeWhile_imp hch

theorem parse_plain_eq (s : Server) (m : Message) (rnd : Nat → Nat)
    (hpre : HasPrefix m.text s.config.CommandPrefix = false) :
    s.parse m rnd = s.Send m := by
  unfold Server.parse
  simp only [hpre, Bool.not_false, if_true]

/-! ### No step of the dispatcher panics -/

theorem splitSpace_cons (t : Str) : ∃ (tok : Str) (args : List Str), SplitSpace t = tok :: args := by
  induction t with
  | nil => exact ⟨[], [], rfl⟩
  | cons ch t ih =>
    obtain ⟨tok, args, e⟩ := ih
    by_cases hch : ch = ' '
    · exact ⟨[], tok :: args, by simp only [SplitSpace, hch, if_true, e]⟩
    · exact ⟨ch :: tok, args, by simp only [SplitSpace, hch, if_false, e]⟩

theorem createRoom_total (s : Server) (c : ClientRef) (cl : client) (n : Int) (rnd : Nat → Nat)
    (hc : s.clientObjs[c]? = some cl) : ∃ s1 : Server, s.CreateRoom c n rnd = some s1 := by
  cases hroom : cl.room with
  | some r => exact ⟨_, createRoom_already_eq s c cl r n rnd hc hroom⟩
  | none =>
    cases hcol : mapGet s.rooms (genRoomID rnd) with
    | some r => exact ⟨_, createRoom_collision_eq s c cl r n rnd hc hroom hcol⟩
    | none => exact ⟨_, createRoom_fresh_eq s c cl n rnd hc hroom hcol⟩

theorem joinRoom_total (s : Server) (h : Inv s) (c : ClientRef) (cl : client) (roomID : RoomID)
    (hc : s.clientObjs[c]? = some cl) : ∃ s1 : Server, s.JoinRoom c roomID = some s1 := by
  cases hroom : cl.room with
  | some r => exact ⟨_, joinRoom_already_eq s c cl r roomID hc hroom⟩
  | none =>
    cases hreg : mapGet s.rooms roomID with
    | none => exact ⟨_, joinRoom_missing_eq s c cl roomID hc hroom hreg⟩
    | some r =>
      obtain ⟨rm, hr, _, _⟩ := h.registered roomID r hreg
      by_cases hfull : (rm.members.length : Int) ≥ rm.capacity
      · exact ⟨_, joinRoom_full_eq s r rm c cl roomID hc hroom hreg hr hfull⟩
      · exact ⟨_, joinRoom_enter_eq s r rm c cl roomID hc hroom hreg hr hfull (h.keys r rm hr)
          (inv_keyed s h r rm hr)⟩

theorem send_total (s : Server) (h : Inv s) (m : Message) (c : ClientRef) (cl : client)
    (hs : m.sender = some c) (hc : s.clientObjs[c]? = some cl) :
    ∃ (s1 : Server) (m1 : Message), s.Send m = some (s1, m1) := by
  cases hroom : cl.room with
  | none => exact ⟨s, m, send_idle s m c cl hs hc hroom⟩
  | some r =>
    obtain ⟨rm, hr⟩ : ∃ rm, s.roomObjs[r]? = some rm :=
      ⟨_, List.getElem?_eq_getElem (h.roomValid c cl r hc hroom)⟩
    have e : s.Send m = room.broadcast s r m := by
      unfold Server.Send
      simp only [hs, hc, hroom]
    rw [e, broadcast_eq s r rm m c cl hs hc hr (h.keys r rm hr) (inv_keyed s h r rm hr)]
    exact ⟨_, _, rfl⟩

theorem createRoomHandler_total (s : Server) (m : Message) (c : ClientRef) (cl : client)
    (rnd : Nat → Nat) (hs : m.sender = some c) (hc : s.clientObjs[c]? = some cl) :
    (∃ err : Str, createRoomHandler.handle s m rnd = some (s, some err)) ∨
    (∃ s1 : Server, createRoomHandler.handle s m rnd = some (s1, none)) := by
  obtain ⟨tok, args, hsplit⟩ := splitSpace_cons m.text
  cases args with
  | nil =>
    obtain ⟨s1, h1⟩ := createRoom_total s c cl MaxInt64 rnd hc
    right
    refine ⟨s1, ?_⟩
    rw [createRoomHandler_bare s m rnd c hs (by rw [hsplit]; rfl), h1]
  | cons arg more =>
    cases more with
    | nil =>
      cases harg : Atoi arg with
      | none => exact Or.inl ⟨_, createRoomHandler_bad s m rnd tok arg hsplit harg⟩
      | some n =>
        obtain ⟨s1, h1⟩ := createRoom_total s c cl (if n > 0 then n else MaxInt64) rnd hc
        right
        refine ⟨s1, ?_⟩
        rw [createRoomHandler_arg s m rnd c tok arg n hs hsplit harg, h1]
    | cons arg2 more2 =>
      refine Or.inl ⟨_, createRoomHandler_many s m rnd ?_⟩
      rw [hsplit]
      simp only [List.length_cons]
      omega

theorem joinRoomHandler_total (s : Server) (h : Inv s) (m : Message) (c : ClientRef)
    (cl : client) (hs : m.sender = some c) (hc : s.clientObjs[c]? = some cl) :
    (∃ err : Str, joinRoomHandler.handle s m = some (s, some err)) ∨
    (∃ s1 : Server, joinRoomHandler.handle s m = some (s1, none)) := by
  obtain ⟨tok, args, hsplit⟩ := splitSpace_cons m.text
  cases args with
  | nil => exact Or.inl ⟨_, joinRoomHandler_noarg s m tok hsplit⟩
  | cons arg0 more =>
    obtain ⟨s1, h1⟩ := joinRoom_total s h c cl (TrimSuffixNewline arg0) hc
    right
    refine ⟨s1, ?_⟩
    rw [joinRoomHandler_args s m c tok arg0 more hs hsplit, h1]

theorem leaveRoomHandler_total (s : Server) (h : Inv s) (m : Message) (c : ClientRef)
    (cl : client) (hs : m.sender = some c) (hc : s.clientObjs[c]? = some cl) :
    ∃ s1 : Server, leaveRoomHandler.handle s m = some (s1, none) := by
  obtain ⟨s1, h1, _⟩ := leaveRoom_total s h c cl hc
  refine ⟨s1, ?_⟩
  unfold leaveRoomHandler.handle
  simp only [hs, h1]

theorem handle_total (hd : Handler) (s : Server) (h : Inv s) (m : Message) (c : ClientRef)
    (cl : client) (rnd : Nat → Nat) (hs : m.sender = some c)
    (hc : s.clientObjs[c]? = some cl) :
    (∃ err : Str, hd.handle s m rnd = some (s, some err)) ∨
    (∃ s1 : Server, hd.handle s m rnd = some (s1, none)) := by
  cases hd with
  | createRoomHandler => exact createRoomHandler_total s m c cl rnd hs hc
  | joinRoomHandler => exact joinRoomHandler_total s h m c cl hs hc
  | leaveRoomHandler => exact Or.inr (leaveRoomHandler_total s h m c cl hs hc)

theorem parse_total (s : Server) (h : Inv s) (m : Message) (c : ClientRef) (cl : client)
    (rnd : Nat → Nat) (hs : m.sender = some c) (hc : s.clientObjs[c]? = some cl) :
    ∃ (s1 : Server) (m1 : Message), s.parse m rnd = some (s1, m1) := by
  cases hpre : HasPrefix m.text s.config.CommandPrefix with
  | false =>
    rw [parse_plain_eq s m rnd hpre]
    exact send_total s h m c cl hs hc
  | true =>
    cases htok : mapGet s.handlers
        (TrimSuffixNewline (CutSpace (m.text.drop s.config.CommandPrefix.length))) with
    | none =>
      refine ⟨s.withSent c (NewMessage (some c) NOT_A_COMMAND_NOTICE), m, ?_⟩
      unfold Server.parse
      simp only [hpre, Bool.not_true, Bool.false_eq_true, if_false,
        sliceFrom_prefix _ _ hpre, htok, hs, enqueue_eq s c _ cl hc]
    | some hd =>
      rcases handle_total hd s h m c cl rnd hs hc with ⟨err, herr⟩ | ⟨s1, hok⟩
      · exact ⟨_, m, parse_handler_error s m c cl rnd hd err hs hc hpre htok herr⟩
      · exact ⟨s1, m, parse_handler_ok s s1 m rnd hd hpre htok hok⟩

/-! ## The claims -/

/-- C1: capacity bound.  In every state reachable from `NewServer` by accepting
connections and by `CreateRoom`, `JoinRoom`, `LeaveRoom` and `Disconnect` steps
for any clients, every room of the rooms table is a live room whose member map
has distinct keys and at most `capacity` entries. -/
theorem room_capacity_invariant (s : Server) (h : Reachable s) :
    ∀ (id : RoomID) (r : RoomRef), mapGet s.rooms id = some r →
      ∃ rm : room, s.roomObjs[r]? = some rm ∧ (rm.members.map Prod.fst).Nodup ∧
        (rm.members.length : Int) ≤ rm.capacity := by
  intro id r hreg
  have hinv := reachable_inv s h
  obtain ⟨rm, hr, _, _⟩ := hinv.registered id r hreg
  exact ⟨rm, hr, hinv.keys r rm hr, hinv.bounded r rm hr⟩

theorem room_capacity_invariant_witness :
    mapGet demoState.rooms "AAAAAA".toList = some 0 ∧
    ∃ rm : room, demoState.roomObjs[0]? = some rm ∧ (rm.members.map Prod.fst).Nodup ∧
      (rm.members.length : Int) ≤ rm.capacity :=
  ⟨by rfl, room_capacity_invariant demoState
    (run_reachable demoOps _ _ (ReachableAdmitted.init DefaultServerConfig) (by rfl))
    "AAAAAA".toList 0 (by rfl)⟩

/-- C2: joining a full room.  When the member count of a room has reached its
capacity, `room.join` returns the error text "ERR: Room is full" and the whole
state (member set, current room of the client, every outbound queue) is as
before; `Server.JoinRoom` on the id of such a room, for a client not in a room,
sends the client that text and changes nothing else. -/
theorem join_full_rejected (s : Server) (r : RoomRef) (rm : room) (c : ClientRef) (cl : client)
    (hr : s.roomObjs[r]? = some rm) (hfull : (rm.members.length : Int) ≥ rm.capacity)
    (hc : s.clientObjs[c]? = some cl) (hroom : cl.room = none) :
    room.join s r c = some (s, some "ERR: Room is full".toList) ∧
    ∀ roomID, mapGet s.rooms roomID = some r →
      s.JoinRoom c roomID
        = some (s.withSent c (NewMessage (some c) "ERR: Room is full".toList)) := by
  have hj : room.join s r c = some (s, some "ERR: Room is full".toList) := by
    unfold room.join
    rw [hr]
    simp only [hfull, if_true]
  refine ⟨hj, ?_⟩
  intro roomID hreg
  unfold Server.JoinRoom
  rw [hc]
  simp only [hroom, ne_eq, not_true_eq_false, if_false, hreg, hj]
  exact enqueue_eq s c _ cl hc

theorem join_full_rejected_witness :
    room.join demoState 0 2 = some (demoState, some "ERR: Room is full".toList) ∧
    demoState.JoinRoom 2 "AAAAAA".toList
      = some (demoState.withSent 2 (NewMessage (some 2) "ERR: Room is full".toList)) :=
  ⟨(join_full_rejected demoState 0
      { id := "AAAAAA".toList, capacity := 2,
        members := [("AAAAAAAAAAAAAAAA".toList, 0), ("aaaaaaaaaaaaaaaa".toList, 1)] }
      2 { id := "BBBBBBBBBBBBBBBB".toList, room := none, connWritten := [], connClosed := false,
          served := true }
      (by rfl) (by decide) (by rfl) (by rfl)).1,
   (join_full_rejected demoState 0
      { id := "AAAAAA".toList, capacity := 2,
        members := [("AAAAAAAAAAAAAAAA".toList, 0), ("aaaaaaaaaaaaaaaa".toList, 1)] }
      2 { id := "BBBBBBBBBBBBBBBB".toList, room := none, connWritten := [], connClosed := false,
          served := true }
      (by rfl) (by decide) (by rfl) (by rfl)).2 "AAAAAA".toList (by rfl)⟩

/-- C3: a client whose current room is set.  Both `Server.CreateRoom` (any
capacity, any generated id) and `Server.JoinRoom` (any room id) send the client
the single notice "ERR: Client already in room"; the rooms table, all room
objects, all client objects and all other queues are as before. -/
theorem already_in_room_rejected (s : Server) (c : ClientRef) (cl : client) (r : RoomRef)
    (hc : s.clientObjs[c]? = some cl) (hroom : cl.room = some r) :
    (∀ n rnd, s.CreateRoom c n rnd
        = some (s.withSent c (NewMessage (some c) "ERR: Client already in room".toList))) ∧
    (∀ roomID, s.JoinRoom c roomID
        = some (s.withSent c (NewMessage (some c) "ERR: Client already in room".toList))) := by
  constructor
  · intro n rnd
    have h : s.CreateRoom c n rnd
        = s.enqueue c (NewMessage (some c) CLIENT_ALREADY_IN_ROOM_NOTICE) := by
      simp [Server.CreateRoom, hc, hroom]
    rw [h, enqueue_eq s c _ cl hc]
    rfl
  · intro roomID
    have h : s.JoinRoom c roomID
        = s.enqueue c (NewMessage (some c) CLIENT_ALREADY_IN_ROOM_NOTICE) := by
      simp [Server.JoinRoom, hc, hroom]
    rw [h, enqueue_eq s c _ cl hc]
    rfl

theorem already_in_room_rejected_witness :
    demoState.CreateRoom 1 5 (fun _ => 7)
      = some (demoState.withSent 1 (NewMessage (some 1) "ERR: Client already in room".toList)) ∧
    demoState.JoinRoom 1 "H7H7H7".toList
      = some (demoState.withSent 1 (NewMessage (some 1) "ERR: Client already in room".toList)) :=
  ⟨(already_in_room_rejected demoState 1
      { id := "aaaaaaaaaaaaaaaa".toList, room := some 0, connWritten := [], connClosed := false,
        served := true } 0 (by rfl) (by rfl)).1 5 (fun _ => 7),
   (already_in_room_rejected demoState 1
      { id := "aaaaaaaaaaaaaaaa".toList, room := some 0, connWritten := [], connClosed := false,
        served := true } 0 (by rfl) (by rfl)).2 "H7H7H7".toList⟩

/-- C4: delivery of `broadcast`.  In a room whose member map is keyed by the ids
of live clients, `broadcast` of a message with sender `sender` and text `t`
rewrites the text to the sender id followed by ": " and `t`, puts exactly one
copy of the rewritten message on the queue of every member other than the
sender, and leaves the queue of the sender, of every client outside the room,
and all tables as they were. -/
theorem broadcast_delivery (s : Server) (r : RoomRef) (rm : room) (m : Message)
    (sender : ClientRef) (sc : client)
    (hsender : m.sender = some sender) (hsc : s.clientObjs[sender]? = some sc)
    (hr : s.roomObjs[r]? = some rm)
    (hkeys : (rm.members.map Prod.fst).Nodup)
    (hmem : ∀ (k : ClientID) (p : ClientRef), (k, p) ∈ rm.members →
      ∃ cl : client, s.clientObjs[p]? = some cl ∧ cl.id = k) :
    room.broadcast s r m =
      some ({ s with outgoing := fun p =>
                if (p ≠ sender ∧ p ∈ rm.members.map Prod.snd) then
                  s.outgoing p ++ [{ text := sc.id ++ ": ".toList ++ m.text, sender := some sender }]
                else s.outgoing p },
            { text := sc.id ++ ": ".toList ++ m.text, sender := some sender }) := by
  exact broadcast_eq s r rm m sender sc hsender hsc hr hkeys hmem

theorem broadcast_delivery_witness :
    room.broadcast demoState 0 (NewMessage (some 0) "hi".toList) =
      some ({ demoState with outgoing := fun p =>
                if (p ≠ 0 ∧ p ∈ [0, 1]) then
                  demoState.outgoing p ++
                    [{ text := "AAAAAAAAAAAAAAAA: hi".toList, sender := some 0 }]
                else demoState.outgoing p },
            { text := "AAAAAAAAAAAAAAAA: hi".toList, sender := some 0 }) :=
  broadcast_delivery demoState 0
    { id := "AAAAAA".toList, capacity := 2,
      members := [("AAAAAAAAAAAAAAAA".toList, 0), ("aaaaaaaaaaaaaaaa".toList, 1)] }
    (NewMessage (some 0) "hi".toList) 0
    { id := "AAAAAAAAAAAAAAAA".toList, room := some 0, connWritten := [], connClosed := false,
      served := true }
    (by rfl) (by rfl) (by rfl) (by decide)
    (by
      intro k p hkp
      simp only [List.mem_cons, Prod.mk.injEq, List.mem_singleton, List.not_mem_nil,
        or_false] at hkp
      rcases hkp with ⟨rfl, rfl⟩ | ⟨rfl, rfl⟩
      · exact ⟨_, by rfl, by rfl⟩
      · exact ⟨_, by rfl, by rfl⟩)

/-- C5: membership agrees with the current room.  Assume the clients that were
admitted (served) have pairwise distinct ids.  Then in every state reachable
from `NewServer` by accepting connections (`Server.Join`) and by `CreateRoom`,
`JoinRoom`, `LeaveRoom` and `Disconnect` steps of admitted clients, a client is
among the members of a registered room exactly when that room is its current
room; consequently no client is among the members of two different rooms. -/
theorem membership_iff_current_room (s : Server) (h : ReachableAdmitted s)
    (hd : DistinctServedIds s) :
    (∀ (id : RoomID) (r : RoomRef) (rm : room) (c : ClientRef) (cl : client),
      mapGet s.rooms id = some r → s.roomObjs[r]? = some rm → s.clientObjs[c]? = some cl →
      (c ∈ rm.members.map Prod.snd ↔ cl.room = some r)) ∧
    (∀ (c : ClientRef) (r1 r2 : RoomRef) (rm1 rm2 : room),
      s.roomObjs[r1]? = some rm1 → s.roomObjs[r2]? = some rm2 →
      c ∈ rm1.members.map Prod.snd → c ∈ rm2.members.map Prod.snd → r1 = r2) := by
  have hinv := reachable_inv s (admitted_reachable s h)
  have hrec := reachable_recorded s h hd
  constructor
  · intro id r rm c cl _ hr hc
    constructor
    · intro hmem
      obtain ⟨⟨k, p⟩, hkp, hp⟩ := List.mem_map.1 hmem
      have e : p = c := hp
      rw [e] at hkp
      obtain ⟨cl1, hcl1, _, hroom1⟩ := hinv.member r rm k c hr hkp
      rw [hc] at hcl1
      cases hcl1
      exact hroom1
    · intro hroom
      obtain ⟨rm1, hrm1, hmem1⟩ := hrec c cl r hc hroom
      rw [hr] at hrm1
      cases hrm1
      exact List.mem_map.2 ⟨(cl.id, c), hmem1, rfl⟩
  · intro c r1 r2 rm1 rm2 hr1 hr2 hm1 hm2
    obtain ⟨⟨k1, p1⟩, hkp1, hp1⟩ := List.mem_map.1 hm1
    obtain ⟨⟨k2, p2⟩, hkp2, hp2⟩ := List.mem_map.1 hm2
    have e1 : p1 = c := hp1
    have e2 : p2 = c := hp2
    rw [e1] at hkp1
    rw [e2] at hkp2
    obtain ⟨cl1, hcl1, _, hroom1⟩ := hinv.member r1 rm1 k1 c hr1 hkp1
    obtain ⟨cl2, hcl2, _, hroom2⟩ := hinv.member r2 rm2 k2 c hr2 hkp2
    rw [hcl1] at hcl2
    cases hcl2
    rw [hroom1] at hroom2
    exact Option.some.inj hroom2

theorem membership_iff_current_room_witness :
    (1 ∈ [0, 1] ↔
      (some 0 : Option RoomRef) = some 0) ∧
    (2 ∈ [0, 1] ↔ (none : Option RoomRef) = some 0) :=
  ⟨(membership_iff_current_room demoState
      (run_admitted demoOps _ _ (ReachableAdmitted.init DefaultServerConfig) (by rfl))
      (distinct_of_pairwise _ (by decide))).1 "AAAAAA".toList 0
      { id := "AAAAAA".toList, capacity := 2,
        members := [("AAAAAAAAAAAAAAAA".toList, 0), ("aaaaaaaaaaaaaaaa".toList, 1)] }
      1 { id := "aaaaaaaaaaaaaaaa".toList, room := some 0, connWritten := [],
          connClosed := false, served := true } (by rfl) (by rfl) (by rfl),
   (membership_iff_current_room demoState
      (run_admitted demoOps _ _ (ReachableAdmitted.init DefaultServerConfig) (by rfl))
      (distinct_of_pairwise _ (by decide))).1 "AAAAAA".toList 0
      { id := "AAAAAA".toList, capacity := 2,
        members := [("AAAAAAAAAAAAAAAA".toList, 0), ("aaaaaaaaaaaaaaaa".toList, 1)] }
      2 { id := "BBBBBBBBBBBBBBBB".toList, room := none, connWritten := [],
          connClosed := false, served := true } (by rfl) (by rfl) (by rfl)⟩

/-- C6: no empty room stays registered.  In every state reachable from
`NewServer` by accepting connections and by `CreateRoom`, `JoinRoom`,
`LeaveRoom` and `Disconnect` steps for any clients, every entry of the rooms table points to a
live room with the id it is registered under and a non-empty member map. -/
theorem registered_rooms_nonempty (s : Server) (h : Reachable s) :
    ∀ (id : RoomID) (r : RoomRef), mapGet s.rooms id = some r →
      ∃ rm : room, s.roomObjs[r]? = some rm ∧ rm.id = id ∧ rm.members ≠ [] :=
  (reachable_inv s h).registered

theorem registered_rooms_nonempty_witness :
    mapGet soloState.rooms "AAAAAA".toList = some 0 ∧
    ∃ rm : room, soloState.roomObjs[0]? = some rm ∧ rm.id = "AAAAAA".toList ∧
      rm.members ≠ [] :=
  ⟨by rfl, registered_rooms_nonempty soloState
    (run_reachable soloOps _ _ (ReachableAdmitted.init DefaultServerConfig) (by rfl))
    "AAAAAA".toList 0 (by rfl)⟩

/-- C7: the last member leaves.  In a reachable state, let `rm` be a room whose
member map holds the single client `c`.  Then `Server.LeaveRoom` for `c`
succeeds, afterwards the id of the room is not a key of the rooms table, and a
following `Server.JoinRoom` on that id by any client `d` with no current room
sends `d` exactly "ERR: Room not exists" and changes nothing else. -/
theorem last_member_leaves_room_unregistered (s : Server) (h : Reachable s)
    (r : RoomRef) (rm : room) (k : ClientID) (c : ClientRef)
    (hr : s.roomObjs[r]? = some rm) (hsole : rm.members = [(k, c)]) :
    ∃ s1 : Server, s.LeaveRoom c = some s1 ∧ mapGet s1.rooms rm.id = none ∧
      ∀ (d : ClientRef) (dl : client), s1.clientObjs[d]? = some dl → dl.room = none →
        s1.JoinRoom d rm.id
          = some (s1.withSent d (NewMessage (some d) "ERR: Room not exists".toList)) := by
  have hinv := reachable_inv s h
  obtain ⟨cl, hc, hid, hroom⟩ := hinv.member r rm k c hr (by rw [hsole]; exact List.mem_singleton.2 rfl)
  have hdel : mapDelete rm.members cl.id = [] := by
    rw [hsole, hid]
    simp [mapDelete]
  refine ⟨_, leaveRoom_eq s r rm c cl hr hc hroom (hinv.keys r rm hr) (inv_keyed s hinv r rm hr),
    ?_, ?_⟩
  · show mapGet (if (mapDelete rm.members cl.id).length = 0 then mapDelete s.rooms rm.id
      else s.rooms) rm.id = none
    rw [hdel]
    simp only [List.length_nil, if_true]
    exact mapGet_mapDelete_self _ _
  · intro d dl hd hdroom
    refine joinRoom_missing_eq _ d dl rm.id hd hdroom ?_
    show mapGet (if (mapDelete rm.members cl.id).length = 0 then mapDelete s.rooms rm.id
      else s.rooms) rm.id = none
    rw [hdel]
    simp only [List.length_nil, if_true]
    exact mapGet_mapDelete_self _ _

theorem last_member_leaves_room_unregistered_witness :
    ∃ s1 : Server, soloState.LeaveRoom 0 = some s1 ∧
      mapGet s1.rooms "AAAAAA".toList = none ∧
      ∀ (d : ClientRef) (dl : client), s1.clientObjs[d]? = some dl → dl.room = none →
        s1.JoinRoom d "AAAAAA".toList
          = some (s1.withSent d (NewMessage (some d) "ERR: Room not exists".toList)) :=
  last_member_leaves_room_unregistered soloState
    (run_reachable soloOps _ _ (ReachableAdmitted.init DefaultServerConfig) (by rfl))
    0 { id := "AAAAAA".toList, capacity := 2, members := [("AAAAAAAAAAAAAAAA".toList, 0)] }
    "AAAAAAAAAAAAAAAA".toList 0 (by rfl) (by rfl)

/-- C8 as amended: the round trip when the generated id is free.  Let `a`, `b`,
`c` be clients with pairwise distinct ids and no current room, on a server with
the command prefix ":" and the handler table of `NewServer`, and let the id
drawn for the new room not be a key of the rooms table.  Dispatching ":ROOM 2"
from `a` sends `a` the new room id `R`; then dispatching ":JOIN R" from `b`
sends `b` exactly "JOINED" and `a` exactly the id of `b` followed by
": JOINED"; then dispatching ":JOIN R" from `c` sends `c` exactly
"ERR: Room is full", sends nothing to `a` or `b`, and the room registered under
`R` has capacity 2 and the members `a` and `b`. -/
theorem room_round_trip (s : Server) (a b c : ClientRef) (ca cb cc : client)
    (rnd rnd1 rnd2 : Nat → Nat)
    (hpre : s.config.CommandPrefix = ":".toList)
    (hh : s.handlers = (NewServer s.config).handlers)
    (ha : s.clientObjs[a]? = some ca) (hb : s.clientObjs[b]? = some cb)
    (hc : s.clientObjs[c]? = some cc)
    (hra : ca.room = none) (hrb : cb.room = none) (hrc : cc.room = none)
    (hab : ca.id ≠ cb.id) (hac : ca.id ≠ cc.id) (hbc : cb.id ≠ cc.id)
    (hfresh : mapGet s.rooms (genRoomID rnd) = none) :
    ∃ s1 s2 s3 : Server,
      s.parse (NewMessage (some a) ":ROOM 2".toList) rnd
        = some (s1, NewMessage (some a) ":ROOM 2".toList) ∧
      s1.outgoing a = s.outgoing a ++ [NewMessage (some a) (genRoomID rnd)] ∧
      s1.parse (NewMessage (some b) (":JOIN ".toList ++ genRoomID rnd)) rnd1
        = some (s2, NewMessage (some b) (":JOIN ".toList ++ genRoomID rnd)) ∧
      s2.outgoing b = s1.outgoing b ++ [NewMessage (some b) "JOINED".toList] ∧
      s2.outgoing a = s1.outgoing a ++ [NewMessage (some b) (cb.id ++ ": JOINED".toList)] ∧
      s2.parse (NewMessage (some c) (":JOIN ".toList ++ genRoomID rnd)) rnd2
        = some (s3, NewMessage (some c) (":JOIN ".toList ++ genRoomID rnd)) ∧
      s3.outgoing c = s2.outgoing c ++ [NewMessage (some c) "ERR: Room is full".toList] ∧
      s3.outgoing a = s2.outgoing a ∧ s3.outgoing b = s2.outgoing b ∧
      mapGet s3.rooms (genRoomID rnd) = some s.roomObjs.length ∧
      s3.roomObjs[s.roomObjs.length]?
        = some { id := genRoomID rnd, capacity := 2, members := [(ca.id, a), (cb.id, b)] } := by
  have nab : a ≠ b := by
    intro h; subst h; rw [ha] at hb; cases hb; exact hab rfl
  have nac : a ≠ c := by
    intro h; subst h; rw [ha] at hc; cases hc; exact hac rfl
  have nbc : b ≠ c := by
    intro h; subst h; rw [hb] at hc; cases hc; exact hbc rfl
  -- first step: A creates the room
  obtain ⟨S1, hS1⟩ : ∃ S1 : Server,
      S1 = (s.created a ca 2 rnd).withSent a (NewMessage (some a) (genRoomID rnd)) := ⟨_, rfl⟩
  have e1 := createRoom_fresh_eq s a ca 2 rnd ha hra hfresh
  have p1 := parse_room2 s a rnd hpre hh
  rw [e1, ← hS1] at p1
  have hcfg1 : S1.config.CommandPrefix = ":".toList := by rw [hS1]; exact hpre
  have hh1 : S1.handlers = (NewServer S1.config).handlers := by rw [hS1]; exact hh
  have ha1 : S1.clientObjs[a]? = some { ca with room := some s.roomObjs.length } := by
    rw [hS1]; exact get_set_self _ _ _ _ ha
  have hb1 : S1.clientObjs[b]? = some cb := by
    rw [hS1]; exact (get_set_other _ _ _ _ nab).trans hb
  have hc1 : S1.clientObjs[c]? = some cc := by
    rw [hS1]; exact (get_set_other _ _ _ _ nac).trans hc
  have hreg1 : mapGet S1.rooms (genRoomID rnd) = some s.roomObjs.length := by
    rw [hS1]
    show mapGet (mapSet s.rooms (genRoomID rnd) s.roomObjs.length) (genRoomID rnd) = _
    rw [mapGet_mapSet]
    simp
  have hroom1 : S1.roomObjs[s.roomObjs.length]?
      = some { id := genRoomID rnd, capacity := 2, members := [(ca.id, a)] } := by
    rw [hS1]; exact get_append_new _ _
  have hout1 : S1.outgoing = Function.update s.outgoing a
      (s.outgoing a ++ [NewMessage (some a) (genRoomID rnd)]) := by
    rw [hS1]; rfl
  have hkeyed1 : KeyedByIds S1 [(ca.id, a)] := by
    intro k p hkp
    simp only [List.mem_singleton, Prod.mk.injEq] at hkp
    obtain ⟨rfl, rfl⟩ := hkp
    exact ⟨_, ha1, rfl⟩
  -- second step: B joins
  have hms : mapSet [(ca.id, a)] cb.id b = [(ca.id, a), (cb.id, b)] := by
    simp [mapSet, mapDelete, hab]
  obtain ⟨S2, hS2⟩ : ∃ S2 : Server,
      S2 = ((S1.entered s.roomObjs.length
              { id := genRoomID rnd, capacity := 2, members := [(ca.id, a)] } b cb).withBroadcast
            b [(ca.id, a), (cb.id, b)]
            { text := cb.id ++ ": ".toList ++ CLIENT_JOINED_ROOM_NOTICE, sender := some b }).withSent
          b (NewMessage (some b) "JOINED".toList) := ⟨_, rfl⟩
  have e2 := joinRoom_enter_eq S1 s.roomObjs.length _ b cb (genRoomID rnd) hb1 hrb hreg1 hroom1
    (by simp) (by simp) hkeyed1
  simp only [hms] at e2
  have p2 := parse_join S1 b (genRoomID rnd) rnd1 hcfg1 hh1 (genRoomID_nospace rnd)
    (genRoomID_last rnd)
  rw [e2, ← hS2] at p2
  have hcfg2 : S2.config.CommandPrefix = ":".toList := by rw [hS2]; exact hcfg1
  have hh2 : S2.handlers = (NewServer S2.config).handlers := by rw [hS2]; exact hh1
  have hc2 : S2.clientObjs[c]? = some cc := by
    rw [hS2]; exact (get_set_other _ _ _ _ nbc).trans hc1
  have hreg2 : mapGet S2.rooms (genRoomID rnd) = some s.roomObjs.length := by
    rw [hS2]; exact hreg1
  have hroom2 : S2.roomObjs[s.roomObjs.length]?
      = some { id := genRoomID rnd, capacity := 2, members := [(ca.id, a), (cb.id, b)] } := by
    rw [hS2]
    have := get_set_self S1.roomObjs s.roomObjs.length _
      { id := genRoomID rnd, capacity := 2, members := mapSet [(ca.id, a)] cb.id b } hroom1
    rw [← hms]
    exact this
  have hout2 : S2.outgoing = Function.update
      (fun p => if (p ≠ b ∧ p ∈ [a, b]) then
          S1.outgoing p ++ [{ text := cb.id ++ ": ".toList ++ CLIENT_JOINED_ROOM_NOTICE,
                              sender := some b }]
        else S1.outgoing p)
      b ((if (b ≠ b ∧ b ∈ [a, b]) then
          S1.outgoing b ++ [{ text := cb.id ++ ": ".toList ++ CLIENT_JOINED_ROOM_NOTICE,
                              sender := some b }]
        else S1.outgoing b) ++ [NewMessage (some b) "JOINED".toList]) := by
    rw [hS2]; rfl
  -- third step: C is rejected
  have e3 := joinRoom_full_eq S2 s.roomObjs.length _ c cc (genRoomID rnd) hc2 hrc hreg2 hroom2
    (by simp)
  have p3 := parse_join S2 c (genRoomID rnd) rnd2 hcfg2 hh2 (genRoomID_nospace rnd)
    (genRoomID_last rnd)
  rw [e3] at p3
  refine ⟨S1, S2, _, p1, ?_, p2, ?_, ?_, p3, ?_, ?_, ?_, hreg2, hroom2⟩
  · rw [hout1, Function.update_same]
  · rw [hout2, Function.update_same]
    simp
  · rw [hout2, Function.update_noteq nab]
    simp [nab, CLIENT_JOINED_ROOM_NOTICE, NewMessage]
  · simp [Server.withSent]
  · simp only [Server.withSent]
    exact Function.update_noteq nac _ _
  · simp only [Server.withSent]
    exact Function.update_noteq nbc _ _

theorem room_round_trip_witness :
    ∃ s1 s2 s3 : Server,
      lobbyState.parse (NewMessage (some 0) ":ROOM 2".toList) (fun _ => 0)
        = some (s1, NewMessage (some 0) ":ROOM 2".toList) ∧
      s1.outgoing 0 = lobbyState.outgoing 0 ++ [NewMessage (some 0) "AAAAAA".toList] ∧
      s1.parse (NewMessage (some 1) ":JOIN AAAAAA".toList) (fun _ => 0)
        = some (s2, NewMessage (some 1) ":JOIN AAAAAA".toList) ∧
      s2.outgoing 1 = s1.outgoing 1 ++ [NewMessage (some 1) "JOINED".toList] ∧
      s2.outgoing 0 = s1.outgoing 0 ++ [NewMessage (some 1) "aaaaaaaaaaaaaaaa: JOINED".toList] ∧
      s2.parse (NewMessage (some 2) ":JOIN AAAAAA".toList) (fun _ => 0)
        = some (s3, NewMessage (some 2) ":JOIN AAAAAA".toList) ∧
      s3.outgoing 2 = s2.outgoing 2 ++ [NewMessage (some 2) "ERR: Room is full".toList] ∧
      s3.outgoing 0 = s2.outgoing 0 ∧ s3.outgoing 1 = s2.outgoing 1 ∧
      mapGet s3.rooms "AAAAAA".toList = some 0 ∧
      s3.roomObjs[0]?
        = some { id := "AAAAAA".toList, capacity := 2,
                 members := [("AAAAAAAAAAAAAAAA".toList, 0), ("aaaaaaaaaaaaaaaa".toList, 1)] } :=
  room_round_trip lobbyState 0 1 2
    { id := "AAAAAAAAAAAAAAAA".toList, room := none, connWritten := [], connClosed := false,
      served := true }
    { id := "aaaaaaaaaaaaaaaa".toList, room := none, connWritten := [], connClosed := false,
      served := true }
    { id := "BBBBBBBBBBBBBBBB".toList, room := none, connWritten := [], connClosed := false,
      served := true }
    (fun _ => 0) (fun _ => 0) (fun _ => 0)
    (by rfl) (by rfl) (by rfl) (by rfl) (by rfl) (by rfl) (by rfl) (by rfl)
    (by decide) (by decide) (by decide) (by rfl)

/-- C8, counterexample to the claim as stated: in a reachable state where the
clients 0, 1, 2 have distinct ids and no current room and the prefix is ":",
a room with the id "AAAAAA" is registered; when the id drawn for ":ROOM 2" from
client 0 is "AAAAAA" again, client 0 is sent "ERR: Creating room failed" and
nothing else changes: no room is created, and the text sent is not a room id
(it has not the length of one and is no key of the rooms table). -/
theorem room_round_trip_counterexample :
    Reachable crowdState ∧
    crowdState.config.CommandPrefix = ":".toList ∧
    crowdState.clientObjs.map (fun cl => (cl.id, cl.room)) =
      [("AAAAAAAAAAAAAAAA".toList, none), ("aaaaaaaaaaaaaaaa".toList, none),
       ("BBBBBBBBBBBBBBBB".toList, none), ("bbbbbbbbbbbbbbbb".toList, some 0)] ∧
    crowdState.rooms = [("AAAAAA".toList, 0)] ∧
    genRoomID (fun _ => 0) = "AAAAAA".toList ∧
    crowdState.parse (NewMessage (some 0) ":ROOM 2".toList) (fun _ => 0)
      = some (crowdState.withSent 0 (NewMessage (some 0) "ERR: Creating room failed".toList),
              NewMessage (some 0) ":ROOM 2".toList) ∧
    ("ERR: Creating room failed".toList : Str).length ≠ ROOM_ID_LENGHT ∧
    mapGet crowdState.rooms "ERR: Creating room failed".toList = none :=
  ⟨run_reachable crowdOps _ _ (ReachableAdmitted.init DefaultServerConfig) (by rfl), by rfl,
   by rfl, by rfl, by rfl, by rfl, by decide, by rfl⟩

/-- C9: creating a room.  For a client `c` with no current room, any capacity
`n` and any generated id that is not a key of the rooms table,
`Server.CreateRoom` succeeds: the join of the creator into the fresh room
returns no error, the new room (capacity `n`, or `math.MaxInt64` when `n < 1`)
is registered under the generated id with `c` as its only member, the current
room of `c` is the new room, and `c` is sent exactly one message, the id of the
new room; no other queue, client or room changes. -/
theorem createRoom_registers_creator (s : Server) (c : ClientRef) (cl : client) (n : Int)
    (rnd : Nat → Nat) (hc : s.clientObjs[c]? = some cl) (hroom : cl.room = none)
    (hfresh : mapGet s.rooms (genRoomID rnd) = none) :
    (∃ s2 : Server,
      room.join { s with roomObjs := s.roomObjs ++ [NewRoom n rnd],
                         rooms := mapSet s.rooms (NewRoom n rnd).id s.roomObjs.length }
        s.roomObjs.length c = some (s2, none)) ∧
    s.CreateRoom c n rnd
      = some ((s.created c cl n rnd).withSent c (NewMessage (some c) (genRoomID rnd))) ∧
    mapGet (s.created c cl n rnd).rooms (genRoomID rnd) = some s.roomObjs.length ∧
    (s.created c cl n rnd).roomObjs[s.roomObjs.length]?
      = some { id := genRoomID rnd, capacity := if n < 1 then MaxInt64 else n,
               members := [(cl.id, c)] } ∧
    (s.created c cl n rnd).clientObjs[c]? = some { cl with room := some s.roomObjs.length } := by
  have hcap : ¬ (((([] : List (ClientID × ClientRef)).length : Nat) : Int)
      ≥ (if n < 1 then MaxInt64 else n)) := by
    simp only [List.length_nil, Nat.cast_zero, ge_iff_le, not_le]
    split
    · decide
    · omega
  refine ⟨⟨_, join_eq
    ({ s with roomObjs := s.roomObjs ++ [NewRoom n rnd],
              rooms := mapSet s.rooms (NewRoom n rnd).id s.roomObjs.length } : Server)
    s.roomObjs.length (NewRoom n rnd) c cl (get_append_new _ _) hcap hc
    (by simp [NewRoom]) (by intro k p hp; simp [NewRoom] at hp)⟩,
    createRoom_fresh_eq s c cl n rnd hc hroom hfresh, ?_, ?_, ?_⟩
  · simp only [Server.created]
    rw [mapGet_mapSet]
    simp
  · exact get_append_new _ _
  · exact get_set_self _ _ _ _ hc

theorem createRoom_registers_creator_witness :
    lobbyState.CreateRoom 0 0 (fun _ => 3)
      = some ((lobbyState.created 0
          { id := "AAAAAAAAAAAAAAAA".toList, room := none, connWritten := [],
            connClosed := false, served := true } 0 (fun _ => 3)).withSent 0
          (NewMessage (some 0) "DDDDDD".toList)) ∧
    (lobbyState.created 0
        { id := "AAAAAAAAAAAAAAAA".toList, room := none, connWritten := [],
          connClosed := false, served := true } 0 (fun _ => 3)).roomObjs[0]?
      = some { id := "DDDDDD".toList, capacity := 9223372036854775807,
               members := [("AAAAAAAAAAAAAAAA".toList, 0)] } :=
  ⟨(createRoom_registers_creator lobbyState 0
      { id := "AAAAAAAAAAAAAAAA".toList, room := none, connWritten := [], connClosed := false,
        served := true } 0 (fun _ => 3) (by rfl) (by rfl) (by rfl)).2.1,
   (createRoom_registers_creator lobbyState 0
      { id := "AAAAAAAAAAAAAAAA".toList, room := none, connWritten := [], connClosed := false,
        served := true } 0 (fun _ => 3) (by rfl) (by rfl) (by rfl)).2.2.2.1⟩

/-- C10: room id collision.  For a client `c` with no current room, when the
generated id is already a key of the rooms table, `Server.CreateRoom` sends `c`
exactly "ERR: Creating room failed"; the rooms table, every room object and
every client object (so the current room of `c`, still unset) are as before. -/
theorem createRoom_collision_rejected (s : Server) (c : ClientRef) (cl : client) (n : Int)
    (rnd : Nat → Nat) (r : RoomRef) (hc : s.clientObjs[c]? = some cl) (hroom : cl.room = none)
    (hcol : mapGet s.rooms (genRoomID rnd) = some r) :
    s.CreateRoom c n rnd
      = some (s.withSent c (NewMessage (some c) "ERR: Creating room failed".toList)) :=
  createRoom_collision_eq s c cl r n rnd hc hroom hcol

theorem createRoom_collision_rejected_witness :
    soloState.CreateRoom 1 4 (fun _ => 0)
      = some (soloState.withSent 1 (NewMessage (some 1) "ERR: Creating room failed".toList)) :=
  createRoom_collision_rejected soloState 1
    { id := "aaaaaaaaaaaaaaaa".toList, room := none, connWritten := [], connClosed := false,
      served := true } 4 (fun _ => 0) 0 (by rfl) (by rfl) (by rfl)

/-- C11: a member leaves.  In a state of the running server, let `c` be a member
of the room `rm` at `r`, with client object `cl`.  Then `Server.LeaveRoom`
succeeds, and in the resulting state: every other member of the room has got
exactly one more message, the id of `c` followed by ": LEFT"; `c` has got
exactly one more message, "LEFT"; no other client has got anything; the member
map of the room is the old one without `c`; the current room of `c` is unset;
every other client object, every other room object and every entry of the rooms
table under another id are as before. -/
theorem leaveRoom_member (s : Server) (h : Running s) (r : RoomRef) (rm : room)
    (k : ClientID) (c : ClientRef) (cl : client)
    (hr : s.roomObjs[r]? = some rm) (hmem : (k, c) ∈ rm.members)
    (hc : s.clientObjs[c]? = some cl) :
    ∃ s1 : Server, s.LeaveRoom c = some s1 ∧
      (∀ (k1 : ClientID) (p : ClientRef), (k1, p) ∈ rm.members → p ≠ c →
        s1.outgoing p = s.outgoing p ++ [NewMessage (some c) (cl.id ++ ": LEFT".toList)]) ∧
      s1.outgoing c = s.outgoing c ++ [NewMessage (some c) "LEFT".toList] ∧
      (∀ p : ClientRef, p ≠ c → p ∉ rm.members.map Prod.snd → s1.outgoing p = s.outgoing p) ∧
      (∃ rm1 : room, s1.roomObjs[r]? = some rm1 ∧ rm1.id = rm.id ∧ rm1.capacity = rm.capacity ∧
        ∀ (k1 : ClientID) (p : ClientRef),
          (k1, p) ∈ rm1.members ↔ ((k1, p) ∈ rm.members ∧ p ≠ c)) ∧
      s1.clientObjs[c]? = some { cl with room := none } ∧
      (∀ p : ClientRef, p ≠ c → s1.clientObjs[p]? = s.clientObjs[p]?) ∧
      (∀ r1 : RoomRef, r1 ≠ r → s1.roomObjs[r1]? = s.roomObjs[r1]?) ∧
      (∀ id : RoomID, id ≠ rm.id → mapGet s1.rooms id = mapGet s.rooms id) := by
  have hinv := running_inv s h
  obtain ⟨cl1, hc1, hid, hroom⟩ := hinv.member r rm k c hr hmem
  rw [hc] at hc1
  cases hc1
  have hkeys := hinv.keys r rm hr
  refine ⟨_, leaveRoom_eq s r rm c cl hr hc hroom hkeys (inv_keyed s hinv r rm hr),
    ?_, ?_, ?_, ?_, ?_, ?_, ?_, ?_⟩
  · intro k1 p hp hpc
    have hpin : p ∈ rm.members.map Prod.snd := List.mem_map.2 ⟨(k1, p), hp, rfl⟩
    simp only [Server.withSent, Server.withBroadcast, Server.removed]
    rw [Function.update_noteq hpc]
    simp only [ne_eq, hpc, not_false_eq_true, hpin, and_self, if_true]
    have e : cl.id ++ ": ".toList ++ CLIENT_LEFT_ROOM_NOTICE = cl.id ++ ": LEFT".toList := by
      rw [List.append_assoc]
      rfl
    rw [e]
    rfl
  · simp only [Server.withSent, Server.withBroadcast, Server.removed]
    rw [Function.update_same]
    simp only [ne_eq, not_true_eq_false, false_and, if_false]
    rfl
  · intro p hpc hpn
    simp only [Server.withSent, Server.withBroadcast, Server.removed]
    rw [Function.update_noteq hpc]
    simp only [hpn, and_false, if_false]
  · refine ⟨_, get_set_self _ _ _ _ hr, rfl, rfl, ?_⟩
    intro k1 p
    constructor
    · intro hp
      obtain ⟨hp1, hk1⟩ := (mem_mapDelete _ _ _).1 hp
      refine ⟨hp1, ?_⟩
      intro hpc
      subst hpc
      obtain ⟨cl2, hc2, hid2, _⟩ := hinv.member r rm k1 p hr hp1
      rw [hc] at hc2
      cases hc2
      exact hk1 hid2.symm
    · rintro ⟨hp1, hpc⟩
      refine (mem_mapDelete _ _ _).2 ⟨hp1, ?_⟩
      intro hk1
      have hk2 : k1 = k := hk1.trans hid
      rw [hk2] at hp1
      exact hpc (keys_unique rm.members hkeys k p c hp1 hmem)
  · exact get_set_self _ _ _ _ hc
  · intro p hpc
    exact get_set_other _ _ _ _ (fun e => hpc e.symm)
  · intro r1 hr1
    exact get_set_other _ _ _ _ (fun e => hr1 e.symm)
  · intro id hid1
    simp only [Server.withSent, Server.withBroadcast, Server.removed]
    split
    · exact mapGet_mapDelete_ne _ _ _ hid1
    · rfl

theorem leaveRoom_member_witness :
    ∃ s1 : Server, demoState.LeaveRoom 1 = some s1 ∧
      s1.outgoing 0 = demoState.outgoing 0 ++
        [NewMessage (some 1) "aaaaaaaaaaaaaaaa: LEFT".toList] ∧
      s1.outgoing 1 = demoState.outgoing 1 ++ [NewMessage (some 1) "LEFT".toList] ∧
      s1.clientObjs[1]? =
        some { id := "aaaaaaaaaaaaaaaa".toList, room := none, connWritten := [],
               connClosed := false, served := true } :=
  (leaveRoom_member demoState
    (reachable_running _
      (run_reachable demoOps _ _ (ReachableAdmitted.init DefaultServerConfig) (by rfl)))
    0 { id := "AAAAAA".toList, capacity := 2,
        members := [("AAAAAAAAAAAAAAAA".toList, 0), ("aaaaaaaaaaaaaaaa".toList, 1)] }
    "aaaaaaaaaaaaaaaa".toList 1
    { id := "aaaaaaaaaaaaaaaa".toList, room := some 0, connWritten := [], connClosed := false,
      served := true }
    (by rfl) (by decide) (by rfl)).imp
    (fun _ h => ⟨h.1, h.2.1 "AAAAAAAAAAAAAAAA".toList 0 (by decide) (by decide), h.2.2.1,
      h.2.2.2.2.2.1⟩)

/-- C12: leaving without a room, and leaving twice.  For a client `c` with no
current room, `Server.LeaveRoom` returns the input state with one message "LEFT"
appended to the queue of `c`: no other queue, no table, no room and no client
object changes.  Hence in every state of the running server and for every live
client, a first `LeaveRoom` succeeds, and a second one directly after it leaves
the state after the first as it is but for one more "LEFT" on the queue of
`c`. -/
theorem leaveRoom_idle_and_twice (s : Server) (c : ClientRef) (cl : client)
    (hc : s.clientObjs[c]? = some cl) :
    (cl.room = none →
      s.LeaveRoom c = some (s.withSent c (NewMessage (some c) "LEFT".toList))) ∧
    (Running s →
      ∃ s1 : Server, s.LeaveRoom c = some s1 ∧
        s1.LeaveRoom c = some (s1.withSent c (NewMessage (some c) "LEFT".toList))) := by
  constructor
  · intro hroom
    exact leaveRoom_none_eq s c cl hc hroom
  · intro h
    obtain ⟨s1, h1, cl1, hc1, hroom1⟩ := leaveRoom_total s (running_inv s h) c cl hc
    exact ⟨s1, h1, leaveRoom_none_eq s1 c cl1 hc1 hroom1⟩

theorem leaveRoom_idle_and_twice_witness :
    lobbyState.LeaveRoom 2 = some (lobbyState.withSent 2 (NewMessage (some 2) "LEFT".toList)) ∧
    ∃ s1 : Server, demoState.LeaveRoom 1 = some s1 ∧
      s1.LeaveRoom 1 = some (s1.withSent 1 (NewMessage (some 1) "LEFT".toList)) :=
  ⟨(leaveRoom_idle_and_twice lobbyState 2
      { id := "BBBBBBBBBBBBBBBB".toList, room := none, connWritten := [], connClosed := false,
        served := true } (by rfl)).1 (by rfl),
   (leaveRoom_idle_and_twice demoState 1
      { id := "aaaaaaaaaaaaaaaa".toList, room := some 0, connWritten := [], connClosed := false,
        served := true } (by rfl)).2
      (reachable_running _
        (run_reachable demoOps _ _ (ReachableAdmitted.init DefaultServerConfig) (by rfl)))⟩

/-- C13 as amended: unknown commands.  Let the text of a message start with the
command prefix, and let its token (the text between the prefix and the first
space or the end of the text, with one trailing newline removed) be none of
ROOM, JOIN, LEAV.  Then `Server.parse`, on a server with the handler table of
`NewServer` and for a live sender, returns the input state with the single
message "ERR: Command not exists" appended to the queue of the sender, and the
message itself unchanged: nothing is sent to anyone else and no table, room or
client object changes. -/
theorem parse_unknown_command (s : Server) (m : Message) (sender : ClientRef) (cl : client)
    (rnd : Nat → Nat)
    (hh : s.handlers = (NewServer s.config).handlers)
    (hs : m.sender = some sender) (hc : s.clientObjs[sender]? = some cl)
    (hpre : HasPrefix m.text s.config.CommandPrefix = true)
    (htok : TrimSuffixNewline (CutSpace (m.text.drop s.config.CommandPrefix.length))
      ∉ ["ROOM".toList, "JOIN".toList, "LEAV".toList]) :
    s.parse m rnd
      = some (s.withSent sender (NewMessage (some sender) "ERR: Command not exists".toList),
              m) :=
  parse_unknown_eq s m sender cl rnd hh hs hc hpre htok

theorem parse_unknown_command_witness :
    lobbyState.parse (NewMessage (some 0) ":FOO".toList) (fun _ => 0)
      = some (lobbyState.withSent 0 (NewMessage (some 0) "ERR: Command not exists".toList),
              NewMessage (some 0) ":FOO".toList) :=
  parse_unknown_command lobbyState (NewMessage (some 0) ":FOO".toList) 0
    { id := "AAAAAAAAAAAAAAAA".toList, room := none, connWritten := [], connClosed := false,
      served := true }
    (fun _ => 0) (by rfl) (by rfl) (by rfl) (by rfl) (by decide)

/-- C13, counterexample to the claim as stated: the text ":ROOM" followed by a
newline starts with the prefix ":", and its token, "ROOM" followed by a newline,
is none of ROOM, JOIN, LEAV; yet `Server.parse` strips the newline and runs the
create-room handler: client 0 is put into a new room and is sent the room id
"AAAAAA", not "ERR: Command not exists". -/
theorem parse_unknown_command_counterexample :
    HasPrefix ":ROOM\n".toList lobbyState.config.CommandPrefix = true ∧
    CutSpace (":ROOM\n".toList.drop lobbyState.config.CommandPrefix.length) = "ROOM\n".toList ∧
    ("ROOM\n".toList : Str) ∉ ["ROOM".toList, "JOIN".toList, "LEAV".toList] ∧
    lobbyState.parse (NewMessage (some 0) ":ROOM\n".toList) (fun _ => 0)
      = some ((lobbyState.created 0
                { id := "AAAAAAAAAAAAAAAA".toList, room := none, connWritten := [],
                  connClosed := false, served := true }
                MaxInt64 (fun _ => 0)).withSent 0 (NewMessage (some 0) "AAAAAA".toList),
              NewMessage (some 0) ":ROOM\n".toList) ∧
    (NewMessage (some 0) "AAAAAA".toList ≠
      NewMessage (some 0) "ERR: Command not exists".toList) :=
  ⟨by rfl, by rfl, by decide, by rfl, by decide⟩

/-- C14: the ROOM command.  Let `m` be a message from a live client that is not
in a room, and let its arguments be the parts of `strings.Split(m.text, " ")`
after the first.  (1) With more than one argument, or with a single argument
that `strconv.Atoi` does not read as an integer, the handler returns the error
"Invalid command format" and the state as it was (no room is created), and
`Server.parse`, when the token of the text is ROOM, sends the sender exactly
"ERR: Invalid command format".  (2) With no argument, or with an integer
argument `n <= 0`, the handler calls `Server.CreateRoom` with `math.MaxInt64`,
and the room created (when the generated id is free) has capacity
`math.MaxInt64`.  (3) With an integer argument `n > 0` the handler calls
`Server.CreateRoom` with `n`, and the room created has capacity `n`. -/
theorem createRoom_command (s : Server) (m : Message) (sender : ClientRef) (cl : client)
    (rnd : Nat → Nat)
    (hs : m.sender = some sender) (hc : s.clientObjs[sender]? = some cl)
    (hroom : cl.room = none) :
    (((SplitSpace m.text).length > 2 ∨
        ∃ tok arg : Str, SplitSpace m.text = [tok, arg] ∧ Atoi arg = none) →
      createRoomHandler.handle s m rnd = some (s, some "Invalid command format".toList) ∧
      (HasPrefix m.text s.config.CommandPrefix = true →
        s.handlers = (NewServer s.config).handlers →
        TrimSuffixNewline (CutSpace (m.text.drop s.config.CommandPrefix.length))
          = "ROOM".toList →
        s.parse m rnd
          = some (s.withSent sender
                    (NewMessage (some sender) "ERR: Invalid command format".toList), m))) ∧
    (((SplitSpace m.text).length = 1 ∨
        ∃ (tok arg : Str) (n : Int), SplitSpace m.text = [tok, arg] ∧ Atoi arg = some n ∧ n ≤ 0) →
      (createRoomHandler.handle s m rnd =
        match s.CreateRoom sender MaxInt64 rnd with
        | none => none
        | some s1 => some (s1, none)) ∧
      (mapGet s.rooms (genRoomID rnd) = none →
        createRoomHandler.handle s m rnd
          = some ((s.created sender cl MaxInt64 rnd).withSent sender
                    (NewMessage (some sender) (genRoomID rnd)), none) ∧
        (s.created sender cl MaxInt64 rnd).roomObjs[s.roomObjs.length]?
          = some { id := genRoomID rnd, capacity := MaxInt64, members := [(cl.id, sender)] })) ∧
    (∀ (tok arg : Str) (n : Int), SplitSpace m.text = [tok, arg] → Atoi arg = some n → 0 < n →
      (createRoomHandler.handle s m rnd =
        match s.CreateRoom sender n rnd with
        | none => none
        | some s1 => some (s1, none)) ∧
      (mapGet s.rooms (genRoomID rnd) = none →
        createRoomHandler.handle s m rnd
          = some ((s.created sender cl n rnd).withSent sender
                    (NewMessage (some sender) (genRoomID rnd)), none) ∧
        (s.created sender cl n rnd).roomObjs[s.roomObjs.length]?
          = some { id := genRoomID rnd, capacity := n, members := [(cl.id, sender)] })) := by
  refine ⟨?_, ?_, ?_⟩
  · intro hbad
    have herr : createRoomHandler.handle s m rnd
        = some (s, some "Invalid command format".toList) := by
      rcases hbad with hmany | ⟨tok, arg, hsplit, harg⟩
      · exact createRoomHandler_many s m rnd hmany
      · exact createRoomHandler_bad s m rnd tok arg hsplit harg
    refine ⟨herr, ?_⟩
    intro hpre hh htok
    refine parse_handler_error s m sender cl rnd Handler.createRoomHandler _ hs hc hpre ?_ herr
    rw [htok, hh]
    exact handlers_room s.config
  · intro hnone
    have hdel : createRoomHandler.handle s m rnd =
        match s.CreateRoom sender MaxInt64 rnd with
        | none => none
        | some s1 => some (s1, none) := by
      rcases hnone with hbare | ⟨tok, arg, n, hsplit, harg, hn⟩
      · exact createRoomHandler_bare s m rnd sender hs hbare
      · have := createRoomHandler_arg s m rnd sender tok arg n hs hsplit harg
        have hn2 : ¬ n > 0 := not_lt.2 hn
        simp only [hn2, if_false] at this
        exact this
    refine ⟨hdel, ?_⟩
    intro hfresh
    refine ⟨?_, ?_⟩
    · rw [hdel, createRoom_fresh_eq s sender cl MaxInt64 rnd hc hroom hfresh]
    · exact get_append_new _ _
  · intro tok arg n hsplit harg hn
    have hdel : createRoomHandler.handle s m rnd =
        match s.CreateRoom sender n rnd with
        | none => none
        | some s1 => some (s1, none) := by
      have := createRoomHandler_arg s m rnd sender tok arg n hs hsplit harg
      simp only [gt_iff_lt, hn, if_true] at this
      exact this
    refine ⟨hdel, ?_⟩
    intro hfresh
    refine ⟨?_, ?_⟩
    · rw [hdel, createRoom_fresh_eq s sender cl n rnd hc hroom hfresh]
    · have hn1 : ¬ n < 1 := by omega
      unfold Server.created
      simp only [if_neg hn1]
      exact get_append_new _ _

theorem createRoom_command_witness :
    lobbyState.parse (NewMessage (some 0) ":ROOM x".toList) (fun _ => 0)
      = some (lobbyState.withSent 0
                (NewMessage (some 0) "ERR: Invalid command format".toList),
              NewMessage (some 0) ":ROOM x".toList) ∧
    createRoomHandler.handle lobbyState (NewMessage (some 0) ":ROOM 1 2".toList) (fun _ => 0)
      = some (lobbyState, some "Invalid command format".toList) ∧
    (lobbyState.created 0
        { id := "AAAAAAAAAAAAAAAA".toList, room := none, connWritten := [],
          connClosed := false, served := true }
        MaxInt64 (fun _ => 0)).roomObjs[lobbyState.roomObjs.length]?
      = some { id := genRoomID (fun _ => 0), capacity := MaxInt64,
               members := [("AAAAAAAAAAAAAAAA".toList, 0)] } ∧
    (lobbyState.created 0
        { id := "AAAAAAAAAAAAAAAA".toList, room := none, connWritten := [],
          connClosed := false, served := true }
        5 (fun _ => 0)).roomObjs[lobbyState.roomObjs.length]?
      = some { id := genRoomID (fun _ => 0), capacity := 5,
               members := [("AAAAAAAAAAAAAAAA".toList, 0)] } :=
  ⟨((createRoom_command lobbyState (NewMessage (some 0) ":ROOM x".toList) 0
      { id := "AAAAAAAAAAAAAAAA".toList, room := none, connWritten := [], connClosed := false,
        served := true }
      (fun _ => 0) (by rfl) (by rfl) (by rfl)).1
      (Or.inr ⟨":ROOM".toList, "x".toList, by rfl, by rfl⟩)).2 (by rfl) (by rfl) (by rfl),
   ((createRoom_command lobbyState (NewMessage (some 0) ":ROOM 1 2".toList) 0
      { id := "AAAAAAAAAAAAAAAA".toList, room := none, connWritten := [], connClosed := false,
        served := true }
      (fun _ => 0) (by rfl) (by rfl) (by rfl)).1 (Or.inl (by decide))).1,
   (((createRoom_command lobbyState (NewMessage (some 0) ":ROOM -3".toList) 0
      { id := "AAAAAAAAAAAAAAAA".toList, room := none, connWritten := [], connClosed := false,
        served := true }
      (fun _ => 0) (by rfl) (by rfl) (by rfl)).2.1
      (Or.inr ⟨":ROOM".toList, "-3".toList, -3, by rfl, by rfl, by decide⟩)).2 (by rfl)).2,
   (((createRoom_command lobbyState (NewMessage (some 0) ":ROOM 5".toList) 0
      { id := "AAAAAAAAAAAAAAAA".toList, room := none, connWritten := [], connClosed := false,
        served := true }
      (fun _ => 0) (by rfl) (by rfl) (by rfl)).2.2
      ":ROOM".toList "5".toList 5 (by rfl) (by rfl) (by decide)).2 (by rfl)).2⟩

/-- C15 as amended: the JOIN command.  Let the arguments of a message be the
parts of `strings.Split(m.text, " ")` after the first.  With no argument,
`joinRoomHandler.handle` returns the error "Invalid command format" and the
state as it was: `Server.JoinRoom` is not called and no membership changes.
With one argument or more, the handler calls `Server.JoinRoom` for the sender
with the first argument, one trailing newline removed, as room id; the other
arguments are ignored and no format error is returned. -/
theorem joinRoom_command (s : Server) (m : Message) (sender : ClientRef)
    (hs : m.sender = some sender) :
    (∀ tok : Str, SplitSpace m.text = [tok] →
      joinRoomHandler.handle s m = some (s, some "Invalid command format".toList)) ∧
    (∀ (tok arg0 : Str) (rest : List Str), SplitSpace m.text = tok :: arg0 :: rest →
      joinRoomHandler.handle s m =
        match s.JoinRoom sender (TrimSuffixNewline arg0) with
        | none => none
        | some s1 => some (s1, none)) :=
  ⟨fun tok hsplit => joinRoomHandler_noarg s m tok hsplit,
   fun tok arg0 rest hsplit => joinRoomHandler_args s m sender tok arg0 rest hs hsplit⟩

theorem joinRoom_command_witness :
    joinRoomHandler.handle soloState (NewMessage (some 1) ":JOIN".toList)
      = some (soloState, some "Invalid command format".toList) ∧
    joinRoomHandler.handle soloState (NewMessage (some 1) ":JOIN AAAAAA".toList) =
      match soloState.JoinRoom 1 (TrimSuffixNewline "AAAAAA".toList) with
      | none => none
      | some s1 => some (s1, none) :=
  ⟨(joinRoom_command soloState (NewMessage (some 1) ":JOIN".toList) 1 (by rfl)).1
      ":JOIN".toList (by rfl),
   (joinRoom_command soloState (NewMessage (some 1) ":JOIN AAAAAA".toList) 1 (by rfl)).2
      ":JOIN".toList "AAAAAA".toList [] (by rfl)⟩

/-- C15, counterexample to the claim as stated: the text ":JOIN AAAAAA extra"
has two arguments after the command token, yet `joinRoomHandler.handle` returns
no error and calls `Server.JoinRoom`: client 1, in no room before, is a member
of the room "AAAAAA" afterwards. -/
theorem joinRoom_command_counterexample :
    sliceFrom (SplitSpace ":JOIN AAAAAA extra".toList) 1
      = some ["AAAAAA".toList, "extra".toList] ∧
    (soloState.clientObjs[1]?).map client.room = some none ∧
    (soloState.roomObjs[0]?).map room.members = some [("AAAAAAAAAAAAAAAA".toList, 0)] ∧
    ∃ s1 : Server,
      joinRoomHandler.handle soloState (NewMessage (some 1) ":JOIN AAAAAA extra".toList)
        = some (s1, none) ∧
      (s1.clientObjs[1]?).map client.room = some (some 0) ∧
      (s1.roomObjs[0]?).map room.members
        = some [("AAAAAAAAAAAAAAAA".toList, 0), ("aaaaaaaaaaaaaaaa".toList, 1)] :=
  ⟨by rfl, by rfl, by rfl, _, by rfl, by rfl, by rfl⟩

/-- C16: admission.  Let `c` be a new client (`NewClient`) of any server state.
If `len(s.clients) >= s.config.MaxClients`, `Server.Join(c)` rejects it: the
notice "ERR: The server is full" is written to the connection of `c`, the
connection is closed, `c` is not served, and the clients table and all queues
are as before.  Otherwise `Server.Join(c)` admits it: the clients table maps
the id of `c` to `c`, `c` is served with its connection open, and one message
whose text is the id of `c` is put on the outbound queue of `c`; the queue of a
new client being empty, that message is the first one on it. -/
theorem join_admission (s : Server) (rnd : Nat → Nat) :
    ((s.clients.length : Int) ≥ s.config.MaxClients →
      ∃ s1 : Server, (NewClient s rnd).1.Join (NewClient s rnd).2 = some s1 ∧
        s1.clients = s.clients ∧
        s1.clientObjs[(NewClient s rnd).2]?
          = some { id := genClientID rnd, room := none,
                   connWritten := ["ERR: The server is full".toList],
                   connClosed := true, served := false } ∧
        s1.outgoing = s.outgoing) ∧
    (¬ ((s.clients.length : Int) ≥ s.config.MaxClients) →
      ∃ s1 : Server, (NewClient s rnd).1.Join (NewClient s rnd).2 = some s1 ∧
        s1.clients = mapSet s.clients (genClientID rnd) (NewClient s rnd).2 ∧
        mapGet s1.clients (genClientID rnd) = some (NewClient s rnd).2 ∧
        s1.clientObjs[(NewClient s rnd).2]?
          = some { id := genClientID rnd, room := none, connWritten := [],
                   connClosed := false, served := true } ∧
        s1.outgoing (NewClient s rnd).2
          = s.outgoing (NewClient s rnd).2
              ++ [NewMessage (some (NewClient s rnd).2) (genClientID rnd)] ∧
        (s.outgoing (NewClient s rnd).2 = [] →
          (s1.outgoing (NewClient s rnd).2).head?
            = some (NewMessage (some (NewClient s rnd).2) (genClientID rnd)))) := by
  refine ⟨?_, ?_⟩
  · intro hfull
    refine ⟨_, accept_full_eq s rnd hfull, rfl, ?_, rfl⟩
    exact get_append_new _ _
  · intro hfree
    refine ⟨_, accept_eq s rnd hfree, rfl, ?_, ?_, ?_, ?_⟩
    · show mapGet (mapSet s.clients (genClientID rnd) s.clientObjs.length) (genClientID rnd)
        = some s.clientObjs.length
      rw [mapGet_mapSet]
      simp only [if_true]
    · exact get_append_new _ _
    · show Function.update s.outgoing s.clientObjs.length _ s.clientObjs.length = _
      rw [Function.update_same]
      rfl
    · intro hempty
      show (Function.update s.outgoing s.clientObjs.length _ s.clientObjs.length).head? = _
      rw [Function.update_same]
      have e : s.outgoing s.clientObjs.length = [] := hempty
      rw [e]
      rfl

theorem join_admission_witness :
    (∃ s1 : Server, (NewClient lobbyState (fun _ => 3)).1.Join 3 = some s1 ∧
      mapGet s1.clients "bbbbbbbbbbbbbbbb".toList = some 3 ∧
      s1.clientObjs[3]?
        = some { id := "bbbbbbbbbbbbbbbb".toList, room := none, connWritten := [],
                 connClosed := false, served := true } ∧
      s1.outgoing 3 = [NewMessage (some 3) "bbbbbbbbbbbbbbbb".toList] ∧
      (s1.outgoing 3).head? = some (NewMessage (some 3) "bbbbbbbbbbbbbbbb".toList)) ∧
    (∃ s1 : Server, (NewClient packedState (fun _ => 3)).1.Join 2 = some s1 ∧
      s1.clients = packedState.clients ∧
      s1.clientObjs[2]?
        = some { id := "bbbbbbbbbbbbbbbb".toList, room := none,
                 connWritten := ["ERR: The server is full".toList],
                 connClosed := true, served := false } ∧
      s1.outgoing = packedState.outgoing) :=
  ⟨match (join_admission lobbyState (fun _ => 3)).2 (by decide) with
    | ⟨s1, h1, _, h3, h4, h5, h6⟩ => ⟨s1, h1, h3, h4, h5, h6 (by rfl)⟩,
   (join_admission packedState (fun _ => 3)).1 (by decide)⟩

/-- C17, what the code does: when `ServerConfig.MaxClients` is less than 1, the
test `len(s.clients) >= s.config.MaxClients` of `Server.Join` holds in every
state, so every new client is rejected as server-full: the notice
"ERR: The server is full" is written to its connection, the connection is
closed, the client is not served and the clients table stays as it was.  The
doc comment of `ServerConfig` says the number of clients is not limited then. -/
theorem join_rejects_below_one (s : Server) (rnd : Nat → Nat)
    (h : s.config.MaxClients < 1) :
    ∃ s1 : Server, (NewClient s rnd).1.Join (NewClient s rnd).2 = some s1 ∧
      s1.clients = s.clients ∧
      s1.clientObjs[(NewClient s rnd).2]?
        = some { id := genClientID rnd, room := none,
                 connWritten := ["ERR: The server is full".toList],
                 connClosed := true, served := false } := by
  have hfull : (s.clients.length : Int) ≥ s.config.MaxClients := by omega
  exact ⟨_, accept_full_eq s rnd hfull, rfl, get_append_new _ _⟩

theorem join_rejects_below_one_witness :
    (NewServer zeroConfig).clients = [] ∧
    ∃ s1 : Server,
      (NewClient (NewServer zeroConfig) (fun _ => 0)).1.Join 0 = some s1 ∧
      s1.clients = [] ∧
      s1.clientObjs[0]?
        = some { id := "AAAAAAAAAAAAAAAA".toList, room := none,
                 connWritten := ["ERR: The server is full".toList],
                 connClosed := true, served := false } :=
  ⟨by rfl, join_rejects_below_one (NewServer zeroConfig) (fun _ => 0) (by decide)⟩

/-- C18 as amended: for every line `str` that the read loop of client `c` reads
without error, the message put on the inbound channel has sender `c` and text
`strings.Trim(str, " \t\n")`: the line is a run of spaces, tabs and newlines,
then the text, then a run of spaces, tabs and newlines, and the text neither
starts nor ends with a space, a tab or a newline.  The loop then goes on with
the next read. -/
theorem readLoop_trims (c : ClientRef) (str : Str) (rest : List (Str × Option ReadError)) :
    client.readLoop c ((str, none) :: rest)
      = NewMessage (some c) (Trim str " \t\n".toList) :: client.readLoop c rest ∧
    (∃ front back : Str, str = front ++ Trim str " \t\n".toList ++ back ∧
      (∀ ch ∈ front, ch = ' ' ∨ ch = '\t' ∨ ch = '\n') ∧
      (∀ ch ∈ back, ch = ' ' ∨ ch = '\t' ∨ ch = '\n')) ∧
    (∀ ch : Char, (Trim str " \t\n".toList).head? = some ch →
      ch ≠ ' ' ∧ ch ≠ '\t' ∧ ch ≠ '\n') ∧
    (∀ ch : Char, (Trim str " \t\n".toList).getLast? = some ch →
      ch ≠ ' ' ∧ ch ≠ '\t' ∧ ch ≠ '\n') := by
  have hmem : ∀ ch : Char, ch ∈ " \t\n".toList ↔ (ch = ' ' ∨ ch = '\t' ∨ ch = '\n') := by
    intro ch
    have e : " \t\n".toList = [' ', '\t', '\n'] := rfl
    rw [e]
    simp
  refine ⟨rfl, ?_, ?_, ?_⟩
  · obtain ⟨front, back, hsplit, hfront, hback⟩ := trim_split str " \t\n".toList
    exact ⟨front, back, hsplit, fun ch hch => (hmem ch).1 (hfront ch hch),
      fun ch hch => (hmem ch).1 (hback ch hch)⟩
  · intro ch hch
    have hn := trim_head str " \t\n".toList ch hch
    rw [hmem] at hn
    exact ⟨fun e => hn (Or.inl e), fun e => hn (Or.inr (Or.inl e)),
      fun e => hn (Or.inr (Or.inr e))⟩
  · intro ch hch
    have hn := trim_last str " \t\n".toList ch hch
    rw [hmem] at hn
    exact ⟨fun e => hn (Or.inl e), fun e => hn (Or.inr (Or.inl e)),
      fun e => hn (Or.inr (Or.inr e))⟩

theorem readLoop_trims_witness :
    client.readLoop 0 [(" \thi there \n".toList, none)]
      = [NewMessage (some 0) "hi there".toList] ∧
    ('h' ≠ ' ' ∧ 'h' ≠ '\t' ∧ 'h' ≠ '\n') ∧ ('e' ≠ ' ' ∧ 'e' ≠ '\t' ∧ 'e' ≠ '\n') :=
  ⟨(readLoop_trims 0 " \thi there \n".toList []).1,
   (readLoop_trims 0 " \thi there \n".toList []).2.2.1 'h' (by rfl),
   (readLoop_trims 0 " \thi there \n".toList []).2.2.2 'e' (by rfl)⟩

/-- C18, counterexample to the claim as stated: for the newline-terminated line
"hi" followed by carriage return and newline, the read loop enqueues a message
whose text is "hi" followed by a carriage return: the text ends with a
whitespace character. -/
theorem readLoop_trims_counterexample :
    client.readLoop 0 [("hi\r\n".toList, none)] = [NewMessage (some 0) "hi\r".toList] ∧
    ("hi\r\n".toList).getLast? = some '\n' ∧
    (NewMessage (some 0) "hi\r".toList).text.getLast? = some '\r' :=
  ⟨by rfl, by rfl, by rfl⟩

/-- C19: a message whose text does not start with the command prefix and whose
sender is a live client in no room.  `Server.parse` returns the input state and
the input message: no outbound queue (of the sender or of anyone else) gets a
message, the text of the message is as it was, and the tables, rooms and
clients are unchanged. -/
theorem parse_plain_idle (s : Server) (m : Message) (c : ClientRef) (cl : client)
    (rnd : Nat → Nat)
    (hs : m.sender = some c) (hc : s.clientObjs[c]? = some cl) (hroom : cl.room = none)
    (hpre : HasPrefix m.text s.config.CommandPrefix = false) :
    s.parse m rnd = some (s, m) ∧
    ∀ (s1 : Server) (m1 : Message), s.parse m rnd = some (s1, m1) →
      (∀ p : ClientRef, s1.outgoing p = s.outgoing p) ∧ m1.text = m.text ∧
      s1.rooms = s.rooms ∧ s1.roomObjs = s.roomObjs ∧ s1.clientObjs = s.clientObjs ∧
      s1.clients = s.clients := by
  have e : s.parse m rnd = some (s, m) := by
    rw [parse_plain_eq s m rnd hpre]
    exact send_idle s m c cl hs hc hroom
  refine ⟨e, ?_⟩
  intro s1 m1 h1
  rw [e] at h1
  cases h1
  exact ⟨fun _ => rfl, rfl, rfl, rfl, rfl, rfl⟩

theorem parse_plain_idle_witness :
    lobbyState.parse (NewMessage (some 0) "hello".toList) (fun _ => 0)
      = some (lobbyState, NewMessage (some 0) "hello".toList) :=
  (parse_plain_idle lobbyState (NewMessage (some 0) "hello".toList) 0
    { id := "AAAAAAAAAAAAAAAA".toList, room := none, connWritten := [], connClosed := false,
      served := true }
    (fun _ => 0) (by rfl) (by rfl) (by rfl) (by rfl)).1

/-- C20: no panic in the dispatcher.  In every state of the running server (for
every configuration, hence every command prefix), for every message text and
every live sender: `Server.parse` returns, and so does each of the three
handlers.  The slice `m.text[len(prefix):]` is taken only when the text starts
with the prefix and is then in bounds; `strings.Split(m.text, " ")` is never
empty, so the slice `[1:]` of it is in bounds; and `args[0]` is read only when
`args` is not empty. -/
theorem parse_never_panics (s : Server) (h : Running s) (m : Message) (c : ClientRef)
    (cl : client) (rnd : Nat → Nat)
    (hs : m.sender = some c) (hc : s.clientObjs[c]? = some cl) :
    (∃ (s1 : Server) (m1 : Message), s.parse m rnd = some (s1, m1)) ∧
    (∀ hd : Handler, ∃ (s1 : Server) (e : Option Str), hd.handle s m rnd = some (s1, e)) ∧
    (HasPrefix m.text s.config.CommandPrefix = true →
      sliceFrom m.text s.config.CommandPrefix.length
        = some (m.text.drop s.config.CommandPrefix.length)) ∧
    (∃ (tok : Str) (args : List Str), SplitSpace m.text = tok :: args ∧
      sliceFrom (SplitSpace m.text) 1 = some args ∧
      (¬ args.length < 1 → ∃ arg0 : Str, args[0]? = some arg0)) := by
  have hinv : Inv s := running_inv s h
  refine ⟨parse_total s hinv m c cl rnd hs hc, ?_, ?_, ?_⟩
  · intro hd
    rcases handle_total hd s hinv m c cl rnd hs hc with ⟨err, herr⟩ | ⟨s1, hok⟩
    · exact ⟨s, some err, herr⟩
    · exact ⟨s1, none, hok⟩
  · intro hpre
    exact sliceFrom_prefix _ _ hpre
  · obtain ⟨tok, args, hsplit⟩ := splitSpace_cons m.text
    refine ⟨tok, args, hsplit, ?_, ?_⟩
    · rw [hsplit]
      simp [sliceFrom]
    · intro hlen
      cases args with
      | nil => exact absurd (by decide) hlen
      | cons arg0 more => exact ⟨arg0, by simp⟩

theorem parse_never_panics_witness :
    (∃ (s1 : Server) (m1 : Message),
      lobbyState.parse (NewMessage (some 0) "".toList) (fun _ => 0) = some (s1, m1)) ∧
    (∃ (s1 : Server) (m1 : Message),
      lobbyState.parse (NewMessage (some 0) ":".toList) (fun _ => 0) = some (s1, m1)) ∧
    (∃ (s1 : Server) (m1 : Message),
      demoState.parse (NewMessage (some 1) ":JOIN".toList) (fun _ => 0) = some (s1, m1)) :=
  ⟨(parse_never_panics lobbyState
      (reachable_running _
        (run_reachable lobbyOps _ _ (ReachableAdmitted.init DefaultServerConfig) (by rfl)))
      (NewMessage (some 0) "".toList) 0
      { id := "AAAAAAAAAAAAAAAA".toList, room := none, connWritten := [], connClosed := false,
        served := true }
      (fun _ => 0) (by rfl) (by rfl)).1,
   (parse_never_panics lobbyState
      (reachable_running _
        (run_reachable lobbyOps _ _ (ReachableAdmitted.init DefaultServerConfig) (by rfl)))
      (NewMessage (some 0) ":".toList) 0
      { id := "AAAAAAAAAAAAAAAA".toList, room := none, connWritten := [], connClosed := false,
        served := true }
      (fun _ => 0) (by rfl) (by rfl)).1,
   (parse_never_panics demoState
      (reachable_running _
        (run_reachable demoOps _ _ (ReachableAdmitted.init DefaultServerConfig) (by rfl)))
      (NewMessage (some 1) ":JOIN".toList) 1
      { id := "aaaaaaaaaaaaaaaa".toList, room := some 0, connWritten := [], connClosed := false,
        served := true }
      (fun _ => 0) (by rfl) (by rfl)).1⟩

end TcpRoom
